import Mathlib

/-! Foreign Linux `winfs`: a shallow embedding of `src/fs/winfs.c`

The functions of `winfs.c` are translated into pure Lean functions.  Buffers the
C code writes through a pointer are modelled by the ordered list of the stores it
performs (index, value), so that out-of-range stores stay visible.  The
Windows host (the namespace of files, the file pointer of a handle, the answers to I/O
calls) is an explicit value passed to every function.  Constants of headers that are
not under src/ are the values of the Linux ABI the layer emulates (errno, open flags)
or of the Windows SDK; the project's own internal constants are parameters.
-/

namespace Winfs

/-! ## Memory written through a pointer -/

/-- A store `buf[index] = value` performed by the code. -/
abbrev Store := Nat × Nat

/-- Memory seen through one pointer: the value held at each index. -/
abbrev Mem := Nat → Nat

/-- Effect of one store on memory. -/
def Mem.store (m : Mem) (s : Store) : Mem :=
  fun j => if j = s.1 then s.2 else m j

/-- Effect of a sequence of stores, performed left to right. -/
def Mem.apply (m : Mem) (ws : List Store) : Mem :=
  ws.foldl Mem.store m

/-- The first `n` cells of a memory, as a list. -/
def Mem.read (m : Mem) (n : Nat) : List Nat :=
  (List.range n).map m

/-- Stores performed by `memcpy(buf + base, src, len)`: cell `base + i` receives `src[i]`. -/
def memcpy_stores : Nat → List Nat → List Store
  | _, [] => []
  | base, x :: xs => (base, x) :: memcpy_stores (base + 1) xs

/-! ## Path translator (`winfs.c` lines 114-134) -/

/-- The fields of `struct mount_point` (declared in `syscall/vfs.h`) that `winfs.c`
reads.  `win_path_len` is the number of code units of `win_path`. -/
structure mount_point where
  key : Nat
  win_path : List Nat
deriving Repr, DecidableEq

/-- Length of the native prefix, `mp->win_path_len`. -/
def mount_point.win_path_len (mp : mount_point) : Int := mp.win_path.length

/-- The external converter `utf8_to_utf16_filename(data, len, out, outlen)` of `str.h`:
given the bytes of the name and the capacity it returns its `int` result and the code
units it stored at `out[0]`, `out[1]`, ... -/
abbrev Utf16Converter := List Nat → Int → Int × List Nat

/-- Result of `filename_to_nt_pathname`: the returned length and the stores into `buf`. -/
structure PathResult where
  ret : Int
  writes : List Store
deriving Repr, DecidableEq

/-- The backslash separator, the wide character written at line 127. -/
def BACKSLASH : Nat := 0x5C

/-- Embedding of `filename_to_nt_pathname` (lines 115-134).  `filename` holds the bytes
of the NUL-terminated name before the terminator, so `filename[0] == 0` is
`filename = []`. -/
def filename_to_nt_pathname (conv : Utf16Converter) (mp : mount_point)
    (filename : List Nat) (buf_size : Int) : PathResult :=
  if buf_size < mp.win_path_len then
    ⟨0, []⟩
  else
    let w1 := memcpy_stores 0 mp.win_path
    let out_size := mp.win_path_len
    let buf_size := buf_size - mp.win_path_len
    if filename = [] then
      ⟨out_size, w1⟩
    else if buf_size < 1 then
      ⟨0, w1⟩
    else
      let w2 := w1 ++ [(mp.win_path.length, BACKSLASH)]
      let out_size := out_size + 1
      let buf_size := buf_size - 1
      let c := conv filename buf_size
      let w3 := w2 ++ memcpy_stores (mp.win_path.length + 1) c.2
      if c.1 < 0 then
        ⟨0, w3⟩
      else
        ⟨out_size + c.1, w3⟩

/-- The meaning of the result of `utf8_to_utf16_filename`: a non-negative result is the
number of code units stored (the converted length). -/
def ConverterCounts (conv : Utf16Converter) : Prop :=
  ∀ (p : List Nat) (cap : Int),
    0 ≤ (conv p cap).1 → (conv p cap).1 = ((conv p cap).2.length : Int)

/-- The assumption under which the translator stays within its buffer: the converter
stores at most `cap` code units and a non-negative result is at most `cap` (overflow is
reported by a negative value). -/
def ConverterBounded (conv : Utf16Converter) : Prop :=
  ∀ (p : List Nat) (cap : Int), 0 ≤ cap →
    ((conv p cap).2.length : Int) ≤ cap ∧ (0 ≤ (conv p cap).1 → (conv p cap).1 ≤ cap)

/-- A small converter meeting both assumptions (one code unit per byte), used to run the
model on concrete inputs. -/
def ascii_converter : Utf16Converter :=
  fun p cap => if (p.length : Int) ≤ cap then ((p.length : Int), p) else (-1, p.take cap.toNat)

/-- Reference definition of the path translator, following the specification text:
failure when the capacity is below the prefix, when no unit is left for the separator,
or when conversion overflows; the empty path gives the prefix alone; otherwise
prefix, separator, converted path.  `none` stands for failure (result 0). -/
def translate_ref (conv : Utf16Converter) (mp : mount_point) (path : List Nat)
    (capacity : Int) : Option (List Nat) :=
  if capacity < mp.win_path.length then none
  else if path = [] then some mp.win_path
  else if capacity - mp.win_path.length < 1 then none
  else if (conv path (capacity - mp.win_path.length - 1)).1 < 0 then none
  else some (mp.win_path ++ [BACKSLASH] ++ (conv path (capacity - mp.win_path.length - 1)).2)

/-! ## Constants of headers that are not under src/

The `L_E*` error numbers and the `O_*` open flags are those of the Linux ABI, which the
layer has to present to the Linux binaries it runs. -/

/-- Modelled from the spec: `common/errno.h` is not under src/; the "not-found" kind of the
error taxonomy, with its Linux value `ENOENT`. -/
def L_ENOENT : Int := 2

/-- Modelled from the spec: `common/errno.h` is not under src/; the "I/O failure" kind of
the error taxonomy, with its Linux value `EIO`. -/
def L_EIO : Int := 5

/-- Modelled from the spec: `common/errno.h` is not under src/; the "already-exists" kind,
Linux `EEXIST`. -/
def L_EEXIST : Int := 17

/-- Modelled from the spec: `common/errno.h` is not under src/; the "busy" kind, Linux
`EBUSY`. -/
def L_EBUSY : Int := 16

/-- Modelled from the spec: `common/errno.h` is not under src/; the "not-a-directory" kind,
Linux `ENOTDIR`. -/
def L_ENOTDIR : Int := 20

/-- Modelled from the spec: `common/errno.h` is not under src/; the "symlink-loop" kind,
Linux `ELOOP`. -/
def L_ELOOP : Int := 40

/-- Modelled from the spec: `common/fcntl.h` is not under src/; `O_WRONLY` with its Linux
value. -/
def O_WRONLY : Nat := 0o1

/-- Modelled from the spec: `common/fcntl.h` is not under src/; `O_RDWR`, Linux value. -/
def O_RDWR : Nat := 0o2

/-- Modelled from the spec: `common/fcntl.h` is not under src/; `O_CREAT`, Linux value. -/
def O_CREAT : Nat := 0o100

/-- Modelled from the spec: `common/fcntl.h` is not under src/; `O_EXCL`, Linux value. -/
def O_EXCL : Nat := 0o200

/-- Modelled from the spec: `common/fcntl.h` is not under src/; `O_TRUNC`, Linux value. -/
def O_TRUNC : Nat := 0o1000

/-- Modelled from the spec: `common/fcntl.h` is not under src/; the directory-exclusive
flag `O_DIRECTORY`, Linux value. -/
def O_DIRECTORY : Nat := 0o200000

/-- Modelled from the spec: `common/fcntl.h` is not under src/; the do-not-follow flag
`O_NOFOLLOW`, Linux value. -/
def O_NOFOLLOW : Nat := 0o400000

/-- Modelled from the spec: `common/fcntl.h` is not under src/; the path-only flag
`O_PATH`, Linux value. -/
def O_PATH : Nat := 0o10000000

/-- Modelled from the spec: `PATH_MAX` is defined in a header that is not under src/; the
Linux value. -/
def PATH_MAX : Nat := 4096

/-- The internal open flags of `syscall/vfs.h`, which is not under src/: their bit values
are parameters of the model. -/
structure vfs_h where
  INTERNAL_O_DELETE : Nat
  INTERNAL_O_SPECIAL : Nat
  INTERNAL_O_NOINHERIT : Nat
  INTERNAL_O_TMP : Nat
deriving Repr, DecidableEq

/-- The magic sequences of `fs/winfs.h`, which is not under src/: parameters of the
model.  `WINFS_SYMLINK_HEADER_LEN` is the length of `WINFS_SYMLINK_HEADER`. -/
structure winfs_h where
  WINFS_SYMLINK_HEADER : List Nat
  WINFS_UNIX_HEADER : List Nat
  WINFS_HEADER_MAX_LEN : Nat
deriving Repr, DecidableEq

/-- Length of the symlink magic sequence. -/
def winfs_h.WINFS_SYMLINK_HEADER_LEN (H : winfs_h) : Nat := H.WINFS_SYMLINK_HEADER.length

/-! ### Windows SDK constants -/

/-- Access right `GENERIC_READ`. -/
def GENERIC_READ : Nat := 0x80000000

/-- Access right `GENERIC_WRITE`. -/
def GENERIC_WRITE : Nat := 0x40000000

/-- Access right `GENERIC_ALL`. -/
def GENERIC_ALL : Nat := 0x10000000

/-- Access right `DELETE`. -/
def DELETE : Nat := 0x00010000

/-- Access right `SYNCHRONIZE`. -/
def SYNCHRONIZE : Nat := 0x00100000

/-- Access right `FILE_READ_ATTRIBUTES`. -/
def FILE_READ_ATTRIBUTES : Nat := 0x80

/-- File attribute `FILE_ATTRIBUTE_SYSTEM`. -/
def FILE_ATTRIBUTE_SYSTEM : Nat := 0x4

/-- File attribute `FILE_ATTRIBUTE_DIRECTORY`. -/
def FILE_ATTRIBUTE_DIRECTORY : Nat := 0x10

/-- File attribute `FILE_ATTRIBUTE_NORMAL`. -/
def FILE_ATTRIBUTE_NORMAL : Nat := 0x80

/-- Create disposition `FILE_OPEN`: open an existing file only. -/
def FILE_OPEN : Nat := 1

/-- Create disposition `FILE_CREATE`: create a new file, fail if it exists. -/
def FILE_CREATE : Nat := 2

/-- Create disposition `FILE_OPEN_IF`: open the file, or create it if absent. -/
def FILE_OPEN_IF : Nat := 3

/-- Create option `FILE_SYNCHRONOUS_IO_NONALERT`. -/
def FILE_SYNCHRONOUS_IO_NONALERT : Nat := 0x20

/-- Create option `FILE_OPEN_FOR_BACKUP_INTENT`. -/
def FILE_OPEN_FOR_BACKUP_INTENT : Nat := 0x4000

/-- Create option `FILE_OPEN_REMOTE_INSTANCE`. -/
def FILE_OPEN_REMOTE_INSTANCE : Nat := 0x400

/-- Status `STATUS_SUCCESS`. -/
def STATUS_SUCCESS : Nat := 0

/-- Status `STATUS_OBJECT_NAME_NOT_FOUND`. -/
def STATUS_OBJECT_NAME_NOT_FOUND : Nat := 0xC0000034

/-- Status `STATUS_OBJECT_NAME_COLLISION`. -/
def STATUS_OBJECT_NAME_COLLISION : Nat := 0xC0000035

/-- The macro `NT_SUCCESS(status)`: the status, read as a signed 32-bit value, is not
negative. -/
def NT_SUCCESS (status : Nat) : Bool := status % 4294967296 < 0x80000000

/-- The C truth value of `x & mask`. -/
def has_flag (x mask : Nat) : Bool := x &&& mask != 0

/-! ## Special-file codec (`winfs.c` lines 53-112 and 379-431) -/

/-- Type tag `MD_TYPE_FIFO` (line 54). -/
def MD_TYPE_FIFO : Nat := 0x1000

/-- Type tag `MD_TYPE_CHAR_DEV` (line 55). -/
def MD_TYPE_CHAR_DEV : Nat := 0x2000

/-- Type tag `MD_TYPE_DIRECTORY` (line 56). -/
def MD_TYPE_DIRECTORY : Nat := 0x4000

/-- Type tag `MD_TYPE_BLOCK_DEV` (line 57). -/
def MD_TYPE_BLOCK_DEV : Nat := 0x6000

/-- Type tag `MD_TYPE_FILE` (line 58). -/
def MD_TYPE_FILE : Nat := 0x8000

/-- Type tag `MD_TYPE_SYMLINK` (line 59). -/
def MD_TYPE_SYMLINK : Nat := 0xA000

/-- Type tag `MD_TYPE_SOCKET` (line 60). -/
def MD_TYPE_SOCKET : Nat := 0xC000

/-- The struct `metadata` (lines 63-67). -/
structure metadata where
  type : Nat
  perm : Nat
  uid : Nat
  gid : Nat
deriving Repr, DecidableEq

/-- What the C library reports for the sidecar file `<path>[meta]`: `fopen` fails
(`absent`), `fscanf("%c %o %u:%u")` does not convert four fields (`unparsable`), or it
converts the type character and the three numbers (`record`). -/
inductive MetaFile where
  | absent
  | unparsable
  | record (type : Nat) (p : Nat) (u : Nat) (g : Nat)
deriving Repr, DecidableEq

/-- Embedding of `read_meta_file` (lines 69-103) on the answer of the C library. -/
def read_meta_file (m : MetaFile) : Option metadata :=
  match m with
  | .absent => none
  | .unparsable => none
  | .record type p u g =>
    let t : Option Nat :=
      if type = 'D'.toNat then some MD_TYPE_DIRECTORY
      else if type = 'Q'.toNat then some MD_TYPE_FIFO
      else if type = 'C'.toNat then some MD_TYPE_CHAR_DEV
      else if type = 'B'.toNat then some MD_TYPE_BLOCK_DEV
      else if type = 'F'.toNat then some MD_TYPE_FILE
      else if type = 'L'.toNat then some MD_TYPE_SYMLINK
      else if type = 'S'.toNat then some MD_TYPE_SOCKET
      else none
    match t with
    | none => none
    | some ty =>
      if p > 0xfff ∨ u > 0xffff ∨ g > 0xffff then none
      else some ⟨ty, p, u, g⟩

/-- A file of the host as seen through a handle: its attributes and content, what the
sidecar lookup finds for it, and which host calls on it succeed. -/
structure HostFile where
  attributes : Nat
  content : List Nat
  /-- Whether `GetFinalPathNameByHandleA` returns a non-empty path. -/
  path_ok : Bool := true
  meta : MetaFile := .absent
  /-- Status `NtCreateFile` gives when this existing file is opened. -/
  open_status : Nat := 0
  /-- Whether `NtQueryInformationFile(FileAttributeTagInformation)` succeeds. -/
  query_ok : Bool := true
  /-- Whether `ReOpenFile` with read access added succeeds. -/
  reopen_ok : Bool := true
  /-- Whether `ReadFile` succeeds before the end of the file. -/
  read_ok : Bool := true
  /-- Whether `GetFileSizeEx` succeeds. -/
  size_ok : Bool := true
  /-- Whether `NtSetInformationFile(FileDispositionInformation)` succeeds. -/
  delete_ok : Bool := true
deriving Repr, DecidableEq

/-- Embedding of `read_meta_file_h` (lines 105-112). -/
def read_meta_file_h (h : HostFile) : Option metadata :=
  if !h.path_ok then none else read_meta_file h.meta

/-- Host `ReadFile(hFile, buf, len, &num_read, &overlapped)` at an explicit offset:
`none` when it fails (for another reason, or because the offset is at or past the end of
the file), else the bytes read. -/
def HostFile.ReadFile (h : HostFile) (offset len : Nat) : Option (List Nat) :=
  if !h.read_ok then none
  else if h.content.length ≤ offset then none
  else some ((h.content.drop offset).take len)

/-- Conversion of an `int` argument to the `DWORD` parameter of a host call. -/
def dword_of_int (x : Int) : Nat := (x % 4294967296).toNat

/-- Conversion of a `DWORD` to the `int` it is returned as. -/
def int_of_dword (n : Nat) : Int :=
  if n % 4294967296 < 2147483648 then (n % 4294967296 : Nat) else (n % 4294967296 : Nat) - 4294967296

/-- Result of `winfs_read_symlink_unsafe`: the value returned, the stores into `target`
and the file pointer of the handle afterwards. -/
structure SymlinkResult where
  ret : Int
  target : List Store
  cursor : Nat
deriving Repr, DecidableEq

/-- Embedding of `winfs_read_symlink_unsafe` (lines 379-431); `target_null` is
`target == NULL`, `cursor` the file pointer of the handle at entry. -/
def winfs_read_symlink_unsafe (H : winfs_h) (h : HostFile) (cursor : Nat)
    (target_null : Bool) (buflen : Int) : SymlinkResult :=
  let is_meta_symlink : Bool :=
    match read_meta_file_h h with
    | some md => md.type == MD_TYPE_SYMLINK
    | none => false
  if is_meta_symlink then
    if target_null || buflen == 0 then
      if !h.size_ok || PATH_MAX ≤ h.content.length then ⟨0, [], cursor⟩
      else ⟨h.content.length, [], cursor⟩
    else
      match h.ReadFile 0 (dword_of_int buflen) with
      | none => ⟨0, [], cursor⟩
      | some bytes =>
        ⟨int_of_dword bytes.length, memcpy_stores 0 bytes ++ [(bytes.length, 0)], bytes.length⟩
  else
    match h.ReadFile 0 H.WINFS_SYMLINK_HEADER_LEN with
    | none => ⟨0, [], 0⟩
    | some header =>
      if header.length < H.WINFS_SYMLINK_HEADER_LEN then ⟨0, [], 0⟩
      else if header ≠ H.WINFS_SYMLINK_HEADER then ⟨0, [], 0⟩
      else if target_null || buflen == 0 then
        if !h.size_ok || PATH_MAX ≤ h.content.length - H.WINFS_SYMLINK_HEADER_LEN then
          ⟨0, [], H.WINFS_SYMLINK_HEADER_LEN⟩
        else
          ⟨((h.content.length - H.WINFS_SYMLINK_HEADER_LEN : Nat) : Int), [],
            H.WINFS_SYMLINK_HEADER_LEN⟩
      else
        match h.ReadFile H.WINFS_SYMLINK_HEADER_LEN (dword_of_int buflen) with
        | none => ⟨0, [], H.WINFS_SYMLINK_HEADER_LEN⟩
        | some bytes =>
          ⟨int_of_dword bytes.length, memcpy_stores 0 bytes ++ [(bytes.length, 0)],
            H.WINFS_SYMLINK_HEADER_LEN + bytes.length⟩

/-! ## Open/create engine (`winfs.c` lines 1231-1418) -/

/-- The host namespace: the files that exist, by native path name. -/
abbrev Host := List (List Nat × HostFile)

/-- An open host handle: the name it was opened by, the file behind it and the access
it was granted. -/
structure Handle where
  name : List Nat
  file : HostFile
  access : Nat
deriving Repr, DecidableEq

/-- The arguments of one `NtCreateFile` call. -/
structure CreateRequest where
  name : List Nat
  desired_access : Nat
  attributes : Nat
  create_disposition : Nat
  create_options : Nat
  inherit : Bool
deriving Repr, DecidableEq

/-- Host `NtCreateFile`: the status, the file opened (on success) and the namespace
afterwards.  Create-new on an existing name collides; opening an existing file gives the
status the host holds for it; a file that is absent is created unless the disposition is
`FILE_OPEN`.  A created file is empty, has the requested attributes and no sidecar. -/
def NtCreateFile (host : Host) (rq : CreateRequest) : Nat × Option HostFile × Host :=
  match host.lookup rq.name with
  | some f =>
    if rq.create_disposition = FILE_CREATE then (STATUS_OBJECT_NAME_COLLISION, none, host)
    else if NT_SUCCESS f.open_status then (f.open_status, some f, host)
    else (f.open_status, none, host)
  | none =>
    if rq.create_disposition = FILE_OPEN then (STATUS_OBJECT_NAME_NOT_FOUND, none, host)
    else
      (STATUS_SUCCESS, some { attributes := rq.attributes, content := [] },
        (rq.name, { attributes := rq.attributes, content := [] }) :: host)

/-- Result of `open_file`: the value returned, the handle stored in `*hFile`, the drive
letter stored in `*drive_letter`, the stores into `target`, the `NtCreateFile` calls
issued, the handles closed with `NtClose`, and the host namespace afterwards. -/
structure OpenFileResult where
  ret : Int
  hFile : Option Handle
  drive_letter : Option Nat
  target : List Store
  requests : List CreateRequest
  closed : List Handle
  host : Host
deriving Repr, DecidableEq

/-- The name `open_file` passes to the host (lines 1235-1241): the counted string
`name` built from the translated path, together with `buf[4]`; `none` when
`name.Length`, a 16-bit field, is 0. -/
def open_file_name (conv : Utf16Converter) (mp : mount_point) (pathname : List Nat) :
    Option (List Nat × Nat) :=
  let t := filename_to_nt_pathname conv mp pathname PATH_MAX
  let buf : Mem := Mem.apply (fun _ => 0) t.writes
  let name_Length : Nat := (2 * t.ret % 65536).toNat
  if name_Length = 0 then none
  else some (buf.read (name_Length / 2), buf 4)

/-- The `NtCreateFile` call of `open_file` (lines 1254-1267). -/
def open_file_request (name : List Nat) (desired_access create_disposition attributes : Nat)
    (bInherit : Bool) : CreateRequest :=
  let create_options : Nat :=
    if has_flag desired_access GENERIC_ALL then
      FILE_SYNCHRONOUS_IO_NONALERT ||| (FILE_OPEN_FOR_BACKUP_INTENT ||| FILE_OPEN_REMOTE_INSTANCE)
    else
      (FILE_SYNCHRONOUS_IO_NONALERT |||
        (if has_flag desired_access GENERIC_READ then FILE_OPEN_FOR_BACKUP_INTENT else 0)) |||
        (if has_flag desired_access GENERIC_WRITE then FILE_OPEN_REMOTE_INSTANCE else 0)
  let desired_access := desired_access ||| (SYNCHRONIZE ||| FILE_READ_ATTRIBUTES)
  ⟨name, desired_access, attributes, create_disposition, create_options, bInherit⟩

/-- What `open_file` does with a file the host has opened (lines 1279-1327): the value
returned, the handle stored in `*hFile`, the stores into `target` and the handles
closed. -/
def open_file_opened (H : winfs_h) (rq : CreateRequest) (f : HostFile) (flags : Nat)
    (target_null : Bool) (buflen : Int) : Int × Option Handle × List Store × List Handle :=
  let handle : Handle := ⟨rq.name, f, rq.desired_access⟩
  if !f.query_ok then (- L_EIO, none, [], [handle])
  else if !has_flag f.attributes FILE_ATTRIBUTE_DIRECTORY then
    if !has_flag rq.desired_access GENERIC_READ && !f.reopen_ok then
      (0, some handle, [], [])
    else
      let reopened := !has_flag rq.desired_access GENERIC_READ
      let probe : Handle :=
        if reopened then ⟨rq.name, f, rq.desired_access ||| GENERIC_READ⟩ else handle
      let closed0 : List Handle := if reopened then [handle] else []
      let sl := winfs_read_symlink_unsafe H f 0 target_null buflen
      if sl.ret > 0 then
        if !has_flag flags O_NOFOLLOW then (1, none, sl.target, closed0 ++ [probe])
        else if !has_flag flags O_PATH then (-L_ELOOP, none, sl.target, closed0 ++ [probe])
        else (0, some probe, sl.target, closed0)
      else (0, some probe, sl.target, closed0)
  else if !has_flag f.attributes FILE_ATTRIBUTE_DIRECTORY && has_flag flags O_DIRECTORY then
    (-L_ENOTDIR, none, [], [])
  else (0, some handle, [], [])

/-- Embedding of `open_file` (lines 1231-1328).  `target_null` is `target == NULL`. -/
def open_file (H : winfs_h) (conv : Utf16Converter) (host : Host) (mp : mount_point)
    (pathname : List Nat) (desired_access create_disposition attributes flags : Nat)
    (bInherit : Bool) (target_null : Bool) (buflen : Int) : OpenFileResult :=
  match open_file_name conv mp pathname with
  | none => ⟨-L_ENOENT, none, none, [], [], [], host⟩
  | some (name, drive_letter) =>
    let rq := open_file_request name desired_access create_disposition attributes bInherit
    match NtCreateFile host rq with
    | (status, opened, host1) =>
      if status = STATUS_OBJECT_NAME_COLLISION then
        ⟨-L_EEXIST, none, some drive_letter, [], [rq], [], host1⟩
      else if !NT_SUCCESS status then
        ⟨-L_ENOENT, none, some drive_letter, [], [rq], [], host1⟩
      else
        match opened with
        | none => ⟨-L_ENOENT, none, some drive_letter, [], [rq], [], host1⟩
        | some f =>
          let r := open_file_opened H rq f flags target_null buflen
          ⟨r.1, r.2.1, some drive_letter, r.2.2.1, [rq], r.2.2.2, host1⟩

/-- The function `strrchr(s, c)`: the part of `s` from the last occurrence of `c`. -/
def strrchr (c : Nat) : List Nat → Option (List Nat)
  | [] => none
  | x :: xs =>
    match strrchr c xs with
    | some r => some r
    | none => if x = c then some (x :: xs) else none

/-- The text classification of `winfs_open` (lines 1377-1384). -/
def winfs_open_is_text (pathname : List Nat) : Bool :=
  match strrchr '.'.toNat pathname with
  | some ext =>
    ext == ['.'.toNat, 'c'.toNat] || ext == ['.'.toNat, 'h'.toNat] ||
      ext == ['.'.toNat, 'h'.toNat, 'h'.toNat]
  | none => false

/-- The fields of `struct winfs_file` (lines 42-51) and the open flags kept by
`file_init` in its base. -/
structure winfs_file where
  flags : Nat
  handle : Handle
  restart_scan : Nat
  mp_key : Nat
  drive_letter : Nat
  is_text : Bool
deriving Repr, DecidableEq

/-- The access mask, creation disposition, attributes and inheritance `winfs_open`
computes from the flags (lines 1336-1360). -/
def winfs_open_args (V : vfs_h) (flags internal_flags : Nat) (fp_null : Bool) :
    Nat × Nat × Nat × Bool :=
  let desired_access : Nat :=
    if has_flag flags O_PATH then 0
    else if has_flag flags O_RDWR then GENERIC_READ ||| GENERIC_WRITE
    else if has_flag flags O_WRONLY then GENERIC_WRITE
    else GENERIC_READ
  let desired_access :=
    if has_flag internal_flags V.INTERNAL_O_DELETE then desired_access ||| DELETE
    else desired_access
  let create_disposition : Nat :=
    if has_flag flags O_EXCL then FILE_CREATE
    else if has_flag flags O_CREAT then FILE_OPEN_IF
    else FILE_OPEN
  let attributes : Nat :=
    if has_flag internal_flags V.INTERNAL_O_SPECIAL then FILE_ATTRIBUTE_SYSTEM
    else FILE_ATTRIBUTE_NORMAL
  let bInherit : Bool :=
    if fp_null || has_flag internal_flags V.INTERNAL_O_NOINHERIT then false else true
  (desired_access, create_disposition, attributes, bInherit)

/-- Truncation of a file of the namespace to length 0. -/
def Host.truncate (host : Host) (name : List Nat) : Host :=
  host.map (fun e => if e.1 = name then (e.1, { e.2 with content := [] }) else e)

/-- Result of `winfs_open`: the value returned, the file object stored in `*fp`, the
stores into `target` and the host calls made. -/
structure OpenResult where
  ret : Int
  fp : Option winfs_file
  target : List Store
  requests : List CreateRequest
  closed : List Handle
  host : Host
deriving Repr, DecidableEq

/-- Embedding of `winfs_open` (lines 1330-1418).  `fp_null` is `fp == NULL`; `mode` is
not used by the code. -/
def winfs_open (V : vfs_h) (H : winfs_h) (conv : Utf16Converter) (host : Host)
    (mp : mount_point) (pathname : List Nat) (flags internal_flags : Nat) (_mode : Nat)
    (fp_null : Bool) (target_null : Bool) (buflen : Int) : OpenResult :=
  let a := winfs_open_args V flags internal_flags fp_null
  let r := open_file H conv host mp pathname a.1 a.2.1 a.2.2.1 flags a.2.2.2 target_null buflen
  if r.ret < 0 || r.ret == 1 then ⟨r.ret, none, r.target, r.requests, r.closed, r.host⟩
  else
    match r.hFile with
    | none => ⟨r.ret, none, r.target, r.requests, r.closed, r.host⟩
    | some handle =>
      let host1 :=
        if has_flag flags O_TRUNC && (has_flag flags O_WRONLY || has_flag flags O_RDWR) then
          if has_flag handle.access GENERIC_WRITE then r.host.truncate handle.name else r.host
        else r.host
      if !fp_null then
        let file : winfs_file :=
          { flags := flags, handle := handle, restart_scan := 1, mp_key := mp.key,
            drive_letter := r.drive_letter.getD 0, is_text := winfs_open_is_text pathname }
        if has_flag internal_flags V.INTERNAL_O_TMP && !handle.file.delete_ok then
          ⟨-L_EBUSY, none, r.target, r.requests, r.closed, host1⟩
        else
          ⟨0, some file, r.target, r.requests, r.closed, host1⟩
      else
        ⟨0, none, r.target, r.requests, r.closed ++ [handle], host1⟩

/-! ## Positioned I/O engine (`winfs.c` lines 505-682) -/

/-- Carriage return, `'\r'`. -/
def CR : Nat := 13

/-- Space, `' '`. -/
def SPACE : Nat := 32

/-- One iteration of the loop of `patch_cr` (lines 510-517) with `dst = start + k`
already advanced to cell `dst`; `dst > start` is `start < dst`. -/
def patch_cr_step (start : Nat) (m : Mem) (dst : Nat) : Mem :=
  if m dst = CR then
    if start < dst ∧ m (dst - 1) = BACKSLASH then
      (m.store (dst - 1, SPACE)).store (dst, BACKSLASH)
    else
      m.store (dst, SPACE)
  else m

/-- The loop `while (count-- != 0) { ...; ++dst; }` of `patch_cr`. -/
def patch_cr_loop (start : Nat) : Nat → Nat → Mem → Mem
  | 0, _, m => m
  | count + 1, dst, m => patch_cr_loop start count (dst + 1) (patch_cr_step start m dst)

/-- Embedding of `patch_cr(buf, count)` (lines 505-519); `start` is the index of `buf`
in the caller's memory. -/
def patch_cr (m : Mem) (start count : Nat) : Mem :=
  patch_cr_loop start count start m

/-- Memory holding the bytes of a list from index 0 on (0 elsewhere). -/
def Mem.ofList (l : List Nat) : Mem := fun j => l.getD j 0

/-- The function `patch_cr` applied to a buffer given as a list of bytes. -/
def patch_cr_list (l : List Nat) : List Nat :=
  (patch_cr (Mem.ofList l) 0 l.length).read l.length

/-- The constant `UINT_MAX` of `limits.h`. -/
def UINT_MAX : Nat := 4294967295

/-- Arithmetic of `ssize_t` (`intptr_t`, 64-bit build): reduction of a sum into the signed
64-bit range. -/
def wrap_ssize (x : Int) : Int := (x + 2 ^ 63) % 2 ^ 64 - 2 ^ 63

/-- Arithmetic of `loff_t` (`int64_t`): reduction into the signed 64-bit range. -/
def wrap_loff (x : Int) : Int := (x + 2 ^ 63) % 2 ^ 64 - 2 ^ 63

/-- Largest `ssize_t`. -/
def SSIZE_MAX : Int := 2 ^ 63 - 1

/-- Answer of the host to one `ReadFile`: the bytes it has available (it transfers at
most the requested number of them), end of file (`ERROR_HANDLE_EOF`), or another failure. -/
inductive ReadAnswer where
  | data (bytes : List Nat)
  | eof
  | error
deriving Repr, DecidableEq

/-- Answer of the host to one `WriteFile`: the number of bytes it is ready to take (it
takes at most the requested number), or a failure. -/
inductive WriteAnswer where
  | accepted (n : Nat)
  | error
deriving Repr, DecidableEq

/-- How a host I/O call ended. -/
inductive IoStatus where
  | ok
  | eof
  | error
deriving Repr, DecidableEq

/-- One host `ReadFile`/`WriteFile` call as issued by the code: the `OVERLAPPED` offset
pair (`none` for a NULL pointer), the shared cursor at the time of the call, the byte
count requested, how the host answered and the bytes transferred. -/
structure IoCall where
  overlapped : Option (Nat × Nat)
  cursor : Nat
  count : Nat
  status : IoStatus
  data : List Nat
deriving Repr, DecidableEq

/-- Number of bytes a host call transferred. -/
def IoCall.transferred (c : IoCall) : Nat := c.data.length

/-- Lock operations on a handle: the validity lock `rw_lock` and the position lock
`fp_mutex`. -/
inductive LockEvent where
  | AcquireSRWLockShared
  | ReleaseSRWLockShared
  | ReleaseSRWLockExclusive
  | WaitForSingleObject
  | ReleaseMutex
deriving Repr, DecidableEq

/-- The host side of an open handle during I/O: the shared file pointer, the file size,
and the answers the host will give to the coming `ReadFile` and `WriteFile` calls.  Past
the end of `reads` the host answers end of file, past the end of `writes` it fails. -/
structure IoHost where
  cursor : Nat
  size : Nat
  reads : List ReadAnswer
  writes : List WriteAnswer
deriving Repr, DecidableEq

/-- Move method `FILE_BEGIN` of `SetFilePointerEx`. -/
def FILE_BEGIN : Nat := 0

/-- Move method `FILE_CURRENT` of `SetFilePointerEx`. -/
def FILE_CURRENT : Nat := 1

/-- Move method `FILE_END` of `SetFilePointerEx`. -/
def FILE_END : Nat := 2

/-- Host `SetFilePointerEx(handle, dist, &new, method)`: the new file pointer, or `none`
when the call fails (a move before the start of the file). -/
def SetFilePointerEx (cursor size : Nat) (dist : Int) (method : Nat) : Option Nat :=
  let base : Int :=
    if method = FILE_BEGIN then 0 else if method = FILE_CURRENT then cursor else size
  if base + dist < 0 then none else some (base + dist).toNat

/-- Position a host call operates at: the shared cursor for a NULL `OVERLAPPED`, else the
64-bit offset assembled from `Offset` and `OffsetHigh`. -/
def io_position (cursor : Nat) (ov : Option (Nat × Nat)) : Nat :=
  match ov with
  | none => cursor
  | some o => o.1 + 4294967296 * o.2

/-- Position of a `WriteFile`: as `io_position`, except that the offset pair
`0xFFFFFFFF:0xFFFFFFFF` means "end of file". -/
def write_position (cursor size : Nat) (ov : Option (Nat × Nat)) : Nat :=
  match ov with
  | none => cursor
  | some o => if o.1 = 0xFFFFFFFF ∧ o.2 = 0xFFFFFFFF then size else o.1 + 4294967296 * o.2

/-- The `OVERLAPPED` offset pair built from a `loff_t` (lines 617-618):
`Offset = offset & 0xFFFFFFFF`, `OffsetHigh = offset >> 32` stored in a `DWORD`. -/
def overlapped_of (offset : Int) : Nat × Nat :=
  ((offset % 4294967296).toNat, (offset / 4294967296 % 4294967296).toNat)

/-- Local variables of an I/O loop together with the host state it acts on. -/
structure IoState where
  num : Int
  count : Nat
  offset : Int
  bufpos : Nat
  buf : Mem
  cursor : Nat
  size : Nat
  calls : List IoCall

/-- Result of a handle I/O operation. -/
structure IoResult where
  ret : Int
  buf : Mem
  calls : List IoCall
  locks : List LockEvent
  host : IoHost

/-- The loop `while (count > 0) { ... }` shared by `winfs_read`, `winfs_write`,
`winfs_pread` and `winfs_pwrite`: `iter` is the loop body run on the host's answer to the
body's single host call, with `false` for `break`; past the end of the list of answers
the host gives the answer `last`. -/
def io_loop {α : Type} (iter : α → IoState → IoState × Bool) (last : α) :
    List α → IoState → IoState × List α
  | [], s => if s.count = 0 then (s, []) else ((iter last s).1, [])
  | a :: rest, s =>
    if s.count = 0 then (s, a :: rest)
    else if (iter a s).2 then io_loop iter last rest (iter a s).1
    else ((iter a s).1, rest)

/-- One iteration of the loop of `winfs_read` (lines 529-545) on the host's answer to
its `ReadFile`: the state after it, and whether the loop goes on (`false` for `break`). -/
def winfs_read_iter (is_text : Bool) (a : ReadAnswer) (s : IoState) : IoState × Bool :=
  let count_dword := min s.count UINT_MAX
  match a with
  | .eof => ({ s with calls := s.calls ++ [⟨none, s.cursor, count_dword, .eof, []⟩] }, false)
  | .error =>
    ({ s with num := - L_EIO,
              calls := s.calls ++ [⟨none, s.cursor, count_dword, .error, []⟩] }, false)
  | .data bytes =>
    let chunk := bytes.take count_dword
    let num_read_dword := chunk.length
    let buf1 := s.buf.apply (memcpy_stores s.bufpos chunk)
    let s1 := { s with buf := buf1, cursor := s.cursor + num_read_dword,
                       calls := s.calls ++ [⟨none, s.cursor, count_dword, .ok, chunk⟩] }
    if num_read_dword = 0 then (s1, false)
    else
      ({ s1 with buf := if is_text then patch_cr buf1 s.bufpos num_read_dword else buf1,
                 num := wrap_ssize (s.num + num_read_dword),
                 count := s.count - num_read_dword,
                 bufpos := s.bufpos + num_read_dword }, true)

/-- Embedding of `winfs_read` (lines 521-550); past the end of `h.reads` the host answers
end of file. -/
def winfs_read (is_text : Bool) (h : IoHost) (buf : Mem) (count : Nat) : IoResult :=
  let r := io_loop (winfs_read_iter is_text) .eof h.reads
    { num := 0, count := count, offset := 0, bufpos := 0, buf := buf,
      cursor := h.cursor, size := h.size, calls := [] }
  { ret := r.1.num, buf := r.1.buf, calls := r.1.calls,
    locks := [.AcquireSRWLockShared, .WaitForSingleObject, .ReleaseMutex, .ReleaseSRWLockShared],
    host := { h with cursor := r.1.cursor, reads := r.2 } }

/-- One iteration of the loop of `winfs_pread` (lines 614-637). -/
def winfs_pread_iter (is_text : Bool) (a : ReadAnswer) (s : IoState) : IoState × Bool :=
  let overlapped := overlapped_of s.offset
  let count_dword := min s.count UINT_MAX
  match a with
  | .eof =>
    ({ s with calls := s.calls ++ [⟨some overlapped, s.cursor, count_dword, .eof, []⟩] }, false)
  | .error =>
    ({ s with num := - L_EIO,
              calls := s.calls ++ [⟨some overlapped, s.cursor, count_dword, .error, []⟩] }, false)
  | .data bytes =>
    let chunk := bytes.take count_dword
    let num_read_dword := chunk.length
    let buf1 := s.buf.apply (memcpy_stores s.bufpos chunk)
    let s1 := { s with buf := buf1,
                       cursor := io_position s.cursor (some overlapped) + num_read_dword,
                       calls := s.calls ++ [⟨some overlapped, s.cursor, count_dword, .ok, chunk⟩] }
    if num_read_dword = 0 then (s1, false)
    else
      ({ s1 with buf := if is_text then patch_cr buf1 s.bufpos num_read_dword else buf1,
                 num := wrap_ssize (s.num + num_read_dword),
                 offset := wrap_loff (s.offset + num_read_dword),
                 count := s.count - num_read_dword,
                 bufpos := s.bufpos + num_read_dword }, true)

/-- Embedding of `winfs_pread` (lines 602-644): the cursor is read with
`SetFilePointerEx(.., 0, &currentFilePointer, FILE_CURRENT)` before the loop and set back
with `SetFilePointerEx(.., currentFilePointer, .., FILE_BEGIN)` after it. -/
def winfs_pread (is_text : Bool) (h : IoHost) (buf : Mem) (count : Nat) (offset : Int) :
    IoResult :=
  let currentFilePointer := (SetFilePointerEx h.cursor h.size 0 FILE_CURRENT).getD h.cursor
  let r := io_loop (winfs_pread_iter is_text) .eof h.reads
    { num := 0, count := count, offset := offset, bufpos := 0, buf := buf,
      cursor := h.cursor, size := h.size, calls := [] }
  let restored := (SetFilePointerEx r.1.cursor r.1.size currentFilePointer FILE_BEGIN).getD r.1.cursor
  { ret := r.1.num, buf := r.1.buf, calls := r.1.calls,
    locks := [.AcquireSRWLockShared, .WaitForSingleObject, .ReleaseMutex, .ReleaseSRWLockShared],
    host := { h with cursor := restored, reads := r.2 } }

/-- One iteration of the loop of `winfs_write` (lines 567-577) on the host's answer to
its `WriteFile`; `ov` is `overlapped_pointer`. -/
def winfs_write_iter (ov : Option (Nat × Nat)) (a : WriteAnswer) (s : IoState) : IoState × Bool :=
  let count_dword := min s.count UINT_MAX
  match a with
  | .error =>
    ({ s with num := - L_EIO,
              calls := s.calls ++ [⟨ov, s.cursor, count_dword, .error, []⟩] }, false)
  | .accepted n =>
    let num_written_dword := min n count_dword
    let chunk := (List.range num_written_dword).map (fun i => s.buf (s.bufpos + i))
    let pos := write_position s.cursor s.size ov
    ({ s with cursor := pos + num_written_dword,
              size := max s.size (pos + num_written_dword),
              calls := s.calls ++ [⟨ov, s.cursor, count_dword, .ok, chunk⟩],
              num := wrap_ssize (s.num + num_written_dword),
              count := s.count - num_written_dword,
              bufpos := s.bufpos + num_written_dword }, true)

/-- Embedding of `winfs_write` (lines 552-582); `append` is `f->flags & O_APPEND`.  Past
the end of `h.writes` the host fails.  Every run of the C loop that ends consumes a
finite list of answers and is the run of this model on that list; a host whose
`WriteFile` succeeds with 0 bytes for ever keeps the C loop running and has no list. -/
def winfs_write (append : Bool) (h : IoHost) (buf : Mem) (count : Nat) : IoResult :=
  let overlapped_pointer : Option (Nat × Nat) :=
    if append then some (0xFFFFFFFF, 0xFFFFFFFF) else none
  let r := io_loop (winfs_write_iter overlapped_pointer) .error h.writes
    { num := 0, count := count, offset := 0, bufpos := 0, buf := buf,
      cursor := h.cursor, size := h.size, calls := [] }
  { ret := r.1.num, buf := r.1.buf, calls := r.1.calls,
    locks := [.AcquireSRWLockShared, .WaitForSingleObject, .ReleaseMutex, .ReleaseSRWLockShared],
    host := { h with cursor := r.1.cursor, size := r.1.size, writes := r.2 } }

/-- One iteration of the loop of `winfs_pwrite` (lines 658-675). -/
def winfs_pwrite_iter (a : WriteAnswer) (s : IoState) : IoState × Bool :=
  let overlapped := overlapped_of s.offset
  let count_dword := min s.count UINT_MAX
  match a with
  | .error =>
    ({ s with num := - L_EIO,
              calls := s.calls ++ [⟨some overlapped, s.cursor, count_dword, .error, []⟩] }, false)
  | .accepted n =>
    let num_written_dword := min n count_dword
    let chunk := (List.range num_written_dword).map (fun i => s.buf (s.bufpos + i))
    let pos := write_position s.cursor s.size (some overlapped)
    ({ s with cursor := pos + num_written_dword,
              size := max s.size (pos + num_written_dword),
              calls := s.calls ++ [⟨some overlapped, s.cursor, count_dword, .ok, chunk⟩],
              num := wrap_ssize (s.num + num_written_dword),
              offset := wrap_loff (s.offset + num_written_dword),
              count := s.count - num_written_dword,
              bufpos := s.bufpos + num_written_dword }, true)

/-- Embedding of `winfs_pwrite` (lines 646-682). -/
def winfs_pwrite (h : IoHost) (buf : Mem) (count : Nat) (offset : Int) : IoResult :=
  let currentFilePointer := (SetFilePointerEx h.cursor h.size 0 FILE_CURRENT).getD h.cursor
  let r := io_loop winfs_pwrite_iter .error h.writes
    { num := 0, count := count, offset := offset, bufpos := 0, buf := buf,
      cursor := h.cursor, size := h.size, calls := [] }
  let restored := (SetFilePointerEx r.1.cursor r.1.size currentFilePointer FILE_BEGIN).getD r.1.cursor
  { ret := r.1.num, buf := r.1.buf, calls := r.1.calls,
    locks := [.AcquireSRWLockShared, .WaitForSingleObject, .ReleaseMutex, .ReleaseSRWLockShared],
    host := { h with cursor := restored, size := r.1.size, writes := r.2 } }

/-- Total number of bytes transferred by a list of host calls. -/
def total_transferred (cs : List IoCall) : Nat := (cs.map IoCall.transferred).sum

/-- What one iteration of an I/O loop does, in terms of the host call `c` it issues:
`s` is the state before it and `r` the state after it with the go-on flag. -/
structure IterFacts (s : IoState) (r : IoState × Bool) (c : IoCall) : Prop where
  calls : r.1.calls = s.calls ++ [c]
  count_le : c.count ≤ UINT_MAX
  transferred_le : c.transferred ≤ s.count
  error : c.status = .error → r.2 = false ∧ r.1.num = - L_EIO
  go : r.2 = true → c.status = .ok ∧ r.1.num = wrap_ssize (s.num + c.transferred)
  stop : r.2 = false → c.status ≠ .error → r.1.num = s.num ∧ c.transferred = 0
  count : r.1.count = s.count - c.transferred
  bufpos : r.1.bufpos = s.bufpos + c.transferred

/-! ## Special-file detection (`winfs.c` lines 339-372) and `winfs_readlink` (684-697) -/

/-- Length of the socket magic sequence. -/
def winfs_h.WINFS_UNIX_HEADER_LEN (H : winfs_h) : Nat := H.WINFS_UNIX_HEADER.length

/-- The macro `SPECIAL_FILE_SYMLINK` (line 343). -/
def SPECIAL_FILE_SYMLINK : Int := 1

/-- The macro `SPECIAL_FILE_SYMLINK_META` (line 344). -/
def SPECIAL_FILE_SYMLINK_META : Int := 1000

/-- The macro `SPECIAL_FILE_SOCKET` (line 345). -/
def SPECIAL_FILE_SOCKET : Int := 2

/-- The C library function `memcpy(dest, src, n)` on a local array `dest`: the array
afterwards, and whether the pointer it returns is NULL.  It returns `dest`, the address of
the array, which is never NULL. -/
def memcpy (dest src : List Nat) (n : Nat) : List Nat × Bool :=
  (src.take n ++ dest.drop n, false)

/-- Result of `winfs_get_special_file_type`: the value returned, the local array `header`
at the return and the file pointer of the handle afterwards. -/
structure SpecialResult where
  ret : Int
  header : List Nat
  cursor : Nat
deriving Repr, DecidableEq

/-- Embedding of `winfs_get_special_file_type` (lines 346-372).  The two tests at lines
366 and 368 are `!memcpy(...)`: each copies a magic sequence over `header` and tests the
pointer `memcpy` returns.  When `ReadFile` fails (lines 361-365) the function returns 0 and
the file pointer is the one before the call. -/
def winfs_get_special_file_type (H : winfs_h) (h : HostFile) (cursor : Nat) : SpecialResult :=
  let is_meta_symlink : Bool :=
    match read_meta_file_h h with
    | some md => md.type == MD_TYPE_SYMLINK
    | none => false
  if is_meta_symlink then ⟨SPECIAL_FILE_SYMLINK_META, [], cursor⟩
  else
    let header := List.replicate H.WINFS_HEADER_MAX_LEN 0
    match h.ReadFile 0 H.WINFS_HEADER_MAX_LEN with
    | none => ⟨0, header, cursor⟩
    | some bytes =>
      let header := bytes ++ header.drop bytes.length
      let c1 := memcpy header H.WINFS_SYMLINK_HEADER H.WINFS_SYMLINK_HEADER_LEN
      if c1.2 then ⟨SPECIAL_FILE_SYMLINK, c1.1, bytes.length⟩
      else
        let c2 := memcpy c1.1 H.WINFS_UNIX_HEADER H.WINFS_UNIX_HEADER_LEN
        if c2.2 then ⟨SPECIAL_FILE_SOCKET, c2.1, bytes.length⟩
        else ⟨0, c2.1, bytes.length⟩

/-- Reference for detection by content, following the words of the specification (and the
comparison `memcmp` of the reader at line 409): the header read from the start of the
content is compared with the two magic sequences. -/
def special_file_type_by_content (H : winfs_h) (h : HostFile) : Int :=
  match h.ReadFile 0 H.WINFS_HEADER_MAX_LEN with
  | none => 0
  | some bytes =>
    if bytes.take H.WINFS_SYMLINK_HEADER_LEN = H.WINFS_SYMLINK_HEADER then SPECIAL_FILE_SYMLINK
    else if bytes.take H.WINFS_UNIX_HEADER_LEN = H.WINFS_UNIX_HEADER then SPECIAL_FILE_SOCKET
    else 0

/-- Modelled from the spec: `common/errno.h` is not under src/; the "invalid argument"
kind, Linux `EINVAL`. -/
def L_EINVAL : Int := 22

/-- Conversion of a `size_t` or `intptr_t` value to `int`: reduction into the signed 32-bit
range. -/
def to_int (x : Int) : Int := (x + 2147483648) % 4294967296 - 2147483648

/-- Result of `winfs_readlink`. -/
structure ReadlinkResult where
  ret : Int
  target : List Store
  cursor : Nat
  locks : List LockEvent
deriving Repr, DecidableEq

/-- Embedding of `winfs_readlink` (lines 684-697); `buflen` is a `size_t`, passed on as
`(int)buflen`. -/
def winfs_readlink (H : winfs_h) (h : HostFile) (cursor : Nat) (target_null : Bool)
    (buflen : Nat) : ReadlinkResult :=
  let r := winfs_read_symlink_unsafe H h cursor target_null (to_int buflen)
  ⟨if r.ret = 0 then - L_EINVAL else r.ret, r.target, r.cursor,
    [.AcquireSRWLockShared, .ReleaseSRWLockShared]⟩

/-! ## `winfs_symlink` (`winfs.c` lines 1008-1057) -/

/-- Access right `FILE_WRITE_DATA`. -/
def FILE_WRITE_DATA : Nat := 0x2

/-- Create option `FILE_NON_DIRECTORY_FILE`. -/
def FILE_NON_DIRECTORY_FILE : Nat := 0x40

/-- Status `STATUS_OBJECT_NAME_EXISTS`. -/
def STATUS_OBJECT_NAME_EXISTS : Nat := 0x40000000

/-- The C library function `strlen`: number of bytes before the first NUL. -/
def strlen (s : List Nat) : Nat := (s.takeWhile (fun b => b != 0)).length

/-- Content of a file after `chunk` is written at position `pos` (a gap is filled with
zeros). -/
def write_at (content : List Nat) (pos : Nat) (chunk : List Nat) : List Nat :=
  (content ++ List.replicate (pos - content.length) 0).take pos ++ chunk
    ++ content.drop (pos + chunk.length)

/-- Host `WriteFile(handle, buf, len, &num_written, NULL)` on the file `name` of the
namespace at the file pointer `cursor`, for the host's answer `a`: whether the call
succeeds, `num_written`, and the namespace afterwards. -/
def Host.WriteFile (host : Host) (name : List Nat) (cursor : Nat) (buf : List Nat) (len : Nat)
    (a : WriteAnswer) : Bool × Nat × Host :=
  match a with
  | .error => (false, 0, host)
  | .accepted n =>
    let chunk := buf.take (min n len)
    (true, chunk.length,
      host.map (fun e =>
        if e.1 = name then (e.1, { e.2 with content := write_at e.2.content cursor chunk })
        else e))

/-- Result of `winfs_symlink`: the value returned, the `NtCreateFile` call issued, the
number of handles closed with `NtClose` and the namespace afterwards. -/
structure SymlinkCreateResult where
  ret : Int
  requests : List CreateRequest
  closed : Nat
  host : Host
deriving Repr, DecidableEq

/-- Embedding of `winfs_symlink` (lines 1008-1057).  `target` holds the bytes at the
pointer `target`; `w1` and `w2` are the host's answers to the two `WriteFile` calls. -/
def winfs_symlink (H : winfs_h) (conv : Utf16Converter) (host : Host) (mp : mount_point)
    (target linkpath : List Nat) (w1 w2 : WriteAnswer) : SymlinkCreateResult :=
  let t := filename_to_nt_pathname conv mp linkpath PATH_MAX
  let len := t.ret
  if len ≤ 0 then ⟨-L_ENOENT, [], 0, host⟩
  else
    let wlinkpath : Mem := Mem.apply (fun _ => 0) t.writes
    let pathname_Length : Nat := (len * 2 % 65536).toNat
    let pathname := wlinkpath.read (pathname_Length / 2)
    let rq : CreateRequest :=
      ⟨pathname, SYNCHRONIZE ||| FILE_WRITE_DATA, FILE_ATTRIBUTE_SYSTEM, FILE_CREATE,
        FILE_NON_DIRECTORY_FILE ||| FILE_SYNCHRONOUS_IO_NONALERT, false⟩
    match NtCreateFile host rq with
    | (status, opened, host1) =>
      if !NT_SUCCESS status then
        if status = STATUS_OBJECT_NAME_EXISTS ∨ status = STATUS_OBJECT_NAME_COLLISION then
          ⟨-L_EEXIST, [rq], 0, host1⟩
        else ⟨-L_ENOENT, [rq], 0, host1⟩
      else
        match opened with
        | none => ⟨-L_ENOENT, [rq], 0, host1⟩
        | some _ =>
          let r1 := host1.WriteFile pathname 0 H.WINFS_SYMLINK_HEADER
            H.WINFS_SYMLINK_HEADER_LEN w1
          if !r1.1 || r1.2.1 < H.WINFS_SYMLINK_HEADER_LEN then ⟨- L_EIO, [rq], 1, r1.2.2⟩
          else
            let targetlen : Nat := strlen target % 4294967296
            let r2 := r1.2.2.WriteFile pathname r1.2.1 target targetlen w2
            if !r2.1 || r2.2.1 < targetlen then ⟨- L_EIO, [rq], 1, r2.2.2⟩
            else ⟨0, [rq], 1, r2.2.2⟩

/-! ## Directory enumeration (`winfs.c` lines 861-953) and `winfs_llseek` (732-759) -/

/-- Modelled from the spec: `common/dirent.h` is not under src/; the entry type
"directory", Linux `DT_DIR`. -/
def DT_DIR : Nat := 4

/-- Modelled from the spec: `common/dirent.h` is not under src/; the entry type
"regular", Linux `DT_REG`. -/
def DT_REG : Nat := 8

/-- Modelled from the spec: `common/dirent.h` is not under src/; the entry type
"symlink", Linux `DT_LNK`. -/
def DT_LNK : Nat := 10

/-- Modelled from the spec: `common/dirent.h` is not under src/; the entry type
"socket", Linux `DT_SOCK`. -/
def DT_SOCK : Nat := 12

/-- Status `STATUS_NO_MORE_FILES`. -/
def STATUS_NO_MORE_FILES : Nat := 0x80000006

/-- Access right `FILE_READ_DATA`. -/
def FILE_READ_DATA : Nat := 0x1

/-- The macro `BUFFER_SIZE` of `winfs_getdents` (line 867). -/
def BUFFER_SIZE : Int := 32768

/-- The fields of one `FILE_ID_FULL_DIR_INFORMATION` record the code reads, together with
the file the host opens for this name relative to the directory (`NtCreateFile`, lines
922-924, whose status is `file.open_status`). -/
structure FILE_ID_FULL_DIR_INFORMATION where
  FileId : Nat
  FileAttributes : Nat
  FileNameLength : Nat
  FileName : List Nat
  file : HostFile
deriving Repr, DecidableEq

/-- Answer of the host to one `NtQueryDirectoryFile`: the status, and the chain of
records it has put into the buffer (`status_block.Information == 0` when there is none). -/
structure DirAnswer where
  status : Nat
  entries : List FILE_ID_FULL_DIR_INFORMATION
deriving Repr, DecidableEq

/-- The arguments `fill_callback` receives (line 939): the offset of `p` from `dirent`,
the inode, the name with its length in UTF-16 units, the type and the space left
`count - size`; the last argument is the constant `GETDENTS_UTF16`. -/
structure FillArgs where
  pos : Int
  inode : Nat
  name : List Nat
  namelen : Nat
  type : Nat
  avail : Nat
deriving Repr, DecidableEq

/-- The injected formatting callback: the `intptr_t` it returns for its arguments. -/
abbrev getdents_callback := FillArgs → Int

/-- What `winfs_getdents` does, in order: a host directory query with its `Length` (a
`ULONG`) and `RestartScan` arguments; the probe of an entry with the system attribute (the
name opened, the status of the open and the value of the block's variable `type` at line
935); a call of the callback with its result. -/
inductive DentsEvent where
  | query (Length : Nat) (RestartScan : Nat)
  | probe (name : List Nat) (status : Nat) (type : Int)
  | fill (args : FillArgs) (reclen : Int)
deriving Repr, DecidableEq

/-- The subtraction `count - size` of a `size_t` and an `int` (line 939 and 874). -/
def size_t_sub (count : Nat) (size : Int) : Nat := (((count : Int) - size) % 2 ^ 64).toNat

/-- The `int buffer_size` of lines 874-876. -/
def getdents_buffer_size (count : Nat) (size : Int) : Int :=
  let buffer_size := to_int (size_t_sub count size / 2 : Nat)
  if buffer_size ≥ BUFFER_SIZE then BUFFER_SIZE else buffer_size

/-- The `ULONG Length` argument of `NtQueryDirectoryFile` (line 879): the `int
buffer_size` converted to 32 bits unsigned. -/
def getdents_query_length (count : Nat) (size : Int) : Nat :=
  (getdents_buffer_size count size % 4294967296).toNat

/-- The type computed for an entry (lines 901-938) and the probe made for it.  The block
at lines 926-936 declares its own `int type` (line 927): the assignments of `DT_LNK` and
`DT_SOCK` go to that variable, and the `char type` of line 901, which is the one passed to
the callback, keeps its value. -/
def getdents_entry_type (H : winfs_h) (info : FILE_ID_FULL_DIR_INFORMATION) :
    Nat × List DentsEvent :=
  let type : Nat := DT_REG
  if has_flag info.FileAttributes FILE_ATTRIBUTE_DIRECTORY then (DT_DIR, [])
  else if has_flag info.FileAttributes FILE_ATTRIBUTE_SYSTEM then
    let pathname := info.FileName.take (info.FileNameLength / 2)
    let status := info.file.open_status
    if NT_SUCCESS status then
      let type_927 : Int := (winfs_get_special_file_type H info.file 0).ret
      let type_927 : Int :=
        if type_927 = SPECIAL_FILE_SYMLINK_META then DT_LNK
        else if type_927 = SPECIAL_FILE_SYMLINK then DT_LNK
        else if type_927 = SPECIAL_FILE_SOCKET then DT_SOCK
        else type_927
      (type, [.probe pathname status type_927])
    else (type, [.probe pathname status 0])
  else (type, [])

/-- The loop `do { ... } while (info->NextEntryOffset)` (lines 893-948) over the records
of one answer: the value of `size`, the events, and whether control reaches the end of
the loop (`false` for `goto out`). -/
def getdents_entries (H : winfs_h) (cb : getdents_callback) (count : Nat) :
    List FILE_ID_FULL_DIR_INFORMATION → Int → List DentsEvent → Int × List DentsEvent × Bool
  | [], size, ev => (size, ev, true)
  | info :: rest, size, ev =>
    let inode : Nat := (info.FileId / 4294967296 % 4294967296) ^^^ (info.FileId % 4294967296)
    let ty := getdents_entry_type H info
    let args : FillArgs :=
      ⟨size, inode, info.FileName, info.FileNameLength / 2, ty.1, size_t_sub count size⟩
    let reclen := cb args
    if reclen < 0 then (to_int reclen, ev ++ ty.2 ++ [.fill args reclen], false)
    else
      getdents_entries H cb count rest (to_int (size + reclen))
        (ev ++ ty.2 ++ [.fill args reclen])

/-- The loop `for (;;)` of `winfs_getdents` (lines 869-949) on the answers of the host:
the value of `size`, `winfile->restart_scan`, the events and the answers not consumed.
Past the end of the list the host answers `STATUS_NO_MORE_FILES`. -/
def getdents_loop (H : winfs_h) (cb : getdents_callback) (count : Nat) :
    List DirAnswer → Int → Nat → List DentsEvent → Int × Nat × List DentsEvent × List DirAnswer
  | [], size, restart_scan, ev =>
    (size, 0, ev ++ [.query (getdents_query_length count size) restart_scan], [])
  | a :: rest, size, restart_scan, ev =>
    if !NT_SUCCESS a.status then
      (size, 0, ev ++ [.query (getdents_query_length count size) restart_scan], rest)
    else if a.entries.isEmpty then
      (size, 0, ev ++ [.query (getdents_query_length count size) restart_scan], rest)
    else if (getdents_entries H cb count a.entries size
        (ev ++ [.query (getdents_query_length count size) restart_scan])).2.2 then
      getdents_loop H cb count rest
        (getdents_entries H cb count a.entries size
          (ev ++ [.query (getdents_query_length count size) restart_scan])).1 0
        (getdents_entries H cb count a.entries size
          (ev ++ [.query (getdents_query_length count size) restart_scan])).2.1
    else
      ((getdents_entries H cb count a.entries size
          (ev ++ [.query (getdents_query_length count size) restart_scan])).1, 0,
        (getdents_entries H cb count a.entries size
          (ev ++ [.query (getdents_query_length count size) restart_scan])).2.1, rest)

/-- Result of `winfs_getdents`: the value returned, `winfile->restart_scan` afterwards,
the events in order, the lock operations and the answers of the host not consumed. -/
structure GetdentsResult where
  ret : Int
  restart_scan : Nat
  events : List DentsEvent
  locks : List LockEvent
  answers : List DirAnswer
deriving Repr, DecidableEq

/-- Embedding of `winfs_getdents` (lines 861-953): `answers` are the answers of the host
to the coming directory queries, `restart_scan` the flag of the handle at entry. -/
def winfs_getdents (H : winfs_h) (answers : List DirAnswer) (restart_scan : Nat) (count : Nat)
    (fill_callback : getdents_callback) : GetdentsResult :=
  let r := getdents_loop H fill_callback count answers 0 restart_scan []
  ⟨r.1, r.2.1, r.2.2.1, [.AcquireSRWLockShared, .ReleaseSRWLockShared], r.2.2.2⟩

/-- Modelled from the spec: the `whence` values of `lseek` are in a header that is not
under src/; Linux `SEEK_SET`. -/
def SEEK_SET : Int := 0

/-- Modelled from the spec: Linux `SEEK_CUR`. -/
def SEEK_CUR : Int := 1

/-- Modelled from the spec: Linux `SEEK_END`. -/
def SEEK_END : Int := 2

/-- Result of `winfs_llseek`: the value returned, the value stored in `*newoffset`, the
file pointer and `winfile->restart_scan` afterwards, and the lock operations. -/
structure LlseekResult where
  ret : Int
  newoffset : Option Int
  cursor : Nat
  restart_scan : Nat
  locks : List LockEvent
deriving Repr, DecidableEq

/-- Embedding of `winfs_llseek` (lines 732-759) on a handle with file pointer `cursor`,
file size `size` and flag `restart_scan`. -/
def winfs_llseek (cursor size restart_scan : Nat) (offset : Int) (whence : Int) :
    LlseekResult :=
  let dwMoveMethod : Option Nat :=
    if whence = SEEK_SET then some FILE_BEGIN
    else if whence = SEEK_CUR then some FILE_CURRENT
    else if whence = SEEK_END then some FILE_END
    else none
  match dwMoveMethod with
  | none => ⟨-L_EINVAL, none, cursor, restart_scan, []⟩
  | some method =>
    match SetFilePointerEx cursor size offset method with
    | none =>
      ⟨-L_EINVAL, none, cursor, restart_scan, [.AcquireSRWLockShared, .WaitForSingleObject]⟩
    | some liNewFilePointer =>
      ⟨0, some (wrap_loff liNewFilePointer), liNewFilePointer,
        if whence = SEEK_SET ∧ offset = 0 then 1 else restart_scan,
        [.AcquireSRWLockShared, .WaitForSingleObject, .ReleaseMutex, .ReleaseSRWLockExclusive]⟩

/-- Bytes the callback has reported for an event (0 for an event that is not a call of the
callback). -/
def DentsEvent.reclen : DentsEvent → Int
  | .fill _ v => v
  | _ => 0

/-- Sum of the byte counts the callback has reported in a list of events. -/
def produced (ev : List DentsEvent) : Int := (ev.map DentsEvent.reclen).sum

/-- Whether an event is a host directory query. -/
def DentsEvent.is_query : DentsEvent → Bool
  | .query _ _ => true
  | _ => false

/-- No call of the callback in the list has returned a negative value. -/
def NoNeg (ev : List DentsEvent) : Prop := ∀ a v, DentsEvent.fill a v ∈ ev → 0 ≤ v

/-- Whether a list of events holds a host directory query. -/
def has_query (ev : List DentsEvent) : Bool := ev.any DentsEvent.is_query

/-- What holds of an event `e` of a run of `winfs_getdents` that comes after the events
`pre`: no call of the callback before it has returned a negative value; and if it is a
query, its `Length` is the `buffer_size` for the bytes produced so far, as a `ULONG`, and its
`RestartScan` is the flag `rs0` of the handle at entry if it is the first query, else 0. -/
def GoodEvent (count rs0 : Nat) (pre : List DentsEvent) (e : DentsEvent) : Prop :=
  NoNeg pre ∧
    match e with
    | .query L r =>
      L = getdents_query_length count (to_int (produced pre)) ∧
        r = if has_query pre then 0 else rs0
    | _ => True

/-- Every event of the list is as `GoodEvent` says, with respect to the events before
it. -/
def GoodTrace (count rs0 : Nat) (ev : List DentsEvent) : Prop :=
  ∀ (i : Nat) (h : i < ev.length), GoodEvent count rs0 (ev.take i) ev[i]

/-! ## `winfs_unlink` and `winfs_rename` (`winfs.c` lines 163-208 and 1088-1190) -/

/-- Modelled from the spec: `common/errno.h` is not under src/; the "permission" kind of
the error taxonomy, Linux `EPERM`. -/
def L_EPERM : Int := 1

/-- Status `STATUS_ACCESS_DENIED`. -/
def STATUS_ACCESS_DENIED : Nat := 0xC0000022

/-- Status `STATUS_SHARING_VIOLATION`. -/
def STATUS_SHARING_VIOLATION : Nat := 0xC0000043

/-- Share mode `FILE_SHARE_READ`. -/
def FILE_SHARE_READ : Nat := 1

/-- Share mode `FILE_SHARE_WRITE`. -/
def FILE_SHARE_WRITE : Nat := 2

/-- Share mode `FILE_SHARE_DELETE`. -/
def FILE_SHARE_DELETE : Nat := 4

/-- A host call made by `winfs_unlink`, `move_to_recycle_bin` and `winfs_rename`:
`NtOpenFile` with its name, access, share mode and options;
`NtQueryInformationFile(FileInternalInformation)`;
`NtSetInformationFile(FileRenameInformation)` with `ReplaceIfExists` and the new name
(`none` for the name in the recycle bin, which `move_to_recycle_bin` builds with the
host's string functions); `NtSetInformationFile(FileDispositionInformation)` with
`DeleteFile = TRUE`; `NtClose`. -/
inductive NsCall where
  | NtOpenFile (name : List Nat) (DesiredAccess ShareAccess OpenOptions : Nat)
  | FileInternalInformation
  | FileRenameInformation (ReplaceIfExists : Bool) (FileName : Option (List Nat))
  | FileDispositionInformation
  | NtClose
deriving Repr, DecidableEq

/-- A host call together with the status the host answered. -/
abbrev NsEvent := NsCall × Nat

/-- One host call: `host k` is the status the host answers to the call number `k` made
since the start of the operation; the call and its status are appended to the calls made
so far. -/
def ns_call (host : Nat → Nat) (ev : List NsEvent) (c : NsCall) : Nat × List NsEvent :=
  (host ev.length, ev ++ [(c, host ev.length)])

/-- Embedding of `move_to_recycle_bin` (lines 163-208): the status returned and the calls
made on the file.  The name in the recycle bin is built with the host's string functions
and `get_user_sid` (lines 141-158), whose calls on the process token (made on its first
use only, their results never tested) are calls on no file and are not in the trace. -/
def move_to_recycle_bin (host : Nat → Nat) (ev : List NsEvent) : Nat × List NsEvent :=
  let q := ns_call host ev .FileInternalInformation
  if !NT_SUCCESS q.1 then (q.1, q.2)
  else
    let r := ns_call host q.2 (.FileRenameInformation false none)
    if !NT_SUCCESS r.1 then (r.1, r.2)
    else (STATUS_SUCCESS, r.2)

/-- The end of `winfs_unlink` (lines 1132-1142): the disposition flag is set and the
handle closed. -/
def winfs_unlink_disposition (host : Nat → Nat) (ev : List NsEvent) : Int × List NsEvent :=
  let d := ns_call host ev .FileDispositionInformation
  if !NT_SUCCESS d.1 then (-L_EBUSY, d.2)
  else (0, (ns_call host d.2 .NtClose).2)

/-- Embedding of `winfs_unlink` (lines 1088-1143): the value returned and the calls made,
after the calls `ev` made before. -/
def winfs_unlink (conv : Utf16Converter) (mp : mount_point) (pathname : List Nat)
    (host : Nat → Nat) (ev : List NsEvent) : Int × List NsEvent :=
  let t := filename_to_nt_pathname conv mp pathname PATH_MAX
  let len := t.ret
  if len ≤ 0 then (-L_ENOENT, ev)
  else
    let wpathname : Mem := Mem.apply (fun _ => 0) t.writes
    let object_name := wpathname.read ((len * 2 % 65536).toNat / 2)
    let o := ns_call host ev
      (.NtOpenFile object_name DELETE FILE_SHARE_DELETE
        (FILE_NON_DIRECTORY_FILE ||| FILE_OPEN_FOR_BACKUP_INTENT))
    if !NT_SUCCESS o.1 then
      if o.1 ≠ STATUS_SHARING_VIOLATION then (-L_ENOENT, o.2)
      else
        let o2 := ns_call host o.2
          (.NtOpenFile object_name DELETE (FILE_SHARE_READ ||| FILE_SHARE_WRITE ||| FILE_SHARE_DELETE)
            (FILE_NON_DIRECTORY_FILE ||| FILE_OPEN_FOR_BACKUP_INTENT))
        if !NT_SUCCESS o2.1 then (-L_EBUSY, o2.2)
        else
          let m := move_to_recycle_bin host o2.2
          if !NT_SUCCESS m.1 then (-L_EBUSY, m.2)
          else winfs_unlink_disposition host m.2
    else winfs_unlink_disposition host o.2

/-- One pass from the label `retry` of `winfs_rename` after the test of `retry_count`
(lines 1161-1185), with the current value `r`: `some r` for `goto out` (or the fall
through to `out`) with the value `r`, `none` for `goto retry`; and the calls made. -/
def winfs_rename_iter (conv : Utf16Converter) (mp : mount_point) (newpath : List Nat)
    (host : Nat → Nat) (r : Int) (ev : List NsEvent) : Option Int × List NsEvent :=
  let t := filename_to_nt_pathname conv mp newpath PATH_MAX
  let FileName : Mem := Mem.apply (fun _ => 0) t.writes
  let FileNameLength : Nat := (2 * t.ret % 4294967296).toNat
  if FileNameLength = 0 then (some (-L_ENOENT), ev)
  else
    let s := ns_call host ev
      (.FileRenameInformation true (some (FileName.read (FileNameLength / 2))))
    if !NT_SUCCESS s.1 then
      if s.1 = STATUS_ACCESS_DENIED then
        let u := winfs_unlink conv mp newpath host s.2
        if u.1 ≠ 0 then (some u.1, u.2)
        else (none, u.2)
      else (some (-L_ENOENT), s.2)
    else (some r, s.2)

/-- The loop of `winfs_rename` from the label `retry` (lines 1155-1186) for the value
`retry_count` at the label.  The count is 5 at the first entry and is decremented before
each later one, so the label is not reached with 0. -/
def winfs_rename_retry (conv : Utf16Converter) (mp : mount_point) (newpath : List Nat)
    (host : Nat → Nat) : Nat → Int → List NsEvent → Int × List NsEvent
  | 0, _, ev => (-L_EPERM, ev)
  | retry_count + 1, r, ev =>
    if retry_count = 0 then (-L_EPERM, ev)
    else
      match winfs_rename_iter conv mp newpath host r ev with
      | (some r1, ev1) => (r1, ev1)
      | (none, ev1) => winfs_rename_retry conv mp newpath host retry_count 0 ev1

/-- Result of `winfs_rename`: the value returned, the host calls made with their statuses
and the lock operations. -/
structure RenameResult where
  ret : Int
  calls : List NsEvent
  locks : List LockEvent
deriving Repr, DecidableEq

/-- Embedding of `winfs_rename` (lines 1145-1190); `host k` is the status the host answers
to the call number `k`. -/
def winfs_rename (conv : Utf16Converter) (mp : mount_point) (newpath : List Nat)
    (host : Nat → Nat) : RenameResult :=
  let r := winfs_rename_retry conv mp newpath host 5 0 []
  ⟨r.1, r.2, [.AcquireSRWLockShared, .ReleaseSRWLockShared]⟩

/-- Reference for `winfs_rename`, following the words of the specification: at most
`attempts` rename-with-replace requests; a request that succeeds gives 0; a request the
host denies is followed by the unlink of the destination, whose error is returned if it
fails, and by the next attempt if it succeeds; any other failure gives not-found; when no
attempt is left the result is the permission error. -/
def rename_ref (unlink : List NsEvent → Int × List NsEvent) (host : Nat → Nat)
    (name : List Nat) : Nat → List NsEvent → Int × List NsEvent
  | 0, ev => (-L_EPERM, ev)
  | attempts + 1, ev =>
    let s := ns_call host ev (.FileRenameInformation true (some name))
    if NT_SUCCESS s.1 then (0, s.2)
    else if s.1 = STATUS_ACCESS_DENIED then
      if (unlink s.2).1 = 0 then rename_ref unlink host name attempts (unlink s.2).2
      else unlink s.2
    else (-L_ENOENT, s.2)

/-- Whether a host call is a rename-with-replace request. -/
def NsEvent.is_rename_replace (e : NsEvent) : Bool :=
  match e.1 with
  | .FileRenameInformation true _ => true
  | _ => false

/-- The statuses the host answered to the rename-with-replace requests, in order. -/
def rename_statuses (ev : List NsEvent) : List Nat :=
  (ev.filter NsEvent.is_rename_replace).map Prod.snd

/-- The calls made after one rename-with-replace request followed by the unlink of the
destination. -/
def rename_round (unlink : List NsEvent → Int × List NsEvent) (host : Nat → Nat)
    (name : List Nat) (ev : List NsEvent) : List NsEvent :=
  (unlink (ns_call host ev (.FileRenameInformation true (some name))).2).2

/-- The rename-with-replace request made after the calls `ev` is denied by the host and
the unlink of the destination that follows succeeds. -/
def round_denied (unlink : List NsEvent → Int × List NsEvent) (host : Nat → Nat)
    (name : List Nat) (ev : List NsEvent) : Prop :=
  (ns_call host ev (.FileRenameInformation true (some name))).1 = STATUS_ACCESS_DENIED ∧
    (unlink (ns_call host ev (.FileRenameInformation true (some name))).2).1 = 0

/-! ## `winfs_stat` and the remaining handle operations (`winfs.c` lines 699-730, 761-859
and 955-988) -/

/-- File attribute `FILE_ATTRIBUTE_READONLY`. -/
def FILE_ATTRIBUTE_READONLY : Nat := 0x1

/-- Modelled from the spec: `common/stat.h` is not under src/; the file type "directory"
of `st_mode`, Linux `S_IFDIR`. -/
def S_IFDIR : Nat := 0o040000

/-- Modelled from the spec: `common/stat.h` is not under src/; the file type "regular",
Linux `S_IFREG`. -/
def S_IFREG : Nat := 0o100000

/-- Modelled from the spec: `common/stat.h` is not under src/; the file type "symlink",
Linux `S_IFLNK`. -/
def S_IFLNK : Nat := 0o120000

/-- Modelled from the spec: `common/stat.h` is not under src/; the file type "socket",
Linux `S_IFSOCK`. -/
def S_IFSOCK : Nat := 0o140000

/-- Modelled from the spec: `common/stat.h` is not under src/; the mask of the file type
bits of `st_mode`, Linux `S_IFMT`. -/
def S_IFMT : Nat := 0o170000

/-- Modelled from the spec: the page size is defined in a header that is not under src/;
4096 bytes. -/
def PAGE_SIZE : Nat := 4096

/-- Modelled from the spec: the macro `mkdev` is in a header that is not under src/; the
Linux encoding `major << 8 | minor`. -/
def mkdev (major minor : Nat) : Nat := major <<< 8 ||| minor

/-- The fields of `BY_HANDLE_FILE_INFORMATION` that `winfs_stat` reads, apart from the
three file times. -/
structure BY_HANDLE_FILE_INFORMATION where
  dwFileAttributes : Nat
  nFileSizeHigh : Nat
  nFileSizeLow : Nat
  nNumberOfLinks : Nat
  nFileIndexHigh : Nat
  nFileIndexLow : Nat
deriving Repr, DecidableEq

/-- The fields of `struct newstat` that `winfs_stat` stores, apart from the time fields
(which it computes with `filetime_to_unix_sec` and `filetime_to_unix_nsec`, functions of
another file). -/
structure newstat where
  st_dev : Nat
  st_ino : Nat
  st_mode : Nat
  st_size : Int
  st_nlink : Nat
  st_uid : Nat
  st_gid : Nat
  st_rdev : Nat
  st_blksize : Nat
  st_blocks : Int
deriving Repr, DecidableEq

/-- Result of `winfs_stat`: the value returned, the record stored in `*buf`, the file
pointer of the handle afterwards and the lock operations. -/
structure StatResult where
  ret : Int
  buf : newstat
  cursor : Nat
  locks : List LockEvent
deriving Repr, DecidableEq

/-- The mode and size `winfs_stat` computes for a file that is not a directory and has the
system attribute (lines 790-819), from the mode and size set before and the value `type`
of `winfs_get_special_file_type`. -/
def winfs_stat_overlay (H : winfs_h) (st_mode : Nat) (st_size : Int) (type : Int) : Nat × Int :=
  if type > 0 then
    if type = SPECIAL_FILE_SYMLINK_META then (st_mode ||| S_IFLNK, st_size)
    else if type = SPECIAL_FILE_SYMLINK then
      (st_mode ||| S_IFLNK, st_size - H.WINFS_SYMLINK_HEADER_LEN)
    else if type = SPECIAL_FILE_SOCKET then (st_mode ||| S_IFSOCK, 0)
    else (st_mode, st_size)
  else (st_mode, st_size)

/-- Embedding of `winfs_stat` (lines 761-836) on the file `h` behind the handle, with
`info` the record `GetFileInformationByHandle` fills and `cursor` the file pointer of the
handle at entry. -/
def winfs_stat (H : winfs_h) (h : HostFile) (info : BY_HANDLE_FILE_INFORMATION) (cursor : Nat) :
    StatResult :=
  let st_ino : Nat := info.nFileIndexHigh ^^^ info.nFileIndexLow
  let st_mode : Nat :=
    if has_flag info.dwFileAttributes FILE_ATTRIBUTE_READONLY then 0o555 else 0o755
  let finish (st_mode : Nat) (st_size : Int) (cursor : Nat) (locks : List LockEvent) :
      StatResult :=
    ⟨0, { st_dev := mkdev 8 0, st_ino := st_ino, st_mode := st_mode, st_size := st_size,
          st_nlink := info.nNumberOfLinks, st_uid := 0, st_gid := 0, st_rdev := 0,
          st_blksize := PAGE_SIZE,
          st_blocks := (st_size + PAGE_SIZE - 1) / PAGE_SIZE },
      cursor, locks⟩
  if has_flag info.dwFileAttributes FILE_ATTRIBUTE_DIRECTORY then
    finish (st_mode ||| S_IFDIR) 0 cursor [.AcquireSRWLockShared, .ReleaseSRWLockShared]
  else
    let st_mode := st_mode ||| S_IFREG
    let st_size : Int := (info.nFileSizeHigh * 4294967296 + info.nFileSizeLow : Nat)
    if has_flag info.dwFileAttributes FILE_ATTRIBUTE_SYSTEM then
      let currentFilePointer :=
        (SetFilePointerEx cursor h.content.length 0 FILE_CURRENT).getD cursor
      let sp := winfs_get_special_file_type H h cursor
      let o := winfs_stat_overlay H st_mode st_size sp.ret
      let restored :=
        (SetFilePointerEx sp.cursor h.content.length currentFilePointer FILE_BEGIN).getD sp.cursor
      finish o.1 o.2 restored
        [.AcquireSRWLockShared, .WaitForSingleObject, .ReleaseMutex, .ReleaseSRWLockShared]
    else
      finish st_mode st_size cursor [.AcquireSRWLockShared, .ReleaseSRWLockShared]

/-- Result of a handle operation of which only the value returned and the lock operations
are modelled. -/
structure OpResult where
  ret : Int
  locks : List LockEvent
deriving Repr, DecidableEq

/-- Embedding of `winfs_truncate` (lines 699-716); `status` is the host's answer to
`NtSetInformationFile(FileEndOfFileInformation)` with `EndOfFile = length`. -/
def winfs_truncate (_length : Int) (status : Nat) : OpResult :=
  if !NT_SUCCESS status then ⟨- L_EIO, [.AcquireSRWLockShared, .ReleaseSRWLockShared]⟩
  else ⟨0, [.AcquireSRWLockShared, .ReleaseSRWLockShared]⟩

/-- Embedding of `winfs_fsync` (lines 718-730); `ok` is the result of
`FlushFileBuffers`. -/
def winfs_fsync (ok : Bool) : OpResult :=
  if !ok then ⟨- L_EIO, [.AcquireSRWLockShared, .ReleaseSRWLockShared]⟩
  else ⟨0, [.AcquireSRWLockShared, .ReleaseSRWLockShared]⟩

/-- Embedding of `winfs_utimens` (lines 838-859); `times_null` is `times == NULL`.  The
result of `SetFileTime` is not tested. -/
def winfs_utimens (times_null : Bool) : OpResult :=
  if times_null then ⟨0, [.AcquireSRWLockShared, .ReleaseSRWLockShared]⟩
  else ⟨0, [.AcquireSRWLockShared, .ReleaseSRWLockShared]⟩

/-- Embedding of `winfs_statfs` (lines 955-988), without the fields it stores in `*buf`;
`status` is the host's answer to `NtQueryVolumeInformationFile`. -/
def winfs_statfs (status : Nat) : OpResult :=
  if !NT_SUCCESS status then ⟨- L_EIO, [.AcquireSRWLockShared, .ReleaseSRWLockShared]⟩
  else ⟨0, [.AcquireSRWLockShared, .ReleaseSRWLockShared]⟩

/-- What a thread holds of the two locks of a handle: the validity lock `rw_lock` in
shared and in exclusive mode, and the position lock `fp_mutex`. -/
structure LockState where
  rw_shared : Nat
  rw_exclusive : Nat
  fp_mutex : Nat
deriving Repr, DecidableEq

/-- Effect of one lock operation; `none` when a lock is released that is not held in that
mode. -/
def lock_step (s : LockState) : LockEvent → Option LockState
  | .AcquireSRWLockShared => some { s with rw_shared := s.rw_shared + 1 }
  | .ReleaseSRWLockShared =>
    if s.rw_shared = 0 then none else some { s with rw_shared := s.rw_shared - 1 }
  | .ReleaseSRWLockExclusive =>
    if s.rw_exclusive = 0 then none else some { s with rw_exclusive := s.rw_exclusive - 1 }
  | .WaitForSingleObject => some { s with fp_mutex := s.fp_mutex + 1 }
  | .ReleaseMutex =>
    if s.fp_mutex = 0 then none else some { s with fp_mutex := s.fp_mutex - 1 }

/-- Effect of a sequence of lock operations. -/
def run_locks (s : LockState) : List LockEvent → Option LockState
  | [] => some s
  | e :: rest =>
    match lock_step s e with
    | none => none
    | some s1 => run_locks s1 rest

/-- The lock operations leave both locks as they found them, every release matching an
acquisition of the same lock in the same mode. -/
def locks_restored (l : List LockEvent) : Prop := ∀ s : LockState, run_locks s l = some s

/-- Effect of the scan of one more cell by `patch_cr`, on lists: `out` is the patched
buffer so far and `x` the byte of the next cell. -/
def patch_cr_snoc (out : List Nat) (x : Nat) : List Nat :=
  if x = CR then
    if out.getLast? = some BACKSLASH then out.dropLast ++ [SPACE, BACKSLASH]
    else out ++ [SPACE]
  else out ++ [x]

/-! ## Theorems -/

theorem ascii_converter_counts : ConverterCounts ascii_converter := by
  intro p cap
  unfold ascii_converter
  split
  · simp
  · intro h; simp at h

theorem ascii_converter_bounded : ConverterBounded ascii_converter := by
  intro p cap hcap
  unfold ascii_converter
  split
  · simp_all
  · simp only [List.length_take]
    constructor
    · have : ((min cap.toNat p.length : Nat) : Int) ≤ (cap.toNat : Int) := by
        exact_mod_cast Nat.min_le_left _ _
      have h2 : (cap.toNat : Int) = cap := Int.toNat_of_nonneg hcap
      omega
    · intro h; omega

theorem mem_memcpy_stores {base : Nat} {src : List Nat} {w : Store}
    (h : w ∈ memcpy_stores base src) : base ≤ w.1 ∧ w.1 < base + src.length := by
  induction src generalizing base with
  | nil => simp [memcpy_stores] at h
  | cons x xs ih =>
    simp only [memcpy_stores, List.mem_cons] at h
    rcases h with h | h
    · subst h
      simp
    · have := ih h
      simp only [List.length_cons]
      omega

theorem Mem.apply_append (m : Mem) (a b : List Store) :
    m.apply (a ++ b) = (m.apply a).apply b := by
  simp [Mem.apply, List.foldl_append]

theorem Mem.apply_cons (m : Mem) (a : Store) (b : List Store) :
    m.apply (a :: b) = (m.store a).apply b := rfl

theorem Mem.apply_nil (m : Mem) : m.apply [] = m := rfl

theorem Mem.apply_memcpy (m : Mem) (base : Nat) (src : List Nat) (j : Nat) :
    (m.apply (memcpy_stores base src)) j =
      if base ≤ j ∧ j < base + src.length then src.getD (j - base) 0 else m j := by
  induction src generalizing m base with
  | nil =>
    have : ¬ (base ≤ j ∧ j < base) := by omega
    simp [memcpy_stores, Mem.apply_nil, this]
  | cons x xs ih =>
    rw [memcpy_stores, Mem.apply_cons, ih]
    by_cases h1 : base + 1 ≤ j ∧ j < base + 1 + xs.length
    · have h2 : base ≤ j ∧ j < base + (x :: xs).length := by
        simp only [List.length_cons]; omega
      rw [if_pos h1, if_pos h2]
      obtain ⟨k, hk⟩ : ∃ k, j - base = k + 1 := ⟨j - base - 1, by omega⟩
      have hk2 : j - (base + 1) = k := by omega
      rw [hk, hk2, List.getD_cons_succ]
    · rw [if_neg h1]
      by_cases h3 : j = base
      · subst h3
        simp [Mem.store]
      · have h2 : ¬ (base ≤ j ∧ j < base + (x :: xs).length) := by
          simp only [List.length_cons]; omega
        rw [if_neg h2]
        simp [Mem.store, h3]

theorem Mem.read_eq_of_getD (m : Mem) (l : List Nat)
    (h : ∀ j, j < l.length → m j = l.getD j 0) : m.read l.length = l := by
  apply List.ext_getElem
  · simp [Mem.read]
  · intro i h1 h2
    simp only [Mem.read, List.getElem_map, List.getElem_range]
    rw [h i h2, List.getD_eq_getElem _ _ h2]

/-- C1: under the converter assumption, every store of `filename_to_nt_pathname` is at
an index below the declared capacity `N`, and a positive returned length is at most `N`. -/
theorem filename_to_nt_pathname_within_capacity (conv : Utf16Converter)
    (hconv : ConverterBounded conv) (mp : mount_point) (filename : List Nat) (N : Int) :
    (∀ w ∈ (filename_to_nt_pathname conv mp filename N).writes, (w.1 : Int) < N) ∧
    (0 < (filename_to_nt_pathname conv mp filename N).ret →
      (filename_to_nt_pathname conv mp filename N).ret ≤ N) := by
  unfold filename_to_nt_pathname mount_point.win_path_len
  by_cases h1 : N < (mp.win_path.length : Int)
  · simp [h1]
  · simp only [h1, if_false]
    have hmem : ∀ w ∈ memcpy_stores 0 mp.win_path, (w.1 : Int) < N := by
      intro w hw
      have := (mem_memcpy_stores hw).2
      omega
    by_cases h2 : filename = []
    · simp only [h2, if_true]
      exact ⟨hmem, fun _ => by omega⟩
    · simp only [h2, if_false]
      by_cases h3 : N - (mp.win_path.length : Int) < 1
      · simp only [h3, if_true]
        exact ⟨hmem, fun h => absurd h (by decide)⟩
      · simp only [h3, if_false]
        obtain ⟨hb1, hb2⟩ := hconv filename (N - (mp.win_path.length : Int) - 1) (by omega)
        have hall : ∀ w ∈ memcpy_stores 0 mp.win_path ++ [(mp.win_path.length, BACKSLASH)] ++
            memcpy_stores (mp.win_path.length + 1)
              (conv filename (N - (mp.win_path.length : Int) - 1)).2, (w.1 : Int) < N := by
          intro w hw
          rw [List.mem_append, List.mem_append] at hw
          rcases hw with (hw | hw) | hw
          · exact hmem w hw
          · rw [List.mem_singleton] at hw
            subst hw
            simp only
            omega
          · have := (mem_memcpy_stores hw).2
            omega
        by_cases h4 : (conv filename (N - (mp.win_path.length : Int) - 1)).1 < 0
        · simp only [h4, if_true]
          exact ⟨hall, fun h => absurd h (by decide)⟩
        · simp only [h4, if_false]
          refine ⟨hall, fun _ => ?_⟩
          have := hb2 (by omega)
          omega

/-- C1 witness: the translator run with the one-unit-per-byte converter on prefix
`\??\C:` , name `ab` and capacity 9. -/
theorem filename_to_nt_pathname_within_capacity_witness :
    ConverterBounded ascii_converter ∧
    ((∀ w ∈ (filename_to_nt_pathname ascii_converter ⟨0, [92, 63, 63, 92, 67, 58]⟩ [97, 98] 9).writes,
        (w.1 : Int) < 9) ∧
     (0 < (filename_to_nt_pathname ascii_converter ⟨0, [92, 63, 63, 92, 67, 58]⟩ [97, 98] 9).ret →
       (filename_to_nt_pathname ascii_converter ⟨0, [92, 63, 63, 92, 67, 58]⟩ [97, 98] 9).ret ≤ 9)) :=
  ⟨ascii_converter_bounded,
   filename_to_nt_pathname_within_capacity ascii_converter ascii_converter_bounded
     ⟨0, [92, 63, 63, 92, 67, 58]⟩ [97, 98] 9⟩

/-- C2: `filename_to_nt_pathname` agrees with the reference definition: where the
reference fails the code returns 0, and where the reference yields a native path the
code returns its length and the buffer holds exactly that path (the result of the
converter being the number of code units it stored). -/
theorem filename_to_nt_pathname_eq_translate_ref (conv : Utf16Converter)
    (hconv : ConverterCounts conv) (mp : mount_point) (filename : List Nat) (N : Int)
    (m0 : Mem) :
    match translate_ref conv mp filename N with
    | none => (filename_to_nt_pathname conv mp filename N).ret = 0
    | some out =>
        (filename_to_nt_pathname conv mp filename N).ret = (out.length : Int) ∧
        (m0.apply (filename_to_nt_pathname conv mp filename N).writes).read out.length = out := by
  unfold translate_ref filename_to_nt_pathname mount_point.win_path_len
  by_cases h1 : N < (mp.win_path.length : Int)
  · simp [h1]
  · simp only [h1, if_false]
    have hpre : ∀ (ws : List Store) j, j < mp.win_path.length →
        (∀ w ∈ ws, mp.win_path.length ≤ w.1) →
        ((m0.apply (memcpy_stores 0 mp.win_path)).apply ws) j = mp.win_path.getD j 0 := by
      intro ws j hj hws
      induction ws using List.reverseRecOn with
      | nil => rw [Mem.apply_nil, Mem.apply_memcpy]; simp [hj]
      | append_singleton ws w ih =>
        rw [Mem.apply_append, Mem.apply_cons, Mem.apply_nil]
        have hw := hws w (by simp)
        have : j ≠ w.1 := by omega
        simp only [Mem.store, this, if_false]
        exact ih (fun w hw => hws w (by simp [hw]))
    by_cases h2 : filename = []
    · simp only [h2, if_true]
      refine ⟨by trivial, Mem.read_eq_of_getD _ _ (fun j hj => ?_)⟩
      simpa [Mem.apply_nil] using hpre [] j hj (by simp)
    · simp only [h2, if_false]
      by_cases h3 : N - (mp.win_path.length : Int) < 1
      · simp [h3]
      · simp only [h3, if_false]
        have hb2 := hconv filename (N - (mp.win_path.length : Int) - 1)
        by_cases h4 : (conv filename (N - (mp.win_path.length : Int) - 1)).1 < 0
        · simp [h4]
        · simp only [h4, if_false]
          have hlen := hb2 (by omega)
          refine ⟨by rw [hlen]; simp only [List.length_append, List.length_singleton]; push_cast; ring,
            Mem.read_eq_of_getD _ _ (fun j hj => ?_)⟩
          simp only [List.length_append, List.length_singleton] at hj
          rw [List.append_assoc (memcpy_stores 0 mp.win_path), Mem.apply_append]
          by_cases hj1 : j < mp.win_path.length
          · rw [hpre _ j hj1]
            · rw [List.append_assoc, List.getD_append _ _ _ _ hj1]
            · intro w hw
              rw [List.mem_append, List.mem_singleton] at hw
              rcases hw with hw | hw
              · subst hw; simp
              · have := (mem_memcpy_stores hw).1
                omega
          · rw [Mem.apply_append, Mem.apply_memcpy]
            rw [List.append_assoc, List.getD_append_right _ _ _ _ (by omega)]
            by_cases hj2 : j = mp.win_path.length
            · subst hj2
              simp [Mem.apply_cons, Mem.apply_nil, Mem.store]
            · have hc : mp.win_path.length + 1 ≤ j ∧
                  j < mp.win_path.length + 1 +
                    (conv filename (N - (mp.win_path.length : Int) - 1)).2.length := by omega
              rw [if_pos hc]
              obtain ⟨k, hk⟩ : ∃ k, j - mp.win_path.length = k + 1 :=
                ⟨j - mp.win_path.length - 1, by omega⟩
              have hk2 : j - (mp.win_path.length + 1) = k := by omega
              rw [hk, hk2]
              simp

/-- C2 witness: with the one-unit-per-byte converter, prefix `\??\C:`, name `ab` and
capacity 9 the code returns 9 and leaves `\??\C:\ab` in the buffer. -/
theorem filename_to_nt_pathname_eq_translate_ref_witness :
    ConverterCounts ascii_converter ∧
    (match translate_ref ascii_converter ⟨0, [92, 63, 63, 92, 67, 58]⟩ [97, 98] 9 with
    | none => (filename_to_nt_pathname ascii_converter ⟨0, [92, 63, 63, 92, 67, 58]⟩ [97, 98] 9).ret = 0
    | some out =>
        (filename_to_nt_pathname ascii_converter ⟨0, [92, 63, 63, 92, 67, 58]⟩ [97, 98] 9).ret
          = (out.length : Int) ∧
        (Mem.apply (fun _ => 0)
          (filename_to_nt_pathname ascii_converter ⟨0, [92, 63, 63, 92, 67, 58]⟩ [97, 98] 9).writes).read
            out.length = out) :=
  ⟨ascii_converter_counts,
   filename_to_nt_pathname_eq_translate_ref ascii_converter ascii_converter_counts
     ⟨0, [92, 63, 63, 92, 67, 58]⟩ [97, 98] 9 (fun _ => 0)⟩

theorem translate_ref_run :
    translate_ref ascii_converter ⟨0, [92, 63, 63, 92, 67, 58]⟩ [97, 98] 9
      = some [92, 63, 63, 92, 67, 58, 92, 97, 98] := by decide

theorem filename_to_nt_pathname_run :
    filename_to_nt_pathname ascii_converter ⟨0, [92, 63, 63, 92, 67, 58]⟩ [97, 98] 9
      = ⟨9, [(0, 92), (1, 63), (2, 63), (3, 92), (4, 67), (5, 58), (6, 92), (7, 97), (8, 98)]⟩ := by
  decide

/-! ### `patch_cr` -/

theorem patch_cr_step_other (start : Nat) (m : Mem) (dst j : Nat) (h1 : j ≠ dst)
    (h2 : j + 1 ≠ dst) : patch_cr_step start m dst j = m j := by
  have h3 : j ≠ dst - 1 := by omega
  unfold patch_cr_step
  split
  · split <;> simp [Mem.store, h1, h3]
  · rfl

theorem patch_cr_step_self (start : Nat) (m : Mem) (dst : Nat) :
    patch_cr_step start m dst dst =
      if m dst = CR then (if start < dst ∧ m (dst - 1) = BACKSLASH then BACKSLASH else SPACE)
      else m dst := by
  unfold patch_cr_step
  split
  · split <;> simp [Mem.store]
  · rfl

theorem patch_cr_step_prev (start : Nat) (m : Mem) (dst : Nat) (hd : 0 < dst) :
    patch_cr_step start m dst (dst - 1) =
      if m dst = CR ∧ start < dst ∧ m (dst - 1) = BACKSLASH then SPACE else m (dst - 1) := by
  have h3 : dst - 1 ≠ dst := by omega
  unfold patch_cr_step
  by_cases h1 : m dst = CR
  · by_cases h2 : start < dst ∧ m (dst - 1) = BACKSLASH
    · simp [Mem.store, h1, h2, h3]
    · have h4 : ¬ (m dst = CR ∧ start < dst ∧ m (dst - 1) = BACKSLASH) := fun h => h2 h.2
      rw [if_neg h4, if_pos h1, if_neg h2]
      simp [Mem.store, h3]
  · have h4 : ¬ (m dst = CR ∧ start < dst ∧ m (dst - 1) = BACKSLASH) := fun h => h1 h.1
    rw [if_neg h4, if_neg h1]

/-- Cells more than one below the scan position are not touched any more. -/
theorem patch_cr_loop_below (start count dst : Nat) (m : Mem) (j : Nat) (hj : j + 1 < dst) :
    patch_cr_loop start count dst m j = m j := by
  induction count generalizing dst m with
  | zero => rfl
  | succ n ih =>
    rw [patch_cr_loop, ih (dst + 1) _ (by omega), patch_cr_step_other _ _ _ _ (by omega) (by omega)]

/-- Cells at or past the end of the scanned range are not touched. -/
theorem patch_cr_loop_above (start count dst : Nat) (m : Mem) (j : Nat) (hj : dst + count ≤ j) :
    patch_cr_loop start count dst m j = m j := by
  induction count generalizing dst m with
  | zero => rfl
  | succ n ih =>
    rw [patch_cr_loop, ih (dst + 1) _ (by omega), patch_cr_step_other _ _ _ _ (by omega) (by omega)]

/-- The cell just below the scan position changes only when the first step moves a
backslash out of it. -/
theorem patch_cr_loop_prev (start count dst : Nat) (m : Mem) (hd : 0 < dst) :
    patch_cr_loop start count dst m (dst - 1) =
      if 0 < count ∧ m dst = CR ∧ start < dst ∧ m (dst - 1) = BACKSLASH then SPACE
      else m (dst - 1) := by
  cases count with
  | zero => simp [patch_cr_loop]
  | succ n =>
    rw [patch_cr_loop, patch_cr_loop_below _ _ _ _ _ (by omega), patch_cr_step_prev _ _ _ hd]
    simp

theorem patch_cr_loop_first (start count dst : Nat) (m : Mem) :
    patch_cr_loop start (count + 1) dst m dst =
      if 0 < count ∧ m (dst + 1) = CR ∧ start < dst + 1 ∧
          patch_cr_step start m dst dst = BACKSLASH then SPACE
      else patch_cr_step start m dst dst := by
  have h := patch_cr_loop_prev start count (dst + 1) (patch_cr_step start m dst) (by omega)
  rw [Nat.add_sub_cancel, patch_cr_step_other _ _ _ (dst + 1) (by omega) (by omega)] at h
  rw [patch_cr_loop, h]

theorem CR_ne_SPACE : CR ≠ SPACE := by decide
theorem CR_ne_BACKSLASH : CR ≠ BACKSLASH := by decide
theorem SPACE_ne_BACKSLASH : SPACE ≠ BACKSLASH := by decide

/-- No carriage return is left in the scanned range. -/
theorem patch_cr_loop_no_cr (start count dst : Nat) (m : Mem) (j : Nat) (h1 : dst ≤ j)
    (h2 : j < dst + count) : patch_cr_loop start count dst m j ≠ CR := by
  induction count generalizing dst m with
  | zero => omega
  | succ n ih =>
    by_cases hj : j = dst
    · subst hj
      rw [patch_cr_loop_first]
      split
      · exact fun h => CR_ne_SPACE h.symm
      · rw [patch_cr_step_self]
        split
        · split
          · exact fun h => CR_ne_BACKSLASH h.symm
          · exact fun h => CR_ne_SPACE h.symm
        · assumption
    · rw [patch_cr_loop]
      exact ih (dst + 1) _ (by omega) (by omega)

/-- A backslash directly before a carriage return (both in the scanned range) becomes a
space. -/
theorem patch_cr_loop_backslash (start count dst : Nat) (m : Mem) (j : Nat) (hs : start ≤ dst)
    (h1 : dst ≤ j) (h2 : j + 1 < dst + count) (hb : m j = BACKSLASH) (hc : m (j + 1) = CR) :
    patch_cr_loop start count dst m j = SPACE := by
  induction count generalizing dst m with
  | zero => omega
  | succ n ih =>
    by_cases hj : j = dst
    · subst hj
      have hne : m j ≠ CR := by rw [hb]; exact fun h => CR_ne_BACKSLASH h.symm
      rw [patch_cr_loop_first, patch_cr_step_self, if_neg hne, if_pos]
      exact ⟨by omega, hc, by omega, hb⟩
    · rw [patch_cr_loop]
      apply ih (dst + 1) _ (by omega) (by omega) (by omega)
      · rw [patch_cr_step_other _ _ _ _ (by omega) (by omega)]; exact hb
      · rw [patch_cr_step_other _ _ _ _ (by omega) (by omega)]; exact hc

/-- Every carriage return of the scanned range is replaced by a space or a backslash. -/
theorem patch_cr_loop_cr (start count dst : Nat) (m : Mem) (j : Nat)
    (h1 : dst ≤ j) (h2 : j < dst + count) (hc : m j = CR) :
    patch_cr_loop start count dst m j = SPACE ∨ patch_cr_loop start count dst m j = BACKSLASH := by
  induction count generalizing dst m with
  | zero => omega
  | succ n ih =>
    by_cases hj : j = dst
    · subst hj
      rw [patch_cr_loop_first]
      split
      · exact Or.inl rfl
      · rw [patch_cr_step_self, if_pos hc]
        split
        · exact Or.inr rfl
        · exact Or.inl rfl
    · rw [patch_cr_loop]
      apply ih (dst + 1) _ (by omega) (by omega)
      rw [patch_cr_step_other _ _ _ _ (by omega) (by omega)]; exact hc

/-- A carriage return that is first in the buffer, or whose preceding byte is neither a
backslash nor a carriage return, becomes a space. -/
theorem patch_cr_loop_bare_cr (start count dst : Nat) (m : Mem) (j : Nat)
    (h1 : dst ≤ j) (h2 : j < dst + count) (hc : m j = CR)
    (hp : ¬ (start < j ∧ m (j - 1) = BACKSLASH)) (hq : dst < j → m (j - 1) ≠ CR) :
    patch_cr_loop start count dst m j = SPACE := by
  induction count generalizing dst m with
  | zero => omega
  | succ n ih =>
    by_cases hj : j = dst
    · subst hj
      rw [patch_cr_loop_first, patch_cr_step_self, if_pos hc, if_neg hp, if_neg]
      exact fun h => SPACE_ne_BACKSLASH h.2.2.2
    · rw [patch_cr_loop]
      apply ih (dst + 1) _ (by omega) (by omega)
      · rw [patch_cr_step_other _ _ _ _ (by omega) (by omega)]; exact hc
      · by_cases hj2 : j - 1 = dst
        · rw [hj2, patch_cr_step_self]
          have hcr : m dst ≠ CR := by rw [← hj2]; exact hq (by omega)
          rw [if_neg hcr]
          rw [hj2] at hp
          exact hp
        · rw [patch_cr_step_other _ _ _ _ hj2 (by omega)]; exact hp
      · intro hlt
        rw [patch_cr_step_other _ _ _ _ (by omega) (by omega)]
        exact hq (by omega)

/-- A byte that is neither a carriage return nor a backslash directly before a carriage
return is left as it is. -/
theorem patch_cr_loop_unchanged (start count dst : Nat) (m : Mem) (j : Nat)
    (h1 : dst ≤ j) (h2 : j < dst + count) (hc : m j ≠ CR)
    (hp : ¬ (m j = BACKSLASH ∧ j + 1 < dst + count ∧ m (j + 1) = CR)) :
    patch_cr_loop start count dst m j = m j := by
  induction count generalizing dst m with
  | zero => omega
  | succ n ih =>
    by_cases hj : j = dst
    · subst hj
      rw [patch_cr_loop_first, patch_cr_step_self, if_neg hc, if_neg]
      intro h
      exact hp ⟨h.2.2.2, by omega, h.2.1⟩
    · rw [patch_cr_loop]
      have e1 : patch_cr_step start m dst j = m j :=
        patch_cr_step_other _ _ _ _ (by omega) (by omega)
      have e2 : patch_cr_step start m dst (j + 1) = m (j + 1) :=
        patch_cr_step_other _ _ _ _ (by omega) (by omega)
      rw [← e1]
      apply ih (dst + 1) _ (by omega) (by omega)
      · rw [e1]; exact hc
      · rw [e1, e2]
        intro h
        exact hp ⟨h.1, by omega, h.2.2⟩

/-- The backslash of a pair backslash, carriage return moves into the cell of the
carriage return, and stays there unless another carriage return follows. -/
theorem patch_cr_loop_moved (start count dst : Nat) (m : Mem) (j : Nat) (hs : start ≤ dst)
    (h1 : dst ≤ j) (h2 : j + 1 < dst + count) (hb : m j = BACKSLASH) (hc : m (j + 1) = CR)
    (hn : ¬ (j + 2 < dst + count ∧ m (j + 2) = CR)) :
    patch_cr_loop start count dst m (j + 1) = BACKSLASH := by
  induction count generalizing dst m with
  | zero => omega
  | succ n ih =>
    by_cases hj : j = dst
    · subst hj
      have hne : m j ≠ CR := by rw [hb]; exact fun h => CR_ne_BACKSLASH h.symm
      have hstep : patch_cr_step start m j = m := by
        unfold patch_cr_step; rw [if_neg hne]
      obtain ⟨c, rfl⟩ : ∃ c, n = c + 1 := ⟨n - 1, by omega⟩
      have hval : patch_cr_step start m (j + 1) (j + 1) = BACKSLASH := by
        rw [patch_cr_step_self, if_pos hc, Nat.add_sub_cancel, if_pos ⟨by omega, hb⟩]
      rw [patch_cr_loop, hstep, patch_cr_loop_first, hval, if_neg]
      intro hh
      exact hn ⟨by omega, hh.2.1⟩
    · rw [patch_cr_loop]
      apply ih (dst + 1) _ (by omega) (by omega) (by omega)
      · rw [patch_cr_step_other _ _ _ _ (by omega) (by omega)]; exact hb
      · rw [patch_cr_step_other _ _ _ _ (by omega) (by omega)]; exact hc
      · rw [patch_cr_step_other _ _ _ _ (by omega) (by omega)]
        intro hh
        exact hn ⟨by omega, hh.2⟩

theorem patch_cr_frame (m : Mem) (start count j : Nat) (hj : j < start) :
    patch_cr m start count j = m j := by
  unfold patch_cr
  by_cases h : j + 1 < start
  · exact patch_cr_loop_below _ _ _ _ _ h
  · have hj2 : j = start - 1 := by omega
    rw [hj2, patch_cr_loop_prev _ _ _ _ (by omega), if_neg]
    intro hc
    exact absurd hc.2.2.1 (by omega)

/-- One step of `patch_cr` acts in the same way on two memories that agree on the
scanned window. -/
theorem patch_cr_step_sim (s1 s2 : Nat) (m1 m2 : Mem) (k n : Nat) (hk : k < n)
    (h : ∀ i, i < n → m1 (s1 + i) = m2 (s2 + i)) (i : Nat) (hi : i < n) :
    patch_cr_step s1 m1 (s1 + k) (s1 + i) = patch_cr_step s2 m2 (s2 + k) (s2 + i) := by
  have hcond : (s1 < s1 + k ∧ m1 (s1 + k - 1) = BACKSLASH) ↔
      (s2 < s2 + k ∧ m2 (s2 + k - 1) = BACKSLASH) := by
    by_cases hk0 : k = 0
    · subst hk0; simp
    · have e1 : s1 + k - 1 = s1 + (k - 1) := by omega
      have e2 : s2 + k - 1 = s2 + (k - 1) := by omega
      rw [e1, e2, h (k - 1) (by omega)]
      constructor
      · intro hh; exact ⟨by omega, hh.2⟩
      · intro hh; exact ⟨by omega, hh.2⟩
  by_cases hik : i = k
  · subst hik
    rw [patch_cr_step_self, patch_cr_step_self, h i hi]
    by_cases hc : m2 (s2 + i) = CR
    · rw [if_pos hc, if_pos hc]
      by_cases hb : s1 < s1 + i ∧ m1 (s1 + i - 1) = BACKSLASH
      · rw [if_pos hb, if_pos (hcond.1 hb)]
      · rw [if_neg hb, if_neg (fun hh => hb (hcond.2 hh))]
    · rw [if_neg hc, if_neg hc]
  · by_cases hik2 : i + 1 = k
    · have e1 : s1 + i = s1 + k - 1 := by omega
      have e2 : s2 + i = s2 + k - 1 := by omega
      rw [e1, e2, patch_cr_step_prev _ _ _ (by omega), patch_cr_step_prev _ _ _ (by omega),
        ← e1, ← e2, h k hk, h i hi]
      have hlt : (s1 < s1 + k) ↔ (s2 < s2 + k) := by omega
      by_cases hc : m2 (s2 + k) = CR ∧ s2 < s2 + k ∧ m2 (s2 + i) = BACKSLASH
      · rw [if_pos hc, if_pos ⟨hc.1, hlt.2 hc.2.1, hc.2.2⟩]
      · rw [if_neg hc, if_neg (fun hh => hc ⟨hh.1, hlt.1 hh.2.1, hh.2.2⟩)]
    · rw [patch_cr_step_other _ _ _ _ (by omega) (by omega),
        patch_cr_step_other _ _ _ _ (by omega) (by omega), h i hi]

theorem patch_cr_loop_sim (s1 s2 : Nat) (n count k : Nat) (m1 m2 : Mem) (hk : k + count ≤ n)
    (h : ∀ i, i < n → m1 (s1 + i) = m2 (s2 + i)) (i : Nat) (hi : i < n) :
    patch_cr_loop s1 count (s1 + k) m1 (s1 + i) = patch_cr_loop s2 count (s2 + k) m2 (s2 + i) := by
  induction count generalizing k m1 m2 with
  | zero => exact h i hi
  | succ c ih =>
    rw [patch_cr_loop, patch_cr_loop]
    exact ih (k + 1) _ _ (by omega) (fun i hi => patch_cr_step_sim s1 s2 m1 m2 k n (by omega) h i hi)

theorem Mem.read_length (m : Mem) (n : Nat) : (m.read n).length = n := by
  simp [Mem.read]

theorem Mem.read_getD (m : Mem) (n k : Nat) (hk : k < n) : (m.read n).getD k 0 = m k := by
  rw [List.getD_eq_getElem _ _ (by simpa [Mem.read] using hk)]
  simp [Mem.read]

theorem patch_cr_list_length (l : List Nat) : (patch_cr_list l).length = l.length := by
  simp [patch_cr_list, Mem.read]

/-- Running `patch_cr` on a stretch of memory that holds the bytes `l` leaves
`patch_cr_list l` there. -/
theorem patch_cr_eq_patch_cr_list (m : Mem) (start : Nat) (l : List Nat)
    (h : ∀ i, i < l.length → m (start + i) = l.getD i 0) (k : Nat) (hk : k < l.length) :
    patch_cr m start l.length (start + k) = (patch_cr_list l).getD k 0 := by
  unfold patch_cr_list
  rw [Mem.read_getD _ _ _ hk]
  unfold patch_cr
  have := patch_cr_loop_sim start 0 l.length l.length 0 m (Mem.ofList l) (by omega)
    (fun i hi => by rw [h i hi]; simp [Mem.ofList]) k hk
  simpa using this

theorem patch_cr_list_getD (l : List Nat) (i : Nat) (hi : i < l.length) :
    (patch_cr_list l).getD i 0 = patch_cr_loop 0 l.length 0 (Mem.ofList l) i := by
  unfold patch_cr_list patch_cr
  rw [Mem.read_getD _ _ _ hi]

/-- What `patch_cr` does to a buffer `l`, cell by cell. -/
theorem patch_cr_list_spec (l : List Nat) (i : Nat) (hi : i < l.length) :
    (patch_cr_list l).getD i 0 ≠ CR ∧
    (l.getD i 0 = BACKSLASH → i + 1 < l.length → l.getD (i + 1) 0 = CR →
      (patch_cr_list l).getD i 0 = SPACE) ∧
    (l.getD i 0 = BACKSLASH → i + 1 < l.length → l.getD (i + 1) 0 = CR →
      ¬ (i + 2 < l.length ∧ l.getD (i + 2) 0 = CR) →
      (patch_cr_list l).getD (i + 1) 0 = BACKSLASH) ∧
    (l.getD i 0 = CR →
      (patch_cr_list l).getD i 0 = SPACE ∨ (patch_cr_list l).getD i 0 = BACKSLASH) ∧
    (l.getD i 0 = CR → (i = 0 ∨ (l.getD (i - 1) 0 ≠ BACKSLASH ∧ l.getD (i - 1) 0 ≠ CR)) →
      (patch_cr_list l).getD i 0 = SPACE) ∧
    (l.getD i 0 ≠ CR → ¬ (l.getD i 0 = BACKSLASH ∧ i + 1 < l.length ∧ l.getD (i + 1) 0 = CR) →
      (patch_cr_list l).getD i 0 = l.getD i 0) := by
  rw [patch_cr_list_getD l i hi]
  refine ⟨?_, ?_, ?_, ?_, ?_, ?_⟩
  · exact patch_cr_loop_no_cr 0 _ 0 _ i (by omega) (by omega)
  · intro hb hlt hc
    exact patch_cr_loop_backslash 0 _ 0 _ i (by omega) (by omega) (by omega) hb hc
  · intro hb hlt hc hn
    rw [patch_cr_list_getD l (i + 1) hlt]
    exact patch_cr_loop_moved 0 _ 0 _ i (by omega) (by omega) (by omega) hb hc
      (fun hh => hn ⟨by omega, hh.2⟩)
  · intro hc
    exact patch_cr_loop_cr 0 _ 0 _ i (by omega) (by omega) hc
  · intro hc hp
    apply patch_cr_loop_bare_cr 0 _ 0 _ i (by omega) (by omega) hc
    · intro hh
      rcases hp with hp | hp
      · omega
      · exact hp.1 hh.2
    · intro hlt
      rcases hp with hp | hp
      · omega
      · exact hp.2
  · intro hc hp
    apply patch_cr_loop_unchanged 0 _ 0 _ i (by omega) (by omega) hc
    intro hh
    exact hp ⟨hh.1, by omega, hh.2.2⟩

/-! ### The I/O loop -/

/-- Induction over the runs of `io_loop`: a relation between the state at loop entry and
the state at loop exit holds if it holds for an immediate exit, for an exit by `break`
(or by the host's closing answer), and is carried back over an iteration that goes on. -/
theorem io_loop_induction {α : Type} (iter : α → IoState → IoState × Bool) (last : α)
    (P : IoState → IoState → Prop)
    (hexit : ∀ s, s.count = 0 → P s s)
    (hlast : ∀ s, s.count ≠ 0 → P s (iter last s).1)
    (hbreak : ∀ a s, s.count ≠ 0 → (iter a s).2 = false → P s (iter a s).1)
    (hstep : ∀ a s s', s.count ≠ 0 → (iter a s).2 = true → P (iter a s).1 s' → P s s')
    (script : List α) (s : IoState) : P s (io_loop iter last script s).1 := by
  induction script generalizing s with
  | nil =>
    rw [io_loop]
    split
    · exact hexit s (by assumption)
    · exact hlast s (by assumption)
  | cons a rest ih =>
    rw [io_loop]
    by_cases h0 : s.count = 0
    · rw [if_pos h0]; exact hexit s h0
    · rw [if_neg h0]
      by_cases h1 : (iter a s).2 = true
      · rw [if_pos h1]; exact hstep a s _ h0 h1 (ih _)
      · rw [if_neg h1]; exact hbreak a s h0 (by simpa using h1)

/-- The caller's buffer after one iteration of the read loop: cells below `bufpos` are
kept, and on a text-translated handle the cells of the transfer hold `patch_cr` of the
transferred bytes. -/
theorem winfs_read_iter_buf (is_text : Bool) (a : ReadAnswer) (s : IoState) :
    (∀ j, j < s.bufpos → (winfs_read_iter is_text a s).1.buf j = s.buf j) ∧
    (is_text = true → ∀ bytes, a = .data bytes → ∀ k, k < (bytes.take (min s.count UINT_MAX)).length →
      (winfs_read_iter is_text a s).1.buf (s.bufpos + k) =
        (patch_cr_list (bytes.take (min s.count UINT_MAX))).getD k 0) := by
  have hm : ∀ (l : List Nat) j, j < s.bufpos →
      (s.buf.apply (memcpy_stores s.bufpos l)) j = s.buf j := by
    intro l j hj
    rw [Mem.apply_memcpy, if_neg (by omega)]
  cases a with
  | eof => exact ⟨fun j _ => rfl, fun _ bytes hb => by simp at hb⟩
  | error => exact ⟨fun j _ => rfl, fun _ bytes hb => by simp at hb⟩
  | data bytes =>
    constructor
    · intro j hj
      unfold winfs_read_iter
      simp only
      split
      · exact hm _ j hj
      · cases is_text
        · exact hm _ j hj
        · simp only [if_true]
          rw [patch_cr_frame _ _ _ _ hj]
          exact hm _ j hj
    · intro ht bytes2 hb k hk
      cases hb
      subst ht
      unfold winfs_read_iter
      simp only
      split
      · rename_i h0; omega
      · simp only [if_true]
        apply patch_cr_eq_patch_cr_list _ _ _ _ k hk
        intro i hi
        rw [Mem.apply_memcpy, if_pos (by omega)]
        congr 1
        omega

theorem winfs_read_iter_facts (is_text : Bool) (a : ReadAnswer) (s : IoState) :
    ∃ c, IterFacts s (winfs_read_iter is_text a s) c ∧ c.overlapped = none ∧
      c.cursor = s.cursor ∧ ((winfs_read_iter is_text a s).2 = true → 0 < c.transferred) := by
  cases a with
  | eof =>
    exact ⟨⟨none, s.cursor, min s.count UINT_MAX, .eof, []⟩,
      ⟨rfl, Nat.min_le_right _ _, by simp [IoCall.transferred], by simp, by simp [winfs_read_iter],
       by simp [winfs_read_iter, IoCall.transferred], by simp [winfs_read_iter, IoCall.transferred],
       by simp [winfs_read_iter, IoCall.transferred]⟩, rfl, rfl, by simp [winfs_read_iter]⟩
  | error =>
    exact ⟨⟨none, s.cursor, min s.count UINT_MAX, .error, []⟩,
      ⟨rfl, Nat.min_le_right _ _, by simp [IoCall.transferred], by simp [winfs_read_iter],
       by simp [winfs_read_iter], by simp [winfs_read_iter],
       by simp [winfs_read_iter, IoCall.transferred],
       by simp [winfs_read_iter, IoCall.transferred]⟩, rfl, rfl, by simp [winfs_read_iter]⟩
  | data bytes =>
    refine ⟨⟨none, s.cursor, min s.count UINT_MAX, .ok, bytes.take (min s.count UINT_MAX)⟩,
      ⟨?_, Nat.min_le_right _ _, ?_, by simp, ?_, ?_, ?_, ?_⟩, rfl, rfl, ?_⟩
    · unfold winfs_read_iter; simp only; split <;> rfl
    · simp only [IoCall.transferred, List.length_take]; omega
    · unfold winfs_read_iter; simp only [IoCall.transferred]; split <;> simp
    · unfold winfs_read_iter; simp only [IoCall.transferred]; split
      · rename_i h; intro _ _; exact ⟨rfl, h⟩
      · intro h; simp at h
    · unfold winfs_read_iter; simp only [IoCall.transferred]; split
      · rename_i h; rw [h]; rfl
      · rfl
    · unfold winfs_read_iter; simp only [IoCall.transferred]; split
      · rename_i h; rw [h]; rfl
      · rfl
    · unfold winfs_read_iter; simp only [IoCall.transferred]; split
      · simp
      · intro _; omega

/-- The caller's buffer after one iteration of the read loop: cells below `bufpos` are
kept, and on a text-translated handle the cells of the transfer hold `patch_cr` of the
transferred bytes. -/
theorem winfs_pread_iter_buf (is_text : Bool) (a : ReadAnswer) (s : IoState) :
    (∀ j, j < s.bufpos → (winfs_pread_iter is_text a s).1.buf j = s.buf j) ∧
    (is_text = true → ∀ bytes, a = .data bytes → ∀ k, k < (bytes.take (min s.count UINT_MAX)).length →
      (winfs_pread_iter is_text a s).1.buf (s.bufpos + k) =
        (patch_cr_list (bytes.take (min s.count UINT_MAX))).getD k 0) := by
  have hm : ∀ (l : List Nat) j, j < s.bufpos →
      (s.buf.apply (memcpy_stores s.bufpos l)) j = s.buf j := by
    intro l j hj
    rw [Mem.apply_memcpy, if_neg (by omega)]
  cases a with
  | eof => exact ⟨fun j _ => rfl, fun _ bytes hb => by simp at hb⟩
  | error => exact ⟨fun j _ => rfl, fun _ bytes hb => by simp at hb⟩
  | data bytes =>
    constructor
    · intro j hj
      unfold winfs_pread_iter
      simp only
      split
      · exact hm _ j hj
      · cases is_text
        · exact hm _ j hj
        · simp only [if_true]
          rw [patch_cr_frame _ _ _ _ hj]
          exact hm _ j hj
    · intro ht bytes2 hb k hk
      cases hb
      subst ht
      unfold winfs_pread_iter
      simp only
      split
      · rename_i h0; omega
      · simp only [if_true]
        apply patch_cr_eq_patch_cr_list _ _ _ _ k hk
        intro i hi
        rw [Mem.apply_memcpy, if_pos (by omega)]
        congr 1
        omega

theorem winfs_pread_iter_facts (is_text : Bool) (a : ReadAnswer) (s : IoState) :
    ∃ c, IterFacts s (winfs_pread_iter is_text a s) c ∧
      c.overlapped = some (overlapped_of s.offset) ∧ c.cursor = s.cursor ∧
      ((winfs_pread_iter is_text a s).2 = true → 0 < c.transferred) ∧
      ((winfs_pread_iter is_text a s).2 = true →
        (winfs_pread_iter is_text a s).1.offset = wrap_loff (s.offset + c.transferred)) := by
  cases a with
  | eof =>
    exact ⟨⟨some (overlapped_of s.offset), s.cursor, min s.count UINT_MAX, .eof, []⟩,
      ⟨rfl, Nat.min_le_right _ _, by simp [IoCall.transferred], by simp, by simp [winfs_pread_iter],
       by simp [winfs_pread_iter, IoCall.transferred], by simp [winfs_pread_iter, IoCall.transferred],
       by simp [winfs_pread_iter, IoCall.transferred]⟩, rfl, rfl, by simp [winfs_pread_iter],
       by simp [winfs_pread_iter]⟩
  | error =>
    exact ⟨⟨some (overlapped_of s.offset), s.cursor, min s.count UINT_MAX, .error, []⟩,
      ⟨rfl, Nat.min_le_right _ _, by simp [IoCall.transferred], by simp [winfs_pread_iter],
       by simp [winfs_pread_iter], by simp [winfs_pread_iter],
       by simp [winfs_pread_iter, IoCall.transferred],
       by simp [winfs_pread_iter, IoCall.transferred]⟩, rfl, rfl, by simp [winfs_pread_iter],
       by simp [winfs_pread_iter]⟩
  | data bytes =>
    refine ⟨⟨some (overlapped_of s.offset), s.cursor, min s.count UINT_MAX, .ok,
        bytes.take (min s.count UINT_MAX)⟩,
      ⟨?_, Nat.min_le_right _ _, ?_, by simp, ?_, ?_, ?_, ?_⟩, rfl, rfl, ?_, ?_⟩
    · unfold winfs_pread_iter; simp only; split <;> rfl
    · simp only [IoCall.transferred, List.length_take]; omega
    · unfold winfs_pread_iter; simp only [IoCall.transferred]; split <;> simp
    · unfold winfs_pread_iter; simp only [IoCall.transferred]; split
      · rename_i h; intro _ _; exact ⟨rfl, h⟩
      · intro h; simp at h
    · unfold winfs_pread_iter; simp only [IoCall.transferred]; split
      · rename_i h; rw [h]; rfl
      · rfl
    · unfold winfs_pread_iter; simp only [IoCall.transferred]; split
      · rename_i h; rw [h]; rfl
      · rfl
    · unfold winfs_pread_iter; simp only [IoCall.transferred]; split
      · simp
      · intro _; omega
    · unfold winfs_pread_iter; simp only [IoCall.transferred]; split
      · simp
      · intro _; rfl

theorem winfs_write_iter_facts (ov : Option (Nat × Nat)) (a : WriteAnswer) (s : IoState) :
    ∃ c, IterFacts s (winfs_write_iter ov a s) c ∧ c.overlapped = ov ∧ c.cursor = s.cursor := by
  cases a with
  | error =>
    exact ⟨⟨ov, s.cursor, min s.count UINT_MAX, .error, []⟩,
      ⟨rfl, Nat.min_le_right _ _, by simp [IoCall.transferred], by simp [winfs_write_iter],
       by simp [winfs_write_iter], by simp [winfs_write_iter],
       by simp [winfs_write_iter, IoCall.transferred],
       by simp [winfs_write_iter, IoCall.transferred]⟩, rfl, rfl⟩
  | accepted n =>
    refine ⟨⟨ov, s.cursor, min s.count UINT_MAX, .ok,
        (List.range (min n (min s.count UINT_MAX))).map (fun i => s.buf (s.bufpos + i))⟩,
      ⟨rfl, Nat.min_le_right _ _, ?_, by simp, ?_, ?_, ?_, ?_⟩, rfl, rfl⟩
    · simp only [IoCall.transferred, List.length_map, List.length_range]; omega
    · simp [winfs_write_iter, IoCall.transferred]
    · simp [winfs_write_iter]
    · simp [winfs_write_iter, IoCall.transferred]
    · simp [winfs_write_iter, IoCall.transferred]

theorem winfs_pwrite_iter_facts (a : WriteAnswer) (s : IoState) :
    ∃ c, IterFacts s (winfs_pwrite_iter a s) c ∧
      c.overlapped = some (overlapped_of s.offset) ∧ c.cursor = s.cursor := by
  cases a with
  | error =>
    exact ⟨⟨some (overlapped_of s.offset), s.cursor, min s.count UINT_MAX, .error, []⟩,
      ⟨rfl, Nat.min_le_right _ _, by simp [IoCall.transferred], by simp [winfs_pwrite_iter],
       by simp [winfs_pwrite_iter], by simp [winfs_pwrite_iter],
       by simp [winfs_pwrite_iter, IoCall.transferred],
       by simp [winfs_pwrite_iter, IoCall.transferred]⟩, rfl, rfl⟩
  | accepted n =>
    refine ⟨⟨some (overlapped_of s.offset), s.cursor, min s.count UINT_MAX, .ok,
        (List.range (min n (min s.count UINT_MAX))).map (fun i => s.buf (s.bufpos + i))⟩,
      ⟨rfl, Nat.min_le_right _ _, ?_, by simp, ?_, ?_, ?_, ?_⟩, rfl, rfl⟩
    · simp only [IoCall.transferred, List.length_map, List.length_range]; omega
    · simp [winfs_pwrite_iter, IoCall.transferred]
    · simp [winfs_pwrite_iter]
    · simp [winfs_pwrite_iter, IoCall.transferred]
    · simp [winfs_pwrite_iter, IoCall.transferred]

theorem wrap_ssize_eq (x : Int) (h0 : 0 ≤ x) (h1 : x ≤ SSIZE_MAX) : wrap_ssize x = x := by
  unfold wrap_ssize
  unfold SSIZE_MAX at h1
  omega

theorem wrap_loff_eq (x : Int) (h0 : 0 ≤ x) (h1 : x ≤ SSIZE_MAX) : wrap_loff x = x := by
  unfold wrap_loff
  unfold SSIZE_MAX at h1
  omega

/-- In every I/O loop, once a host call has failed the loop ends with `- L_EIO` in the
byte counter, whatever had been transferred before. -/
theorem io_loop_error {α : Type} (iter : α → IoState → IoState × Bool) (last : α)
    (hf : ∀ a s, ∃ c, IterFacts s (iter a s) c) (script : List α) (s : IoState) :
    (∀ c ∈ s.calls, c.status ≠ .error) →
    (∃ c ∈ (io_loop iter last script s).1.calls, c.status = .error) →
    (io_loop iter last script s).1.num = - L_EIO := by
  have hone : ∀ a s, (∀ c ∈ s.calls, c.status ≠ .error) →
      (∃ c ∈ (iter a s).1.calls, c.status = .error) → (iter a s).1.num = - L_EIO := by
    intro a s hs ⟨c, hc, hce⟩
    obtain ⟨c0, hc0⟩ := hf a s
    rw [hc0.calls, List.mem_append, List.mem_singleton] at hc
    rcases hc with hc | hc
    · exact absurd hce (hs c hc)
    · subst hc; exact (hc0.error hce).2
  apply io_loop_induction iter last
    (fun s s' => (∀ c ∈ s.calls, c.status ≠ .error) →
      (∃ c ∈ s'.calls, c.status = .error) → s'.num = - L_EIO)
  · intro s _ hs ⟨c, hc, hce⟩
    exact absurd hce (hs c hc)
  · intro s _ hs he
    exact hone last s hs he
  · intro a s _ _ hs he
    exact hone a s hs he
  · intro a s s' _ hgo ih hs he
    apply ih _ he
    obtain ⟨c0, hc0⟩ := hf a s
    intro c hc
    rw [hc0.calls, List.mem_append, List.mem_singleton] at hc
    rcases hc with hc | hc
    · exact hs c hc
    · subst hc
      rw [(hc0.go hgo).1]
      decide

theorem total_transferred_nil : total_transferred [] = 0 := rfl

theorem total_transferred_cons (c : IoCall) (cs : List IoCall) :
    total_transferred (c :: cs) = c.transferred + total_transferred cs := by
  simp [total_transferred]

/-- On a text-translated handle one iteration of `winfs_read` keeps the cells below
`bufpos` and leaves `patch_cr` of the transferred bytes in the cells of the transfer. -/
theorem winfs_read_iter_text (a : ReadAnswer) (s : IoState) :
    ∃ c, IterFacts s (winfs_read_iter true a s) c ∧
      (∀ j, j < s.bufpos → (winfs_read_iter true a s).1.buf j = s.buf j) ∧
      (∀ k, k < c.transferred →
        (winfs_read_iter true a s).1.buf (s.bufpos + k) = (patch_cr_list c.data).getD k 0) := by
  obtain ⟨hframe, hregion⟩ := winfs_read_iter_buf true a s
  cases a with
  | eof =>
    obtain ⟨c, hc, -⟩ := winfs_read_iter_facts true .eof s
    have h0 : c.transferred = 0 := by
      have := hc.calls
      simp only [winfs_read_iter, List.append_cancel_left_eq, List.cons.injEq, and_true] at this
      rw [← this]; rfl
    exact ⟨c, hc, hframe, fun k hk => by omega⟩
  | error =>
    obtain ⟨c, hc, -⟩ := winfs_read_iter_facts true .error s
    have h0 : c.transferred = 0 := by
      have := hc.calls
      simp only [winfs_read_iter, List.append_cancel_left_eq, List.cons.injEq, and_true] at this
      rw [← this]; rfl
    exact ⟨c, hc, hframe, fun k hk => by omega⟩
  | data bytes =>
    obtain ⟨c, hc, -⟩ := winfs_read_iter_facts true (.data bytes) s
    have h0 : c.data = bytes.take (min s.count UINT_MAX) := by
      have := hc.calls
      unfold winfs_read_iter at this
      simp only at this
      split at this <;>
      · simp only [List.append_cancel_left_eq, List.cons.injEq, and_true] at this
        rw [← this]
    refine ⟨c, hc, hframe, fun k hk => ?_⟩
    rw [h0]
    exact hregion rfl bytes rfl k (by rw [← h0]; exact hk)

/-- The same for `winfs_pread`. -/
theorem winfs_pread_iter_text (a : ReadAnswer) (s : IoState) :
    ∃ c, IterFacts s (winfs_pread_iter true a s) c ∧
      (∀ j, j < s.bufpos → (winfs_pread_iter true a s).1.buf j = s.buf j) ∧
      (∀ k, k < c.transferred →
        (winfs_pread_iter true a s).1.buf (s.bufpos + k) = (patch_cr_list c.data).getD k 0) := by
  obtain ⟨hframe, hregion⟩ := winfs_pread_iter_buf true a s
  cases a with
  | eof =>
    obtain ⟨c, hc, -⟩ := winfs_pread_iter_facts true .eof s
    have h0 : c.transferred = 0 := by
      have := hc.calls
      simp only [winfs_pread_iter, List.append_cancel_left_eq, List.cons.injEq, and_true] at this
      rw [← this]; rfl
    exact ⟨c, hc, hframe, fun k hk => by omega⟩
  | error =>
    obtain ⟨c, hc, -⟩ := winfs_pread_iter_facts true .error s
    have h0 : c.transferred = 0 := by
      have := hc.calls
      simp only [winfs_pread_iter, List.append_cancel_left_eq, List.cons.injEq, and_true] at this
      rw [← this]; rfl
    exact ⟨c, hc, hframe, fun k hk => by omega⟩
  | data bytes =>
    obtain ⟨c, hc, -⟩ := winfs_pread_iter_facts true (.data bytes) s
    have h0 : c.data = bytes.take (min s.count UINT_MAX) := by
      have := hc.calls
      unfold winfs_pread_iter at this
      simp only at this
      split at this <;>
      · simp only [List.append_cancel_left_eq, List.cons.injEq, and_true] at this
        rw [← this]
    refine ⟨c, hc, hframe, fun k hk => ?_⟩
    rw [h0]
    exact hregion rfl bytes rfl k (by rw [← h0]; exact hk)

/-- On a text-translated handle the read loop leaves, for each host transfer, `patch_cr`
of the transferred bytes at the place of the transfer in the caller's buffer. -/
theorem io_loop_text {α : Type} (iter : α → IoState → IoState × Bool) (last : α)
    (hf : ∀ a s, ∃ c, IterFacts s (iter a s) c ∧
      (∀ j, j < s.bufpos → (iter a s).1.buf j = s.buf j) ∧
      (∀ k, k < c.transferred → (iter a s).1.buf (s.bufpos + k) = (patch_cr_list c.data).getD k 0))
    (script : List α) (s : IoState) :
    ∃ new, (io_loop iter last script s).1.calls = s.calls ++ new ∧
      (∀ j, j < s.bufpos → (io_loop iter last script s).1.buf j = s.buf j) ∧
      ∀ i (hi : i < new.length) k, k < new[i].transferred →
        (io_loop iter last script s).1.buf (s.bufpos + total_transferred (new.take i) + k) =
          (patch_cr_list new[i].data).getD k 0 := by
  have hone : ∀ a s, ∃ new, (iter a s).1.calls = s.calls ++ new ∧
      (∀ j, j < s.bufpos → (iter a s).1.buf j = s.buf j) ∧
      ∀ i (hi : i < new.length) k, k < new[i].transferred →
        (iter a s).1.buf (s.bufpos + total_transferred (new.take i) + k) =
          (patch_cr_list new[i].data).getD k 0 := by
    intro a s
    obtain ⟨c, hc, hframe, hregion⟩ := hf a s
    refine ⟨[c], hc.calls, hframe, ?_⟩
    intro i hi k hk
    have hi0 : i = 0 := by simpa using hi
    subst hi0
    simp only [List.getElem_cons_zero, List.take_zero, total_transferred_nil, Nat.add_zero] at hk ⊢
    exact hregion k hk
  apply io_loop_induction iter last
    (fun s s' => ∃ new, s'.calls = s.calls ++ new ∧
      (∀ j, j < s.bufpos → s'.buf j = s.buf j) ∧
      ∀ i (hi : i < new.length) k, k < new[i].transferred →
        s'.buf (s.bufpos + total_transferred (new.take i) + k) =
          (patch_cr_list new[i].data).getD k 0)
  · intro s _
    exact ⟨[], by simp, fun _ _ => rfl, fun i hi => by simp at hi⟩
  · intro s _
    exact hone last s
  · intro a s _ _
    exact hone a s
  · intro a s s' _ hgo ⟨new, hcalls, hframe', hregion'⟩
    obtain ⟨c, hc, hframe, hregion⟩ := hf a s
    refine ⟨c :: new, ?_, ?_, ?_⟩
    · rw [hcalls, hc.calls]; simp
    · intro j hj
      rw [hframe' j (by rw [hc.bufpos]; omega), hframe j hj]
    · intro i hi k hk
      cases i with
      | zero =>
        simp only [List.getElem_cons_zero, List.take_zero, total_transferred_nil,
          Nat.add_zero] at hk ⊢
        rw [hframe' _ (by rw [hc.bufpos]; omega)]
        exact hregion k hk
      | succ i =>
        simp only [List.getElem_cons_succ, List.take_succ_cons, total_transferred_cons] at hk ⊢
        have := hregion' i (by simpa using hi) k hk
        rw [hc.bufpos] at this
        rw [← this]
        congr 1
        omega

theorem mem_dropLast_cons {α : Type} (x c : α) (l : List α) (h : x ∈ (c :: l).dropLast) :
    x = c ∨ x ∈ l.dropLast := by
  cases l with
  | nil => simp at h
  | cons d l => simpa [List.dropLast] using h

/-- In a read loop that meets no failing host call, every request is at most `UINT_MAX`,
only the last host call may be an end of file or a zero-byte transfer, and the byte
counter grows by the sum of the transfer counts, which is at most the requested count. -/
theorem io_loop_sum {α : Type} (iter : α → IoState → IoState × Bool) (last : α)
    (hf : ∀ a s, ∃ c, IterFacts s (iter a s) c ∧ ((iter a s).2 = true → 0 < c.transferred))
    (script : List α) (s : IoState) :
    0 ≤ s.num → s.num + s.count ≤ SSIZE_MAX →
    (∀ c ∈ (io_loop iter last script s).1.calls, c.status ≠ .error) →
    ∃ new, (io_loop iter last script s).1.calls = s.calls ++ new ∧
      (∀ c ∈ new, c.count ≤ UINT_MAX) ∧
      (∀ c ∈ new.dropLast, c.status = .ok ∧ 0 < c.transferred) ∧
      (io_loop iter last script s).1.num = s.num + (total_transferred new : Int) ∧
      total_transferred new ≤ s.count := by
  have hone : ∀ a s, 0 ≤ s.num → s.num + s.count ≤ SSIZE_MAX →
      (∀ c ∈ (iter a s).1.calls, c.status ≠ .error) →
      ∃ new, (iter a s).1.calls = s.calls ++ new ∧
        (∀ c ∈ new, c.count ≤ UINT_MAX) ∧
        (∀ c ∈ new.dropLast, c.status = .ok ∧ 0 < c.transferred) ∧
        (iter a s).1.num = s.num + (total_transferred new : Int) ∧
        total_transferred new ≤ s.count := by
    intro a s h0 h1 hne
    obtain ⟨c, hc, -⟩ := hf a s
    refine ⟨[c], hc.calls, ?_, ?_, ?_, ?_⟩
    · intro x hx; rw [List.mem_singleton] at hx; subst hx; exact hc.count_le
    · intro x hx; simp at hx
    · have ht := hc.transferred_le
      rw [total_transferred_cons, total_transferred_nil, Nat.add_zero]
      by_cases hgo : (iter a s).2 = true
      · rw [(hc.go hgo).2, wrap_ssize_eq _ (by omega) (by omega)]
      · have hcne : c.status ≠ .error := hne c (by rw [hc.calls]; simp)
        obtain ⟨e1, e2⟩ := hc.stop (by simpa using hgo) hcne
        rw [e1, e2]; simp
    · rw [total_transferred_cons, total_transferred_nil, Nat.add_zero]
      exact hc.transferred_le
  apply io_loop_induction iter last
    (fun s s' => 0 ≤ s.num → s.num + s.count ≤ SSIZE_MAX →
      (∀ c ∈ s'.calls, c.status ≠ .error) →
      ∃ new, s'.calls = s.calls ++ new ∧
        (∀ c ∈ new, c.count ≤ UINT_MAX) ∧
        (∀ c ∈ new.dropLast, c.status = .ok ∧ 0 < c.transferred) ∧
        s'.num = s.num + (total_transferred new : Int) ∧
        total_transferred new ≤ s.count)
  · intro s _ _ _ _
    exact ⟨[], by simp, by simp, by simp, by simp [total_transferred_nil],
      by simp [total_transferred_nil]⟩
  · intro s _ h0 h1 hne
    exact hone last s h0 h1 hne
  · intro a s _ _ h0 h1 hne
    exact hone a s h0 h1 hne
  · intro a s s' _ hgo ih h0 h1 hne
    obtain ⟨c, hc, hpos⟩ := hf a s
    have ht := hc.transferred_le
    have hnum : (iter a s).1.num = s.num + (c.transferred : Int) := by
      rw [(hc.go hgo).2, wrap_ssize_eq _ (by omega) (by omega)]
    obtain ⟨new, hcalls, hcount, hstop, hsum, hle⟩ :=
      ih (by rw [hnum]; omega) (by rw [hnum, hc.count]; omega) hne
    refine ⟨c :: new, ?_, ?_, ?_, ?_, ?_⟩
    · rw [hcalls, hc.calls]; simp
    · intro x hx
      rw [List.mem_cons] at hx
      rcases hx with hx | hx
      · subst hx; exact hc.count_le
      · exact hcount x hx
    · intro x hx
      rcases mem_dropLast_cons x c new hx with hx | hx
      · subst hx; exact ⟨(hc.go hgo).1, hpos hgo⟩
      · exact hstop x hx
    · rw [hsum, hnum, total_transferred_cons]; push_cast; ring
    · rw [total_transferred_cons]
      rw [hc.count] at hle
      omega

/-- On a text-translated handle no carriage return is left among the bytes the read loop
delivers. -/
theorem io_loop_no_cr {α : Type} (iter : α → IoState → IoState × Bool) (last : α)
    (hf : ∀ a s, ∃ c, IterFacts s (iter a s) c ∧
      (∀ j, j < s.bufpos → (iter a s).1.buf j = s.buf j) ∧
      (∀ k, k < c.transferred → (iter a s).1.buf (s.bufpos + k) = (patch_cr_list c.data).getD k 0))
    (script : List α) (s : IoState) :
    ∃ new, (io_loop iter last script s).1.calls = s.calls ++ new ∧
      (io_loop iter last script s).1.bufpos = s.bufpos + total_transferred new ∧
      (∀ j, j < s.bufpos → (io_loop iter last script s).1.buf j = s.buf j) ∧
      ∀ j, s.bufpos ≤ j → j < s.bufpos + total_transferred new →
        (io_loop iter last script s).1.buf j ≠ CR := by
  have hcell : ∀ a s, ∃ c, IterFacts s (iter a s) c ∧
      (∀ j, j < s.bufpos → (iter a s).1.buf j = s.buf j) ∧
      (∀ j, s.bufpos ≤ j → j < s.bufpos + c.transferred → (iter a s).1.buf j ≠ CR) := by
    intro a s
    obtain ⟨c, hc, hframe, hregion⟩ := hf a s
    refine ⟨c, hc, hframe, fun j hj1 hj2 => ?_⟩
    obtain ⟨k, rfl⟩ : ∃ k, j = s.bufpos + k := ⟨j - s.bufpos, by omega⟩
    rw [hregion k (by omega)]
    exact (patch_cr_list_spec c.data k (by simpa [IoCall.transferred] using (show k < c.transferred by omega))).1
  have hone : ∀ a s, ∃ new, (iter a s).1.calls = s.calls ++ new ∧
      (iter a s).1.bufpos = s.bufpos + total_transferred new ∧
      (∀ j, j < s.bufpos → (iter a s).1.buf j = s.buf j) ∧
      ∀ j, s.bufpos ≤ j → j < s.bufpos + total_transferred new → (iter a s).1.buf j ≠ CR := by
    intro a s
    obtain ⟨c, hc, hframe, hregion⟩ := hcell a s
    refine ⟨[c], hc.calls, ?_, hframe, ?_⟩
    · rw [hc.bufpos, total_transferred_cons, total_transferred_nil, Nat.add_zero]
    · rw [total_transferred_cons, total_transferred_nil, Nat.add_zero]
      exact hregion
  apply io_loop_induction iter last
    (fun s s' => ∃ new, s'.calls = s.calls ++ new ∧
      s'.bufpos = s.bufpos + total_transferred new ∧
      (∀ j, j < s.bufpos → s'.buf j = s.buf j) ∧
      ∀ j, s.bufpos ≤ j → j < s.bufpos + total_transferred new → s'.buf j ≠ CR)
  · intro s _
    exact ⟨[], by simp, by simp [total_transferred_nil], fun _ _ => rfl,
      fun j h1 h2 => by rw [total_transferred_nil] at h2; omega⟩
  · intro s _
    exact hone last s
  · intro a s _ _
    exact hone a s
  · intro a s s' _ hgo ⟨new, hcalls, hpos', hframe', hregion'⟩
    obtain ⟨c, hc, hframe, hregion⟩ := hcell a s
    refine ⟨c :: new, ?_, ?_, ?_, ?_⟩
    · rw [hcalls, hc.calls]; simp
    · rw [hpos', hc.bufpos, total_transferred_cons]; omega
    · intro j hj
      rw [hframe' j (by rw [hc.bufpos]; omega), hframe j hj]
    · intro j hj1 hj2
      rw [total_transferred_cons] at hj2
      by_cases hj : j < s.bufpos + c.transferred
      · rw [hframe' j (by rw [hc.bufpos]; exact hj)]
        exact hregion j hj1 hj
      · exact hregion' j (by rw [hc.bufpos]; omega) (by rw [hc.bufpos]; omega)

/-- In the loop of `winfs_pread` each host call carries the explicit offset advanced by
the transfer counts of the calls before it. -/
theorem winfs_pread_loop_offsets (is_text : Bool) (script : List ReadAnswer) (s : IoState) :
    0 ≤ s.offset → s.offset + s.count ≤ SSIZE_MAX →
    ∃ new, (io_loop (winfs_pread_iter is_text) .eof script s).1.calls = s.calls ++ new ∧
      ∀ i (hi : i < new.length), new[i].overlapped =
        some (overlapped_of (s.offset + (total_transferred (new.take i) : Int))) := by
  have hone : ∀ a s, ∃ new, (winfs_pread_iter is_text a s).1.calls = s.calls ++ new ∧
      ∀ i (hi : i < new.length), new[i].overlapped =
        some (overlapped_of (s.offset + (total_transferred (new.take i) : Int))) := by
    intro a s
    obtain ⟨c, hc, hov, -⟩ := winfs_pread_iter_facts is_text a s
    refine ⟨[c], hc.calls, fun i hi => ?_⟩
    have hi0 : i = 0 := by simpa using hi
    subst hi0
    simp [total_transferred_nil, hov]
  apply io_loop_induction (winfs_pread_iter is_text) .eof
    (fun s s' => 0 ≤ s.offset → s.offset + s.count ≤ SSIZE_MAX →
      ∃ new, s'.calls = s.calls ++ new ∧
        ∀ i (hi : i < new.length), new[i].overlapped =
          some (overlapped_of (s.offset + (total_transferred (new.take i) : Int))))
  · intro s _ _ _
    exact ⟨[], by simp, fun i hi => by simp at hi⟩
  · intro s _ _ _
    exact hone .eof s
  · intro a s _ _ _ _
    exact hone a s
  · intro a s s' _ hgo ih h0 h1
    obtain ⟨c, hc, hov, -, -, hoff⟩ := winfs_pread_iter_facts is_text a s
    have ht := hc.transferred_le
    have hoff2 : (winfs_pread_iter is_text a s).1.offset = s.offset + (c.transferred : Int) := by
      rw [hoff hgo, wrap_loff_eq _ (by omega) (by omega)]
    obtain ⟨new, hcalls, hnew⟩ := ih (by rw [hoff2]; omega) (by rw [hoff2, hc.count]; omega)
    refine ⟨c :: new, ?_, ?_⟩
    · rw [hcalls, hc.calls]; simp
    · intro i hi
      cases i with
      | zero => simp [total_transferred_nil, hov]
      | succ i =>
        simp only [List.getElem_cons_succ, List.take_succ_cons, total_transferred_cons]
        rw [hnew i (by simpa using hi), hoff2]
        congr 2
        push_cast
        ring

theorem io_loop_calls_prefix {α : Type} (iter : α → IoState → IoState × Bool) (last : α)
    (hf : ∀ a s, ∃ c, IterFacts s (iter a s) c) (script : List α) (s : IoState) :
    ∃ new, (io_loop iter last script s).1.calls = s.calls ++ new := by
  apply io_loop_induction iter last (fun s s' => ∃ new, s'.calls = s.calls ++ new)
  · intro s _; exact ⟨[], by simp⟩
  · intro s _
    obtain ⟨c, hc⟩ := hf last s
    exact ⟨[c], hc.calls⟩
  · intro a s _ _
    obtain ⟨c, hc⟩ := hf a s
    exact ⟨[c], hc.calls⟩
  · intro a s s' _ _ ⟨new, hnew⟩
    obtain ⟨c, hc⟩ := hf a s
    exact ⟨c :: new, by rw [hnew, hc.calls]; simp⟩

/-- The first host call of an I/O loop is the call of its first iteration. -/
theorem io_loop_first_call {α : Type} (iter : α → IoState → IoState × Bool) (last : α)
    (Q : IoState → IoCall → Prop)
    (hf : ∀ a s, ∃ c, IterFacts s (iter a s) c ∧ Q s c) (script : List α) (s : IoState)
    (hs : s.calls = []) (c : IoCall)
    (hc : (io_loop iter last script s).1.calls.head? = some c) : Q s c := by
  cases script with
  | nil =>
    rw [io_loop] at hc
    split at hc
    · simp [hs] at hc
    · obtain ⟨c0, hc0, hq⟩ := hf last s
      rw [hc0.calls, hs] at hc
      simp only [List.nil_append, List.head?_cons, Option.some.injEq] at hc
      exact hc ▸ hq
  | cons a rest =>
    rw [io_loop] at hc
    obtain ⟨c0, hc0, hq⟩ := hf a s
    split at hc
    · simp [hs] at hc
    · split at hc
      · obtain ⟨new, hnew⟩ := io_loop_calls_prefix iter last
          (fun a s => (hf a s).imp fun c h => h.1) rest (iter a s).1
        rw [hnew, hc0.calls, hs] at hc
        simp only [List.nil_append, List.singleton_append, List.head?_cons,
          Option.some.injEq] at hc
        exact hc ▸ hq
      · rw [hc0.calls, hs] at hc
        simp only [List.nil_append, List.head?_cons, Option.some.injEq] at hc
        exact hc ▸ hq

theorem winfs_read_first_call (is_text : Bool) (h : IoHost) (buf : Mem) (n : Nat) (c : IoCall)
    (hc : (winfs_read is_text h buf n).calls.head? = some c) :
    c.overlapped = none ∧ c.cursor = h.cursor :=
  io_loop_first_call (winfs_read_iter is_text) .eof
    (fun s c => c.overlapped = none ∧ c.cursor = s.cursor)
    (fun a s => (winfs_read_iter_facts is_text a s).imp fun _ h => ⟨h.1, h.2.1, h.2.2.1⟩)
    h.reads _ rfl c hc

theorem winfs_write_first_call (append : Bool) (h : IoHost) (buf : Mem) (n : Nat) (c : IoCall)
    (hc : (winfs_write append h buf n).calls.head? = some c) :
    c.overlapped = (if append then some (0xFFFFFFFF, 0xFFFFFFFF) else none) ∧
      c.cursor = h.cursor :=
  io_loop_first_call (winfs_write_iter _) .error
    (fun s c => c.overlapped = (if append then some (0xFFFFFFFF, 0xFFFFFFFF) else none) ∧
      c.cursor = s.cursor)
    (fun a s => (winfs_write_iter_facts _ a s).imp fun _ h => ⟨h.1, h.2.1, h.2.2⟩)
    h.writes _ rfl c hc

theorem SetFilePointerEx_begin (cursor size : Nat) (p : Nat) :
    SetFilePointerEx cursor size (p : Int) FILE_BEGIN = some p := by
  simp [SetFilePointerEx, FILE_BEGIN]

theorem SetFilePointerEx_current_zero (cursor size : Nat) :
    SetFilePointerEx cursor size 0 FILE_CURRENT = some cursor := by
  simp [SetFilePointerEx, FILE_CURRENT, FILE_BEGIN]

theorem winfs_pread_cursor (is_text : Bool) (h : IoHost) (buf : Mem) (n : Nat) (offset : Int) :
    (winfs_pread is_text h buf n offset).host.cursor = h.cursor := by
  simp [winfs_pread, SetFilePointerEx_current_zero, SetFilePointerEx_begin]

theorem winfs_pwrite_cursor (h : IoHost) (buf : Mem) (n : Nat) (offset : Int) :
    (winfs_pwrite h buf n offset).host.cursor = h.cursor := by
  simp [winfs_pwrite, SetFilePointerEx_current_zero, SetFilePointerEx_begin]

theorem io_position_overlapped_of (cursor : Nat) (x : Int) (h0 : 0 ≤ x) (h1 : x ≤ SSIZE_MAX) :
    io_position cursor (some (overlapped_of x)) = x.toNat := by
  obtain ⟨k, rfl⟩ := Int.eq_ofNat_of_zero_le h0
  unfold SSIZE_MAX at h1
  simp only [io_position, overlapped_of, Int.toNat_ofNat]
  omega

/-! ### The four operations -/

theorem winfs_read_text (h : IoHost) (buf : Mem) (n : Nat) :
    (∀ i c, (winfs_read true h buf n).calls[i]? = some c → ∀ k, k < c.transferred →
      (winfs_read true h buf n).buf (total_transferred ((winfs_read true h buf n).calls.take i) + k)
        = (patch_cr_list c.data).getD k 0) ∧
    (∀ j, j < total_transferred (winfs_read true h buf n).calls →
      (winfs_read true h buf n).buf j ≠ CR) := by
  constructor
  · obtain ⟨new, hcalls, -, hregion⟩ := io_loop_text (winfs_read_iter true) .eof
      winfs_read_iter_text h.reads
      { num := 0, count := n, offset := 0, bufpos := 0, buf := buf,
        cursor := h.cursor, size := h.size, calls := [] }
    intro i c hc k hk
    simp only [winfs_read] at hc ⊢
    rw [hcalls] at hc ⊢
    simp only [List.nil_append] at hc ⊢
    obtain ⟨hi, rfl⟩ := List.getElem?_eq_some.1 hc
    simpa using hregion i hi k hk
  · obtain ⟨new, hcalls, -, -, hregion⟩ := io_loop_no_cr (winfs_read_iter true) .eof
      winfs_read_iter_text h.reads
      { num := 0, count := n, offset := 0, bufpos := 0, buf := buf,
        cursor := h.cursor, size := h.size, calls := [] }
    intro j hj
    simp only [winfs_read] at hj ⊢
    rw [hcalls] at hj
    simp only [List.nil_append] at hj
    exact hregion j (Nat.zero_le _) (by simpa using hj)

theorem winfs_pread_text (h : IoHost) (buf : Mem) (n : Nat) (offset : Int) :
    (∀ i c, (winfs_pread true h buf n offset).calls[i]? = some c → ∀ k, k < c.transferred →
      (winfs_pread true h buf n offset).buf
          (total_transferred ((winfs_pread true h buf n offset).calls.take i) + k)
        = (patch_cr_list c.data).getD k 0) ∧
    (∀ j, j < total_transferred (winfs_pread true h buf n offset).calls →
      (winfs_pread true h buf n offset).buf j ≠ CR) := by
  constructor
  · obtain ⟨new, hcalls, -, hregion⟩ := io_loop_text (winfs_pread_iter true) .eof
      winfs_pread_iter_text h.reads
      { num := 0, count := n, offset := offset, bufpos := 0, buf := buf,
        cursor := h.cursor, size := h.size, calls := [] }
    intro i c hc k hk
    simp only [winfs_pread] at hc ⊢
    rw [hcalls] at hc ⊢
    simp only [List.nil_append] at hc ⊢
    obtain ⟨hi, rfl⟩ := List.getElem?_eq_some.1 hc
    simpa using hregion i hi k hk
  · obtain ⟨new, hcalls, -, -, hregion⟩ := io_loop_no_cr (winfs_pread_iter true) .eof
      winfs_pread_iter_text h.reads
      { num := 0, count := n, offset := offset, bufpos := 0, buf := buf,
        cursor := h.cursor, size := h.size, calls := [] }
    intro j hj
    simp only [winfs_pread] at hj ⊢
    rw [hcalls] at hj
    simp only [List.nil_append] at hj
    exact hregion j (Nat.zero_le _) (by simpa using hj)

/-- C3 (as amended): on a text-translated handle `read` and `pread` leave, for every host
transfer, `patch_cr` of the transferred bytes in the caller's buffer, and `patch_cr`
keeps no carriage return: a backslash directly before a carriage return becomes a space
and the backslash moves into the cell of the carriage return (staying there unless
another carriage return follows), every carriage return becomes a space or a backslash,
a carriage return that is first in the transfer or follows neither a backslash nor a
carriage return becomes a space, and every other byte is unchanged; hence no returned
byte is a carriage return. -/
theorem text_read_applies_patch_cr :
    (∀ (l : List Nat) (i : Nat), i < l.length →
      (patch_cr_list l).length = l.length ∧
      (patch_cr_list l).getD i 0 ≠ CR ∧
      (l.getD i 0 = BACKSLASH → i + 1 < l.length → l.getD (i + 1) 0 = CR →
        (patch_cr_list l).getD i 0 = SPACE) ∧
      (l.getD i 0 = BACKSLASH → i + 1 < l.length → l.getD (i + 1) 0 = CR →
        ¬ (i + 2 < l.length ∧ l.getD (i + 2) 0 = CR) →
        (patch_cr_list l).getD (i + 1) 0 = BACKSLASH) ∧
      (l.getD i 0 = CR →
        (patch_cr_list l).getD i 0 = SPACE ∨ (patch_cr_list l).getD i 0 = BACKSLASH) ∧
      (l.getD i 0 = CR → (i = 0 ∨ (l.getD (i - 1) 0 ≠ BACKSLASH ∧ l.getD (i - 1) 0 ≠ CR)) →
        (patch_cr_list l).getD i 0 = SPACE) ∧
      (l.getD i 0 ≠ CR →
        ¬ (l.getD i 0 = BACKSLASH ∧ i + 1 < l.length ∧ l.getD (i + 1) 0 = CR) →
        (patch_cr_list l).getD i 0 = l.getD i 0)) ∧
    (∀ (h : IoHost) (buf : Mem) (n : Nat),
      (∀ i c, (winfs_read true h buf n).calls[i]? = some c → ∀ k, k < c.transferred →
        (winfs_read true h buf n).buf
            (total_transferred ((winfs_read true h buf n).calls.take i) + k)
          = (patch_cr_list c.data).getD k 0) ∧
      (∀ j, j < total_transferred (winfs_read true h buf n).calls →
        (winfs_read true h buf n).buf j ≠ CR)) ∧
    (∀ (h : IoHost) (buf : Mem) (n : Nat) (offset : Int),
      (∀ i c, (winfs_pread true h buf n offset).calls[i]? = some c → ∀ k, k < c.transferred →
        (winfs_pread true h buf n offset).buf
            (total_transferred ((winfs_pread true h buf n offset).calls.take i) + k)
          = (patch_cr_list c.data).getD k 0) ∧
      (∀ j, j < total_transferred (winfs_pread true h buf n offset).calls →
        (winfs_pread true h buf n offset).buf j ≠ CR)) :=
  ⟨fun l i hi => ⟨patch_cr_list_length l, patch_cr_list_spec l i hi⟩,
   winfs_read_text, winfs_pread_text⟩

/-- C3 witness: in the buffer `a`, backslash, carriage return, line feed the backslash
becomes a space and the carriage return becomes the backslash; a text-translated `read`
of these four bytes delivers no carriage return. -/
theorem text_read_applies_patch_cr_witness :
    (patch_cr_list [97, 92, 13, 10]).getD 1 0 = SPACE ∧
    (patch_cr_list [97, 92, 13, 10]).getD 2 0 = BACKSLASH ∧
    (winfs_read true ⟨0, 4, [.data [97, 92, 13, 10]], []⟩ (fun _ => 0) 4).buf 2 ≠ CR :=
  ⟨(text_read_applies_patch_cr.1 [97, 92, 13, 10] 1 (by decide)).2.2.1
      (by decide) (by decide) (by decide),
   (text_read_applies_patch_cr.1 [97, 92, 13, 10] 1 (by decide)).2.2.2.1
      (by decide) (by decide) (by decide) (by decide),
   (text_read_applies_patch_cr.2.1 ⟨0, 4, [.data [97, 92, 13, 10]], []⟩ (fun _ => 0) 4).2 2
      (by decide)⟩

/-- C3 counterexample: a text-translated `read` of the two bytes backslash, carriage
return delivers space, backslash: the carriage return that follows the backslash is not
kept. -/
theorem text_read_drops_escaped_cr :
    (winfs_read true ⟨0, 2, [.data [BACKSLASH, CR]], []⟩ (fun _ => 0) 2).ret = 2 ∧
    (winfs_read true ⟨0, 2, [.data [BACKSLASH, CR]], []⟩ (fun _ => 0) 2).buf.read 2
      = [SPACE, BACKSLASH] ∧
    (winfs_read true ⟨0, 2, [.data [BACKSLASH, CR]], []⟩ (fun _ => 0) 2).buf 1 ≠ CR ∧
    (winfs_pread true ⟨0, 2, [.data [BACKSLASH, CR]], []⟩ (fun _ => 0) 2 0).buf.read 2
      = [SPACE, BACKSLASH] := by
  decide

/-- C4 (as amended): in `read`, `write`, `pread` and `pwrite`, when a host I/O call fails
(for the reads: with anything other than end of file) the operation returns `-L_EIO`,
whatever number of bytes earlier iterations of the loop had transferred. -/
theorem io_failure_returns_eio (is_text append : Bool) (h : IoHost) (buf : Mem) (n : Nat)
    (offset : Int) :
    ((∃ c ∈ (winfs_read is_text h buf n).calls, c.status = .error) →
      (winfs_read is_text h buf n).ret = - L_EIO) ∧
    ((∃ c ∈ (winfs_write append h buf n).calls, c.status = .error) →
      (winfs_write append h buf n).ret = - L_EIO) ∧
    ((∃ c ∈ (winfs_pread is_text h buf n offset).calls, c.status = .error) →
      (winfs_pread is_text h buf n offset).ret = - L_EIO) ∧
    ((∃ c ∈ (winfs_pwrite h buf n offset).calls, c.status = .error) →
      (winfs_pwrite h buf n offset).ret = - L_EIO) := by
  refine ⟨?_, ?_, ?_, ?_⟩
  · exact io_loop_error (winfs_read_iter is_text) .eof
      (fun a s => (winfs_read_iter_facts is_text a s).imp fun c hc => hc.1) h.reads _
      (by simp)
  · exact io_loop_error (winfs_write_iter _) .error
      (fun a s => (winfs_write_iter_facts _ a s).imp fun c hc => hc.1) h.writes _
      (by simp)
  · exact io_loop_error (winfs_pread_iter is_text) .eof
      (fun a s => (winfs_pread_iter_facts is_text a s).imp fun c hc => hc.1) h.reads _
      (by simp)
  · exact io_loop_error winfs_pwrite_iter .error
      (fun a s => (winfs_pwrite_iter_facts a s).imp fun c hc => hc.1) h.writes _
      (by simp)

/-- C4 witness: each operation run on a host that transfers 3 bytes and then fails. -/
theorem io_failure_returns_eio_witness :
    (winfs_read false ⟨0, 100, [.data [1, 2, 3], .error], [.accepted 3, .error]⟩
      (fun _ => 0) 10).ret = - L_EIO ∧
    (winfs_pwrite ⟨0, 100, [.data [1, 2, 3], .error], [.accepted 3, .error]⟩
      (fun _ => 0) 10 40).ret = - L_EIO :=
  ⟨(io_failure_returns_eio false false
      ⟨0, 100, [.data [1, 2, 3], .error], [.accepted 3, .error]⟩ (fun _ => 0) 10 40).1
      ⟨⟨none, 3, 7, .error, []⟩, by decide, rfl⟩,
   (io_failure_returns_eio false false
      ⟨0, 100, [.data [1, 2, 3], .error], [.accepted 3, .error]⟩ (fun _ => 0) 10 40).2.2.2
      ⟨⟨some (43, 0), 43, 7, .error, []⟩, by decide, rfl⟩⟩

/-- C4 counterexample: each of the four operations, asked for 10 bytes on a host that
transfers 3 bytes and then fails, returns `-L_EIO` and not the short count 3. -/
theorem partial_io_then_failure_is_not_short_count :
    (total_transferred (winfs_read false ⟨0, 100, [.data [1, 2, 3], .error], []⟩
      (fun _ => 0) 10).calls = 3 ∧
     (winfs_read false ⟨0, 100, [.data [1, 2, 3], .error], []⟩ (fun _ => 0) 10).ret = -5) ∧
    (total_transferred (winfs_write false ⟨0, 100, [], [.accepted 3, .error]⟩
      (fun _ => 0) 10).calls = 3 ∧
     (winfs_write false ⟨0, 100, [], [.accepted 3, .error]⟩ (fun _ => 0) 10).ret = -5) ∧
    (total_transferred (winfs_pread false ⟨0, 100, [.data [1, 2, 3], .error], []⟩
      (fun _ => 0) 10 40).calls = 3 ∧
     (winfs_pread false ⟨0, 100, [.data [1, 2, 3], .error], []⟩ (fun _ => 0) 10 40).ret = -5) ∧
    (total_transferred (winfs_pwrite ⟨0, 100, [], [.accepted 3, .error]⟩
      (fun _ => 0) 10 40).calls = 3 ∧
     (winfs_pwrite ⟨0, 100, [], [.accepted 3, .error]⟩ (fun _ => 0) 10 40).ret = -5) := by
  decide

theorem winfs_read_sum (is_text : Bool) (h : IoHost) (buf : Mem) (n : Nat)
    (hn : (n : Int) ≤ SSIZE_MAX)
    (hne : ∀ c ∈ (winfs_read is_text h buf n).calls, c.status ≠ .error) :
    (∀ c ∈ (winfs_read is_text h buf n).calls, c.count ≤ UINT_MAX) ∧
    (∀ c ∈ (winfs_read is_text h buf n).calls.dropLast, c.status = .ok ∧ 0 < c.transferred) ∧
    (winfs_read is_text h buf n).ret = (total_transferred (winfs_read is_text h buf n).calls : Int) ∧
    0 ≤ (winfs_read is_text h buf n).ret ∧ (winfs_read is_text h buf n).ret ≤ n := by
  obtain ⟨new, hcalls, h1, h2, h3, h4⟩ := io_loop_sum (winfs_read_iter is_text) .eof
    (fun a s => (winfs_read_iter_facts is_text a s).imp fun c h => ⟨h.1, h.2.2.2⟩) h.reads
    { num := 0, count := n, offset := 0, bufpos := 0, buf := buf,
      cursor := h.cursor, size := h.size, calls := [] } (le_refl _) (by simpa using hn) hne
  simp only [List.nil_append, zero_add] at hcalls h3 h4
  simp only [winfs_read]
  rw [hcalls, h3]
  exact ⟨h1, h2, rfl, by omega, by exact_mod_cast h4⟩

theorem winfs_pread_sum (is_text : Bool) (h : IoHost) (buf : Mem) (n : Nat) (offset : Int)
    (hn : (n : Int) ≤ SSIZE_MAX)
    (hne : ∀ c ∈ (winfs_pread is_text h buf n offset).calls, c.status ≠ .error) :
    (∀ c ∈ (winfs_pread is_text h buf n offset).calls, c.count ≤ UINT_MAX) ∧
    (∀ c ∈ (winfs_pread is_text h buf n offset).calls.dropLast,
      c.status = .ok ∧ 0 < c.transferred) ∧
    (winfs_pread is_text h buf n offset).ret
      = (total_transferred (winfs_pread is_text h buf n offset).calls : Int) ∧
    0 ≤ (winfs_pread is_text h buf n offset).ret ∧
    (winfs_pread is_text h buf n offset).ret ≤ n := by
  obtain ⟨new, hcalls, h1, h2, h3, h4⟩ := io_loop_sum (winfs_pread_iter is_text) .eof
    (fun a s => (winfs_pread_iter_facts is_text a s).imp fun c h => ⟨h.1, h.2.2.2.1⟩) h.reads
    { num := 0, count := n, offset := offset, bufpos := 0, buf := buf,
      cursor := h.cursor, size := h.size, calls := [] } (le_refl _) (by simpa using hn) hne
  simp only [List.nil_append, zero_add] at hcalls h3 h4
  simp only [winfs_pread]
  rw [hcalls, h3]
  exact ⟨h1, h2, rfl, by omega, by exact_mod_cast h4⟩

theorem winfs_pread_offsets (is_text : Bool) (h : IoHost) (buf : Mem) (n : Nat) (offset : Int)
    (h0 : 0 ≤ offset) (h1 : offset + n ≤ SSIZE_MAX) (i : Nat) (c : IoCall)
    (hc : (winfs_pread is_text h buf n offset).calls[i]? = some c) :
    c.overlapped = some (overlapped_of
      (offset + (total_transferred ((winfs_pread is_text h buf n offset).calls.take i) : Int))) := by
  obtain ⟨new, hcalls, hnew⟩ := winfs_pread_loop_offsets is_text h.reads
    { num := 0, count := n, offset := offset, bufpos := 0, buf := buf,
      cursor := h.cursor, size := h.size, calls := [] } h0 h1
  simp only [winfs_pread] at hc ⊢
  rw [hcalls] at hc ⊢
  simp only [List.nil_append] at hc ⊢
  obtain ⟨hi, rfl⟩ := List.getElem?_eq_some.1 hc
  exact hnew i hi

theorem total_transferred_take_le (cs : List IoCall) (i : Nat) :
    total_transferred (cs.take i) ≤ total_transferred cs := by
  induction cs generalizing i with
  | nil => simp
  | cons c cs ih =>
    cases i with
    | zero => simp [total_transferred_nil]
    | succ i =>
      rw [List.take_succ_cons, total_transferred_cons, total_transferred_cons]
      have := ih i
      omega

/-- C5: for `read` and `pread` of `n` bytes in which no host call fails with an error
other than end of file, every host call requests at most `UINT_MAX` bytes, every host
call but the last is a transfer of at least one byte (the loop stops at the first end of
file or zero-byte transfer), and the value returned is the sum of the transfer counts,
which lies between 0 and `n`; in `pread` every host call is issued at the explicit
offset advanced by the transfer counts before it. -/
theorem read_pread_return_sum_of_transfers (is_text : Bool) (h : IoHost) (buf : Mem) (n : Nat)
    (offset : Int) (hn : (n : Int) ≤ SSIZE_MAX) :
    ((∀ c ∈ (winfs_read is_text h buf n).calls, c.status ≠ .error) →
      (∀ c ∈ (winfs_read is_text h buf n).calls, c.count ≤ UINT_MAX) ∧
      (∀ c ∈ (winfs_read is_text h buf n).calls.dropLast, c.status = .ok ∧ 0 < c.transferred) ∧
      (winfs_read is_text h buf n).ret
        = (total_transferred (winfs_read is_text h buf n).calls : Int) ∧
      0 ≤ (winfs_read is_text h buf n).ret ∧ (winfs_read is_text h buf n).ret ≤ n) ∧
    ((∀ c ∈ (winfs_pread is_text h buf n offset).calls, c.status ≠ .error) →
      (∀ c ∈ (winfs_pread is_text h buf n offset).calls, c.count ≤ UINT_MAX) ∧
      (∀ c ∈ (winfs_pread is_text h buf n offset).calls.dropLast,
        c.status = .ok ∧ 0 < c.transferred) ∧
      (winfs_pread is_text h buf n offset).ret
        = (total_transferred (winfs_pread is_text h buf n offset).calls : Int) ∧
      0 ≤ (winfs_pread is_text h buf n offset).ret ∧
      (winfs_pread is_text h buf n offset).ret ≤ n ∧
      (0 ≤ offset → offset + n ≤ SSIZE_MAX →
        ∀ i c, (winfs_pread is_text h buf n offset).calls[i]? = some c →
          c.overlapped = some (overlapped_of (offset +
            (total_transferred ((winfs_pread is_text h buf n offset).calls.take i) : Int))) ∧
          io_position c.cursor c.overlapped = (offset +
            (total_transferred ((winfs_pread is_text h buf n offset).calls.take i) : Int)).toNat)) := by
  refine ⟨fun hne => winfs_read_sum is_text h buf n hn hne, fun hne => ?_⟩
  obtain ⟨h1, h2, h3, h4, h5⟩ := winfs_pread_sum is_text h buf n offset hn hne
  refine ⟨h1, h2, h3, h4, h5, fun h0 hmax i c hc => ?_⟩
  have hov := winfs_pread_offsets is_text h buf n offset h0 hmax i c hc
  refine ⟨hov, ?_⟩
  rw [hov]
  have hle := total_transferred_take_le (winfs_pread is_text h buf n offset).calls i
  rw [h3] at h5
  exact io_position_overlapped_of _ _ (by omega) (by omega)

/-- C5 witness: a read of 10 bytes on a host that transfers 3 bytes, then 2 bytes, then
signals end of file. -/
theorem read_pread_return_sum_of_transfers_witness :
    (10 : Int) ≤ SSIZE_MAX ∧
    (winfs_read false ⟨7, 100, [.data [1, 2, 3], .data [4, 5], .eof], []⟩ (fun _ => 0) 10).ret = 5 ∧
    (winfs_pread false ⟨7, 100, [.data [1, 2, 3], .data [4, 5], .eof], []⟩ (fun _ => 0) 10 40).ret
      = 5 :=
  ⟨by decide,
   ((read_pread_return_sum_of_transfers false
      ⟨7, 100, [.data [1, 2, 3], .data [4, 5], .eof], []⟩ (fun _ => 0) 10 40 (by decide)).1
      (by decide)).2.2.1.trans (by decide),
   ((read_pread_return_sum_of_transfers false
      ⟨7, 100, [.data [1, 2, 3], .data [4, 5], .eof], []⟩ (fun _ => 0) 10 40 (by decide)).2
      (by decide)).2.2.1.trans (by decide)⟩

/-- C6: whatever the host answers, the shared cursor after `pread` and after `pwrite` is
the cursor before the call, and the first host call of a following `read` or `write` is
issued with the shared cursor at that value, without an explicit offset (for `write`:
unless the handle is in append mode). -/
theorem pread_pwrite_keep_shared_cursor (is_text : Bool) (h : IoHost) (buf : Mem) (n : Nat)
    (offset : Int) :
    (winfs_pread is_text h buf n offset).host.cursor = h.cursor ∧
    (winfs_pwrite h buf n offset).host.cursor = h.cursor ∧
    (∀ (t : Bool) (b : Mem) (m : Nat) (c : IoCall),
      (winfs_read t (winfs_pread is_text h buf n offset).host b m).calls.head? = some c →
        c.overlapped = none ∧ c.cursor = h.cursor) ∧
    (∀ (t : Bool) (b : Mem) (m : Nat) (c : IoCall),
      (winfs_read t (winfs_pwrite h buf n offset).host b m).calls.head? = some c →
        c.overlapped = none ∧ c.cursor = h.cursor) ∧
    (∀ (append : Bool) (b : Mem) (m : Nat) (c : IoCall),
      (winfs_write append (winfs_pread is_text h buf n offset).host b m).calls.head? = some c →
        c.cursor = h.cursor ∧ (append = false → c.overlapped = none)) ∧
    (∀ (append : Bool) (b : Mem) (m : Nat) (c : IoCall),
      (winfs_write append (winfs_pwrite h buf n offset).host b m).calls.head? = some c →
        c.cursor = h.cursor ∧ (append = false → c.overlapped = none)) := by
  refine ⟨winfs_pread_cursor is_text h buf n offset, winfs_pwrite_cursor h buf n offset,
    ?_, ?_, ?_, ?_⟩
  · intro t b m c hc
    have := winfs_read_first_call t _ b m c hc
    rw [winfs_pread_cursor] at this
    exact this
  · intro t b m c hc
    have := winfs_read_first_call t _ b m c hc
    rw [winfs_pwrite_cursor] at this
    exact this
  · intro append b m c hc
    have := winfs_write_first_call append _ b m c hc
    rw [winfs_pread_cursor] at this
    exact ⟨this.2, fun ha => by rw [this.1, ha]; rfl⟩
  · intro append b m c hc
    have := winfs_write_first_call append _ b m c hc
    rw [winfs_pwrite_cursor] at this
    exact ⟨this.2, fun ha => by rw [this.1, ha]; rfl⟩

/-- C6 witness: with the cursor at 7, after a `pwrite` of 4 bytes at offset 40 the cursor
is 7 and the host call of a following `write` of 2 bytes is issued at cursor 7 with a NULL
`OVERLAPPED`. -/
theorem pread_pwrite_keep_shared_cursor_witness :
    (winfs_pwrite ⟨7, 100, [], [.accepted 4, .accepted 2]⟩ (fun _ => 0) 4 40).host.cursor = 7 ∧
    ((⟨none, 7, 2, .ok, [0, 0]⟩ : IoCall).cursor = 7 ∧
      (false = false → (⟨none, 7, 2, .ok, [0, 0]⟩ : IoCall).overlapped = none)) :=
  ⟨(pread_pwrite_keep_shared_cursor false ⟨7, 100, [], [.accepted 4, .accepted 2]⟩
      (fun _ => 0) 4 40).2.1,
   (pread_pwrite_keep_shared_cursor false ⟨7, 100, [], [.accepted 4, .accepted 2]⟩
      (fun _ => 0) 4 40).2.2.2.2.2 false (fun _ => 0) 2 ⟨none, 7, 2, .ok, [0, 0]⟩ (by decide)⟩

/-- A run of C6: with the cursor at 7, a `pwrite` of 4 bytes at offset 40 followed by a
`write` of 2 bytes: the `write` is issued at cursor 7 and leaves the cursor at 9. -/
theorem pwrite_then_write_run :
    (winfs_pwrite ⟨7, 100, [], [.accepted 4, .accepted 2]⟩ (fun _ => 0) 4 40).host.cursor = 7 ∧
    (winfs_pwrite ⟨7, 100, [], [.accepted 4, .accepted 2]⟩ (fun _ => 0) 4 40).calls
      = [⟨some (40, 0), 7, 4, .ok, [0, 0, 0, 0]⟩] ∧
    (winfs_write false
      (winfs_pwrite ⟨7, 100, [], [.accepted 4, .accepted 2]⟩ (fun _ => 0) 4 40).host
      (fun _ => 0) 2).calls = [⟨none, 7, 2, .ok, [0, 0]⟩] ∧
    (winfs_write false
      (winfs_pwrite ⟨7, 100, [], [.accepted 4, .accepted 2]⟩ (fun _ => 0) 4 40).host
      (fun _ => 0) 2).host.cursor = 9 := by
  decide

theorem winfs_read_symlink_unsafe_run :
    winfs_read_symlink_unsafe ⟨[33, 60, 83, 62], [33, 60, 85, 62], 4⟩
      { attributes := 4, content := [33, 60, 83, 62, 47, 97, 98] } 0 false 100
      = ⟨3, [(0, 47), (1, 97), (2, 98), (3, 0)], 7⟩ := by
  decide

/-! ### Open/create engine -/

theorem open_file_requests (H : winfs_h) (conv : Utf16Converter) (host : Host) (mp : mount_point)
    (pathname : List Nat) (da cd attrs flags : Nat) (bInherit target_null : Bool) (buflen : Int) :
    (open_file H conv host mp pathname da cd attrs flags bInherit target_null buflen).requests =
      match open_file_name conv mp pathname with
      | none => []
      | some nd => [open_file_request nd.1 da cd attrs bInherit] := by
  unfold open_file
  cases open_file_name conv mp pathname with
  | none => rfl
  | some nd =>
    obtain ⟨name, d⟩ := nd
    simp only
    split
    · rfl
    · split
      · rfl
      · split <;> rfl

theorem open_file_host (H : winfs_h) (conv : Utf16Converter) (host : Host) (mp : mount_point)
    (pathname : List Nat) (da cd attrs flags : Nat) (bInherit target_null : Bool) (buflen : Int) :
    (open_file H conv host mp pathname da cd attrs flags bInherit target_null buflen).host =
      match open_file_name conv mp pathname with
      | none => host
      | some nd => (NtCreateFile host (open_file_request nd.1 da cd attrs bInherit)).2.2 := by
  unfold open_file
  cases open_file_name conv mp pathname with
  | none => rfl
  | some nd =>
    obtain ⟨name, d⟩ := nd
    simp only
    split
    · rfl
    · split
      · rfl
      · split <;> rfl

theorem winfs_open_requests (V : vfs_h) (H : winfs_h) (conv : Utf16Converter) (host : Host)
    (mp : mount_point) (pathname : List Nat) (flags internal_flags mode : Nat)
    (fp_null target_null : Bool) (buflen : Int) :
    (winfs_open V H conv host mp pathname flags internal_flags mode fp_null target_null
      buflen).requests =
    (open_file H conv host mp pathname (winfs_open_args V flags internal_flags fp_null).1
      (winfs_open_args V flags internal_flags fp_null).2.1
      (winfs_open_args V flags internal_flags fp_null).2.2.1 flags
      (winfs_open_args V flags internal_flags fp_null).2.2.2 target_null buflen).requests := by
  unfold winfs_open
  simp only
  split
  · rfl
  · split
    · rfl
    · split
      · split <;> rfl
      · rfl

/-- C7: every `NtCreateFile` request `winfs_open` issues asks for read data access exactly
when the path-only flag is clear and `O_RDWR` is set or `O_WRONLY` is clear, for write
data access exactly when the path-only flag is clear and `O_RDWR` or `O_WRONLY` is set,
and for delete access exactly when the internal mark-for-deletion flag is set; its
disposition is create-new if `O_EXCL` is set, else open-or-create if `O_CREAT` is set,
else open-existing; its attribute is "system" if the internal special flag is set and
"normal" otherwise.  The access mask of the request is exactly the data access (none with
the path-only flag, else read and write with `O_RDWR`, else write with `O_WRONLY`, else
read), with `DELETE` when the mark-for-deletion flag is set, together with the two rights
`SYNCHRONIZE` and `FILE_READ_ATTRIBUTES` that `open_file` adds to every request; so with
the path-only flag the request holds no access right besides `SYNCHRONIZE`,
`FILE_READ_ATTRIBUTES` and `DELETE`. -/
theorem winfs_open_flag_translation (V : vfs_h) (H : winfs_h) (conv : Utf16Converter)
    (host : Host) (mp : mount_point) (pathname : List Nat) (flags internal_flags mode : Nat)
    (fp_null target_null : Bool) (buflen : Int) :
    ∀ rq ∈ (winfs_open V H conv host mp pathname flags internal_flags mode fp_null target_null
        buflen).requests,
      has_flag rq.desired_access GENERIC_READ =
        (!has_flag flags O_PATH && (has_flag flags O_RDWR || !has_flag flags O_WRONLY)) ∧
      has_flag rq.desired_access GENERIC_WRITE =
        (!has_flag flags O_PATH && (has_flag flags O_RDWR || has_flag flags O_WRONLY)) ∧
      has_flag rq.desired_access DELETE = has_flag internal_flags V.INTERNAL_O_DELETE ∧
      rq.create_disposition =
        (if has_flag flags O_EXCL then FILE_CREATE
         else if has_flag flags O_CREAT then FILE_OPEN_IF else FILE_OPEN) ∧
      rq.attributes =
        (if has_flag internal_flags V.INTERNAL_O_SPECIAL then FILE_ATTRIBUTE_SYSTEM
         else FILE_ATTRIBUTE_NORMAL) ∧
      rq.desired_access =
        ((if has_flag flags O_PATH then 0
          else if has_flag flags O_RDWR then GENERIC_READ ||| GENERIC_WRITE
          else if has_flag flags O_WRONLY then GENERIC_WRITE
          else GENERIC_READ) |||
         (if has_flag internal_flags V.INTERNAL_O_DELETE then DELETE else 0)) |||
        (SYNCHRONIZE ||| FILE_READ_ATTRIBUTES) ∧
      (has_flag flags O_PATH = true →
        ∀ right : Nat, right &&& (SYNCHRONIZE ||| FILE_READ_ATTRIBUTES ||| DELETE) = 0 →
          has_flag rq.desired_access right = false) := by
  intro rq hrq
  rw [winfs_open_requests, open_file_requests] at hrq
  cases hname : open_file_name conv mp pathname with
  | none => rw [hname] at hrq; simp at hrq
  | some nd =>
    rw [hname] at hrq
    simp only [List.mem_singleton] at hrq
    subst hrq
    have hmask : ∀ c right : Nat, c &&& (SYNCHRONIZE ||| FILE_READ_ATTRIBUTES ||| DELETE) = c →
        right &&& (SYNCHRONIZE ||| FILE_READ_ATTRIBUTES ||| DELETE) = 0 →
        has_flag c right = false := by
      intro c right hc hr
      unfold has_flag
      rw [← hc, Nat.land_assoc, Nat.land_comm _ right, hr, Nat.and_zero]
      rfl
    refine ⟨?_, ?_, ?_, rfl, rfl, ?_, ?_⟩ <;> simp only [open_file_request, winfs_open_args]
    · cases has_flag flags O_PATH <;> cases has_flag flags O_RDWR <;>
        cases has_flag flags O_WRONLY <;> cases has_flag internal_flags V.INTERNAL_O_DELETE <;>
        decide
    · cases has_flag flags O_PATH <;> cases has_flag flags O_RDWR <;>
        cases has_flag flags O_WRONLY <;> cases has_flag internal_flags V.INTERNAL_O_DELETE <;>
        decide
    · cases has_flag flags O_PATH <;> cases has_flag flags O_RDWR <;>
        cases has_flag flags O_WRONLY <;> cases has_flag internal_flags V.INTERNAL_O_DELETE <;>
        decide
    · cases has_flag flags O_PATH <;> cases has_flag flags O_RDWR <;>
        cases has_flag flags O_WRONLY <;> cases has_flag internal_flags V.INTERNAL_O_DELETE <;>
        decide
    · intro hp right hr
      rw [hp]
      cases has_flag internal_flags V.INTERNAL_O_DELETE
      · simp only [if_true, Bool.false_eq_true, if_false]
        exact hmask _ right (by decide) hr
      · simp only [if_true]
        exact hmask _ right (by decide) hr

/-- C7 witness: `O_WRONLY | O_CREAT | O_EXCL` on a new name asks for write access only,
create-new, normal attribute; `O_PATH | O_RDWR` makes one request, whose access mask is
`SYNCHRONIZE | FILE_READ_ATTRIBUTES` and holds none of the rights to read, write or append
data. -/
theorem winfs_open_flag_translation_witness :
    (⟨[92, 63, 63, 92, 67, 58, 92, 110], 0x40100080, 0x80, 2, 0x420, true⟩ : CreateRequest) ∈
      (winfs_open ⟨1, 2, 4, 8⟩ ⟨[33, 60, 83, 62], [33, 60, 85, 62], 4⟩ ascii_converter []
        ⟨0, [92, 63, 63, 92, 67, 58]⟩ [110] (O_WRONLY ||| O_CREAT ||| O_EXCL) 0 0 false false
        100).requests ∧
    has_flag 0x40100080 GENERIC_READ =
      (!has_flag (O_WRONLY ||| O_CREAT ||| O_EXCL) O_PATH &&
        (has_flag (O_WRONLY ||| O_CREAT ||| O_EXCL) O_RDWR ||
          !has_flag (O_WRONLY ||| O_CREAT ||| O_EXCL) O_WRONLY)) ∧
    (winfs_open ⟨1, 2, 4, 8⟩ ⟨[33, 60, 83, 62], [33, 60, 85, 62], 4⟩ ascii_converter []
      ⟨0, [92, 63, 63, 92, 67, 58]⟩ [110] (O_PATH ||| O_RDWR) 0 0 false false 100).requests
      = [⟨[92, 63, 63, 92, 67, 58, 92, 110], SYNCHRONIZE ||| FILE_READ_ATTRIBUTES, 0x80, 1, 0x20,
          true⟩] ∧
    (∀ rq ∈ (winfs_open ⟨1, 2, 4, 8⟩ ⟨[33, 60, 83, 62], [33, 60, 85, 62], 4⟩ ascii_converter []
        ⟨0, [92, 63, 63, 92, 67, 58]⟩ [110] (O_PATH ||| O_RDWR) 0 0 false false 100).requests,
      has_flag rq.desired_access
        (FILE_READ_DATA ||| FILE_WRITE_DATA ||| 4 ||| GENERIC_READ ||| GENERIC_WRITE |||
          GENERIC_ALL) = false) :=
  ⟨by decide,
   (winfs_open_flag_translation ⟨1, 2, 4, 8⟩ ⟨[33, 60, 83, 62], [33, 60, 85, 62], 4⟩
      ascii_converter [] ⟨0, [92, 63, 63, 92, 67, 58]⟩ [110] (O_WRONLY ||| O_CREAT ||| O_EXCL)
      0 0 false false 100
      ⟨[92, 63, 63, 92, 67, 58, 92, 110], 0x40100080, 0x80, 2, 0x420, true⟩ (by decide)).1,
   by decide,
   fun rq hrq =>
    (winfs_open_flag_translation ⟨1, 2, 4, 8⟩ ⟨[33, 60, 83, 62], [33, 60, 85, 62], 4⟩
      ascii_converter [] ⟨0, [92, 63, 63, 92, 67, 58]⟩ [110] (O_PATH ||| O_RDWR)
      0 0 false false 100 rq hrq).2.2.2.2.2.2 (by decide) _ (by decide)⟩

theorem open_file_of_opened (H : winfs_h) (conv : Utf16Converter) (host : Host) (mp : mount_point)
    (pathname : List Nat) (da cd attrs flags : Nat) (bInherit target_null : Bool) (buflen : Int)
    (name : List Nat) (d status : Nat) (f : HostFile) (host1 : Host)
    (hname : open_file_name conv mp pathname = some (name, d))
    (hopen : NtCreateFile host (open_file_request name da cd attrs bInherit)
      = (status, some f, host1))
    (hstatus : NT_SUCCESS status = true) :
    open_file H conv host mp pathname da cd attrs flags bInherit target_null buflen =
      ⟨(open_file_opened H (open_file_request name da cd attrs bInherit) f flags target_null
          buflen).1,
       (open_file_opened H (open_file_request name da cd attrs bInherit) f flags target_null
          buflen).2.1,
       some d,
       (open_file_opened H (open_file_request name da cd attrs bInherit) f flags target_null
          buflen).2.2.1,
       [open_file_request name da cd attrs bInherit],
       (open_file_opened H (open_file_request name da cd attrs bInherit) f flags target_null
          buflen).2.2.2,
       host1⟩ := by
  have hne : status ≠ STATUS_OBJECT_NAME_COLLISION := by
    intro h
    rw [h] at hstatus
    exact absurd hstatus (by decide)
  unfold open_file
  rw [hname]
  simp only [hopen, hne, hstatus, if_false, Bool.not_true, Bool.false_eq_true]

/-- What `winfs_read_symlink_unsafe` stores when it recognises a symlink and is given a
buffer: bytes of the file from offset 0 (sidecar symlink) or from the end of the magic
header (in-band symlink), followed by a NUL. -/
theorem winfs_read_symlink_unsafe_target (H : winfs_h) (f : HostFile) (cursor : Nat)
    (buflen : Int) (hb : buflen ≠ 0)
    (hpos : 0 < ( winfs_read_symlink_unsafe H f cursor false buflen).ret) :
    ∃ off bytes, (off = 0 ∨ off = H.WINFS_SYMLINK_HEADER_LEN) ∧
      bytes = (f.content.drop off).take (dword_of_int buflen) ∧
      ( winfs_read_symlink_unsafe H f cursor false buflen).target
        = memcpy_stores 0 bytes ++ [(bytes.length, 0)] ∧
      ( winfs_read_symlink_unsafe H f cursor false buflen).ret = int_of_dword bytes.length := by
  have hb2 : (buflen == 0) = false := by simpa using hb
  unfold winfs_read_symlink_unsafe at hpos ⊢
  simp only [Bool.false_or, hb2, Bool.false_eq_true, if_false] at hpos ⊢
  split at hpos
  · rename_i hmeta
    rw [if_pos hmeta]
    cases hr : f.ReadFile 0 (dword_of_int buflen) with
    | none => rw [hr] at hpos; simp at hpos
    | some bytes =>
      simp only
      refine ⟨0, bytes, Or.inl rfl, ?_, rfl, rfl⟩
      unfold HostFile.ReadFile at hr
      split at hr
      · simp at hr
      · split at hr
        · simp at hr
        · simpa using hr.symm
  · rename_i hmeta
    rw [if_neg hmeta]
    cases hh : f.ReadFile 0 H.WINFS_SYMLINK_HEADER_LEN with
    | none => rw [hh] at hpos; simp at hpos
    | some header =>
      rw [hh] at hpos
      simp only at hpos ⊢
      split at hpos
      · simp at hpos
      · rename_i h1
        rw [if_neg h1]
        split at hpos
        · simp at hpos
        · rename_i h2
          rw [if_neg h2]
          cases hr : f.ReadFile H.WINFS_SYMLINK_HEADER_LEN (dword_of_int buflen) with
          | none => rw [hr] at hpos; simp at hpos
          | some bytes =>
            simp only
            refine ⟨H.WINFS_SYMLINK_HEADER_LEN, bytes, Or.inr rfl, ?_, rfl, rfl⟩
            unfold HostFile.ReadFile at hr
            split at hr
            · simp at hr
            · split at hr
              · simp at hr
              · simpa using hr.symm

/-- C8: when the host opens a file that it reports not to be a directory, the handle has
read access or is reopened with it, and `winfs_read_symlink_unsafe` on it returns a
positive length, then `open_file` without `O_NOFOLLOW` closes every handle it obtained,
returns 1 and leaves in `target` what the detection stored (the target bytes and a NUL
when a buffer is given); with `O_NOFOLLOW` and without `O_PATH` it closes the handles and
returns `-L_ELOOP`; with both it returns 0 and the handle on the link itself, not
closed. -/
theorem open_file_symlink (H : winfs_h) (conv : Utf16Converter) (host : Host) (mp : mount_point)
    (pathname : List Nat) (da cd attrs flags : Nat) (bInherit target_null : Bool) (buflen : Int)
    (name : List Nat) (d status : Nat) (f : HostFile) (host1 : Host)
    (hname : open_file_name conv mp pathname = some (name, d))
    (hopen : NtCreateFile host (open_file_request name da cd attrs bInherit)
      = (status, some f, host1))
    (hstatus : NT_SUCCESS status = true)
    (hquery : f.query_ok = true)
    (hdir : has_flag f.attributes FILE_ATTRIBUTE_DIRECTORY = false)
    (hprobe : has_flag (da ||| (SYNCHRONIZE ||| FILE_READ_ATTRIBUTES)) GENERIC_READ = true ∨
      f.reopen_ok = true)
    (hsym : 0 < ( winfs_read_symlink_unsafe H f 0 target_null buflen).ret) :
    (has_flag flags O_NOFOLLOW = false →
      (open_file H conv host mp pathname da cd attrs flags bInherit target_null buflen).ret = 1 ∧
      (open_file H conv host mp pathname da cd attrs flags bInherit target_null buflen).hFile
        = none ∧
      (open_file H conv host mp pathname da cd attrs flags bInherit target_null buflen).closed
        = (if has_flag (da ||| (SYNCHRONIZE ||| FILE_READ_ATTRIBUTES)) GENERIC_READ then
            [⟨name, f, da ||| (SYNCHRONIZE ||| FILE_READ_ATTRIBUTES)⟩]
           else [⟨name, f, da ||| (SYNCHRONIZE ||| FILE_READ_ATTRIBUTES)⟩,
                 ⟨name, f, da ||| (SYNCHRONIZE ||| FILE_READ_ATTRIBUTES) ||| GENERIC_READ⟩]) ∧
      (open_file H conv host mp pathname da cd attrs flags bInherit target_null buflen).target
        = ( winfs_read_symlink_unsafe H f 0 target_null buflen).target ∧
      (target_null = false → buflen ≠ 0 →
        ∃ off bytes, (off = 0 ∨ off = H.WINFS_SYMLINK_HEADER_LEN) ∧ bytes ≠ [] ∧
          bytes = (f.content.drop off).take (dword_of_int buflen) ∧
          (open_file H conv host mp pathname da cd attrs flags bInherit target_null
            buflen).target = memcpy_stores 0 bytes ++ [(bytes.length, 0)])) ∧
    (has_flag flags O_NOFOLLOW = true → has_flag flags O_PATH = false →
      (open_file H conv host mp pathname da cd attrs flags bInherit target_null buflen).ret
        = -L_ELOOP ∧
      (open_file H conv host mp pathname da cd attrs flags bInherit target_null buflen).hFile
        = none ∧
      (open_file H conv host mp pathname da cd attrs flags bInherit target_null buflen).closed
        = (if has_flag (da ||| (SYNCHRONIZE ||| FILE_READ_ATTRIBUTES)) GENERIC_READ then
            [⟨name, f, da ||| (SYNCHRONIZE ||| FILE_READ_ATTRIBUTES)⟩]
           else [⟨name, f, da ||| (SYNCHRONIZE ||| FILE_READ_ATTRIBUTES)⟩,
                 ⟨name, f, da ||| (SYNCHRONIZE ||| FILE_READ_ATTRIBUTES) ||| GENERIC_READ⟩])) ∧
    (has_flag flags O_NOFOLLOW = true → has_flag flags O_PATH = true →
      (open_file H conv host mp pathname da cd attrs flags bInherit target_null buflen).ret = 0 ∧
      ∃ hd, (open_file H conv host mp pathname da cd attrs flags bInherit target_null
          buflen).hFile = some hd ∧ hd.name = name ∧ hd.file = f ∧
        hd ∉ (open_file H conv host mp pathname da cd attrs flags bInherit target_null
          buflen).closed) := by
  rw [open_file_of_opened H conv host mp pathname da cd attrs flags bInherit target_null buflen
    name d status f host1 hname hopen hstatus]
  have hret : ( winfs_read_symlink_unsafe H f 0 target_null buflen).ret > 0 := hsym
  cases hr : has_flag (da ||| (SYNCHRONIZE ||| FILE_READ_ATTRIBUTES)) GENERIC_READ with
  | true =>
    refine ⟨fun hnf => ?_, fun hnf hp => ?_, fun hnf hp => ?_⟩
    · simp only [open_file_opened, open_file_request, hquery, hdir, hr, hret, hnf,
        Bool.not_true, Bool.not_false, Bool.false_and, Bool.false_eq_true, if_false, if_true,
        List.nil_append, true_and]
      intro hn hb
      subst hn
      obtain ⟨off, bytes, ho, hbytes, htarget, hlen⟩ :=
        winfs_read_symlink_unsafe_target H f 0 buflen hb hsym
      refine ⟨off, bytes, ho, ?_, hbytes, htarget⟩
      intro he
      rw [hlen, he] at hsym
      exact absurd hsym (by decide)
    · simp only [open_file_opened, open_file_request, hquery, hdir, hr, hret, hnf, hp,
        Bool.not_true, Bool.not_false, Bool.false_and, Bool.false_eq_true, if_false, if_true,
        List.nil_append, true_and, and_self]
    · simp only [open_file_opened, open_file_request, hquery, hdir, hr, hret, hnf, hp,
        Bool.not_true, Bool.not_false, Bool.false_and, Bool.false_eq_true, if_false, if_true,
        true_and]
      exact ⟨_, rfl, rfl, rfl, by simp⟩
  | false =>
    have hre : f.reopen_ok = true := by
      rcases hprobe with h | h
      · rw [hr] at h; exact absurd h (by decide)
      · exact h
    refine ⟨fun hnf => ?_, fun hnf hp => ?_, fun hnf hp => ?_⟩
    · simp only [open_file_opened, open_file_request, hquery, hdir, hr, hret, hnf, hre,
        Bool.not_true, Bool.not_false, Bool.and_false, Bool.false_eq_true, if_false, if_true,
        List.singleton_append, true_and]
      intro hn hb
      subst hn
      obtain ⟨off, bytes, ho, hbytes, htarget, hlen⟩ :=
        winfs_read_symlink_unsafe_target H f 0 buflen hb hsym
      refine ⟨off, bytes, ho, ?_, hbytes, htarget⟩
      intro he
      rw [hlen, he] at hsym
      exact absurd hsym (by decide)
    · simp only [open_file_opened, open_file_request, hquery, hdir, hr, hret, hnf, hp, hre,
        Bool.not_true, Bool.not_false, Bool.and_false, Bool.false_eq_true, if_false, if_true,
        List.singleton_append, true_and, and_self]
    · simp only [open_file_opened, open_file_request, hquery, hdir, hr, hret, hnf, hp, hre,
        Bool.not_true, Bool.not_false, Bool.and_false, Bool.false_eq_true, if_false, if_true,
        true_and]
      refine ⟨_, rfl, rfl, rfl, ?_⟩
      simp only [List.mem_singleton, Handle.mk.injEq, true_and]
      intro h
      have h2 : has_flag (da ||| (SYNCHRONIZE ||| FILE_READ_ATTRIBUTES) ||| GENERIC_READ)
          GENERIC_READ = true := by
        simp only [has_flag, bne_iff_ne, ne_eq]
        intro h0
        have := congrArg (fun x => x.testBit 31) h0
        have e : Nat.testBit 2147483648 31 = true := by decide
        simp [Nat.testBit_and, Nat.testBit_or, GENERIC_READ, e] at this
      rw [h, hr] at h2
      exact absurd h2 (by decide)

/-- C8 witness: an in-band symlink `l` with target `/a` (stand-in magic sequence
`!<S>`), opened for reading with the three flag combinations. -/
theorem open_file_symlink_witness :
    (open_file ⟨[33, 60, 83, 62], [33, 60, 85, 62], 4⟩ ascii_converter
      [([92, 63, 63, 92, 67, 58, 92, 108], { attributes := 4, content := [33, 60, 83, 62, 47, 97] })]
      ⟨0, [92, 63, 63, 92, 67, 58]⟩ [108] GENERIC_READ FILE_OPEN FILE_ATTRIBUTE_NORMAL 0 true
      false 100).ret = 1 ∧
    (open_file ⟨[33, 60, 83, 62], [33, 60, 85, 62], 4⟩ ascii_converter
      [([92, 63, 63, 92, 67, 58, 92, 108], { attributes := 4, content := [33, 60, 83, 62, 47, 97] })]
      ⟨0, [92, 63, 63, 92, 67, 58]⟩ [108] GENERIC_READ FILE_OPEN FILE_ATTRIBUTE_NORMAL 0 true
      false 100).target = [(0, 47), (1, 97), (2, 0)] :=
  ⟨((open_file_symlink ⟨[33, 60, 83, 62], [33, 60, 85, 62], 4⟩ ascii_converter
      [([92, 63, 63, 92, 67, 58, 92, 108], { attributes := 4, content := [33, 60, 83, 62, 47, 97] })]
      ⟨0, [92, 63, 63, 92, 67, 58]⟩ [108] GENERIC_READ FILE_OPEN FILE_ATTRIBUTE_NORMAL 0 true
      false 100 [92, 63, 63, 92, 67, 58, 92, 108] 67 0
      { attributes := 4, content := [33, 60, 83, 62, 47, 97] }
      [([92, 63, 63, 92, 67, 58, 92, 108], { attributes := 4, content := [33, 60, 83, 62, 47, 97] })]
      (by decide) (by decide) (by decide) (by decide) (by decide) (by decide) (by decide)).1
      (by decide)).1,
   (((open_file_symlink ⟨[33, 60, 83, 62], [33, 60, 85, 62], 4⟩ ascii_converter
      [([92, 63, 63, 92, 67, 58, 92, 108], { attributes := 4, content := [33, 60, 83, 62, 47, 97] })]
      ⟨0, [92, 63, 63, 92, 67, 58]⟩ [108] GENERIC_READ FILE_OPEN FILE_ATTRIBUTE_NORMAL 0 true
      false 100 [92, 63, 63, 92, 67, 58, 92, 108] 67 0
      { attributes := 4, content := [33, 60, 83, 62, 47, 97] }
      [([92, 63, 63, 92, 67, 58, 92, 108], { attributes := 4, content := [33, 60, 83, 62, 47, 97] })]
      (by decide) (by decide) (by decide) (by decide) (by decide) (by decide) (by decide)).1
      (by decide)).2.2.2.1).trans (by decide)⟩

theorem open_file_opened_ne_enotdir (H : winfs_h) (rq : CreateRequest) (f : HostFile)
    (flags : Nat) (target_null : Bool) (buflen : Int) :
    (open_file_opened H rq f flags target_null buflen).1 ≠ -L_ENOTDIR := by
  have h1 : (- L_EIO : Int) ≠ -L_ENOTDIR := by decide
  have h2 : (0 : Int) ≠ -L_ENOTDIR := by decide
  have h3 : (1 : Int) ≠ -L_ENOTDIR := by decide
  have h4 : (-L_ELOOP : Int) ≠ -L_ENOTDIR := by decide
  unfold open_file_opened
  simp only
  split
  · exact h1
  · split
    · split
      · exact h2
      · split
        · split
          · exact h3
          · split
            · exact h4
            · exact h2
        · exact h2
    · rename_i hd
      split
      · rename_i h5
        simp only [Bool.and_eq_true] at h5
        exact absurd h5.1 hd
      · exact h2

/-- The not-a-directory error is never returned by `open_file`: the branch of line 1321
sits in the `else` of the test it repeats. -/
theorem open_file_ne_enotdir (H : winfs_h) (conv : Utf16Converter) (host : Host)
    (mp : mount_point) (pathname : List Nat) (da cd attrs flags : Nat)
    (bInherit target_null : Bool) (buflen : Int) :
    (open_file H conv host mp pathname da cd attrs flags bInherit target_null buflen).ret
      ≠ -L_ENOTDIR := by
  have h1 : (-L_ENOENT : Int) ≠ -L_ENOTDIR := by decide
  have h2 : (-L_EEXIST : Int) ≠ -L_ENOTDIR := by decide
  unfold open_file
  cases open_file_name conv mp pathname with
  | none => exact h1
  | some nd =>
    obtain ⟨name, d⟩ := nd
    simp only
    split
    · exact h2
    · split
      · exact h1
      · split
        · exact h1
        · exact open_file_opened_ne_enotdir _ _ _ _ _ _

/-- C9 (failing input): opening the existing regular file `f` (not a directory, not a
symlink) with `O_DIRECTORY` succeeds: `open_file` returns 0 with a handle and `winfs_open`
returns 0 with a file object. -/
theorem open_regular_file_with_o_directory_succeeds :
    (open_file ⟨[33, 60, 83, 62], [33, 60, 85, 62], 4⟩ ascii_converter
      [([92, 63, 63, 92, 67, 58, 92, 102], { attributes := 0x80, content := [104, 105] })]
      ⟨0, [92, 63, 63, 92, 67, 58]⟩ [102] GENERIC_READ FILE_OPEN FILE_ATTRIBUTE_NORMAL
      O_DIRECTORY true false 100).ret = 0 ∧
    (open_file ⟨[33, 60, 83, 62], [33, 60, 85, 62], 4⟩ ascii_converter
      [([92, 63, 63, 92, 67, 58, 92, 102], { attributes := 0x80, content := [104, 105] })]
      ⟨0, [92, 63, 63, 92, 67, 58]⟩ [102] GENERIC_READ FILE_OPEN FILE_ATTRIBUTE_NORMAL
      O_DIRECTORY true false 100).hFile.isSome = true ∧
    (winfs_open ⟨1, 2, 4, 8⟩ ⟨[33, 60, 83, 62], [33, 60, 85, 62], 4⟩ ascii_converter
      [([92, 63, 63, 92, 67, 58, 92, 102], { attributes := 0x80, content := [104, 105] })]
      ⟨0, [92, 63, 63, 92, 67, 58]⟩ [102] O_DIRECTORY 0 0 false false 100).ret = 0 ∧
    (winfs_open ⟨1, 2, 4, 8⟩ ⟨[33, 60, 83, 62], [33, 60, 85, 62], 4⟩ ascii_converter
      [([92, 63, 63, 92, 67, 58, 92, 102], { attributes := 0x80, content := [104, 105] })]
      ⟨0, [92, 63, 63, 92, 67, 58]⟩ [102] O_DIRECTORY 0 0 false false 100).fp.isSome = true := by
  decide

theorem open_file_collision (H : winfs_h) (conv : Utf16Converter) (host : Host) (mp : mount_point)
    (pathname : List Nat) (da cd attrs flags : Nat) (bInherit target_null : Bool) (buflen : Int)
    (name : List Nat) (d : Nat)
    (hname : open_file_name conv mp pathname = some (name, d))
    (hcol : (NtCreateFile host (open_file_request name da cd attrs bInherit)).1
      = STATUS_OBJECT_NAME_COLLISION) :
    open_file H conv host mp pathname da cd attrs flags bInherit target_null buflen =
      ⟨-L_EEXIST, none, some d, [], [open_file_request name da cd attrs bInherit], [],
        (NtCreateFile host (open_file_request name da cd attrs bInherit)).2.2⟩ := by
  unfold open_file
  rw [hname]
  simp only [hcol, if_true]

theorem winfs_open_of_negative (V : vfs_h) (H : winfs_h) (conv : Utf16Converter) (host : Host)
    (mp : mount_point) (pathname : List Nat) (flags internal_flags mode : Nat)
    (fp_null target_null : Bool) (buflen : Int)
    (hneg : (open_file H conv host mp pathname (winfs_open_args V flags internal_flags fp_null).1
      (winfs_open_args V flags internal_flags fp_null).2.1
      (winfs_open_args V flags internal_flags fp_null).2.2.1 flags
      (winfs_open_args V flags internal_flags fp_null).2.2.2 target_null buflen).ret < 0) :
    (winfs_open V H conv host mp pathname flags internal_flags mode fp_null target_null
      buflen).ret =
      (open_file H conv host mp pathname (winfs_open_args V flags internal_flags fp_null).1
        (winfs_open_args V flags internal_flags fp_null).2.1
        (winfs_open_args V flags internal_flags fp_null).2.2.1 flags
        (winfs_open_args V flags internal_flags fp_null).2.2.2 target_null buflen).ret ∧
    (winfs_open V H conv host mp pathname flags internal_flags mode fp_null target_null
      buflen).fp = none ∧
    (winfs_open V H conv host mp pathname flags internal_flags mode fp_null target_null
      buflen).host =
      (open_file H conv host mp pathname (winfs_open_args V flags internal_flags fp_null).1
        (winfs_open_args V flags internal_flags fp_null).2.1
        (winfs_open_args V flags internal_flags fp_null).2.2.1 flags
        (winfs_open_args V flags internal_flags fp_null).2.2.2 target_null buflen).host := by
  unfold winfs_open
  simp only [hneg, decide_True, Bool.true_or, if_true, and_self]

theorem lookup_truncate (host : Host) (n name : List Nat) :
    ((Host.truncate host n).lookup name).isSome = (host.lookup name).isSome := by
  induction host with
  | nil => rfl
  | cons e es ih =>
    obtain ⟨k, v⟩ := e
    simp only [Host.truncate, List.map_cons] at ih ⊢
    by_cases hk : k = n
    · simp only [hk, if_true, List.lookup_cons]
      cases name == n
      · exact ih
      · rfl
    · simp only [hk, if_false, List.lookup_cons]
      cases name == k
      · exact ih
      · rfl

theorem winfs_open_host_lookup (V : vfs_h) (H : winfs_h) (conv : Utf16Converter) (host : Host)
    (mp : mount_point) (pathname : List Nat) (flags internal_flags mode : Nat)
    (fp_null target_null : Bool) (buflen : Int) (name : List Nat) :
    ((winfs_open V H conv host mp pathname flags internal_flags mode fp_null target_null
      buflen).host.lookup name).isSome =
    ((open_file H conv host mp pathname (winfs_open_args V flags internal_flags fp_null).1
      (winfs_open_args V flags internal_flags fp_null).2.1
      (winfs_open_args V flags internal_flags fp_null).2.2.1 flags
      (winfs_open_args V flags internal_flags fp_null).2.2.2 target_null buflen).host.lookup
        name).isSome := by
  unfold winfs_open
  simp only
  split
  · rfl
  · split
    · rfl
    · split
      · split
        · simp only
          split
          · split
            · exact lookup_truncate _ _ _
            · rfl
          · rfl
        · simp only
          split
          · split
            · exact lookup_truncate _ _ _
            · rfl
          · rfl
      · simp only
        split
        · split
          · exact lookup_truncate _ _ _
          · rfl
        · rfl

theorem NtCreateFile_create_lookup (host : Host) (rq : CreateRequest)
    (hcd : rq.create_disposition = FILE_CREATE) :
    ((NtCreateFile host rq).2.2.lookup rq.name).isSome = true := by
  unfold NtCreateFile
  cases hl : host.lookup rq.name with
  | some f => simp [hcd, hl]
  | none =>
    have hne : ¬ (FILE_CREATE = FILE_OPEN) := by decide
    simp [hcd, hne, List.lookup_cons]

theorem NtCreateFile_create_collision (host : Host) (rq : CreateRequest)
    (hcd : rq.create_disposition = FILE_CREATE) (hl : (host.lookup rq.name).isSome = true) :
    (NtCreateFile host rq).1 = STATUS_OBJECT_NAME_COLLISION := by
  unfold NtCreateFile
  cases hl2 : host.lookup rq.name with
  | some f => simp [hcd]
  | none => rw [hl2] at hl; simp at hl

theorem winfs_open_args_excl (V : vfs_h) (flags internal_flags : Nat) (fp_null : Bool)
    (h : has_flag flags O_EXCL = true) :
    (winfs_open_args V flags internal_flags fp_null).2.1 = FILE_CREATE := by
  simp [winfs_open_args, h]

theorem open_file_of_no_name (H : winfs_h) (conv : Utf16Converter) (host : Host)
    (mp : mount_point) (pathname : List Nat) (da cd attrs flags : Nat)
    (bInherit target_null : Bool) (buflen : Int)
    (hname : open_file_name conv mp pathname = none) :
    open_file H conv host mp pathname da cd attrs flags bInherit target_null buflen =
      ⟨-L_ENOENT, none, none, [], [], [], host⟩ := by
  unfold open_file
  rw [hname]

/-- The second of two `winfs_open` calls with `O_EXCL` on one path. -/
theorem winfs_open_excl_twice (V : vfs_h) (H : winfs_h) (conv : Utf16Converter) (host : Host)
    (mp : mount_point) (pathname : List Nat) (flags internal_flags mode : Nat)
    (fp_null target_null : Bool) (buflen : Int) (hexcl : has_flag flags O_EXCL = true)
    (flags2 internal_flags2 mode2 : Nat) (fp_null2 target_null2 : Bool) (buflen2 : Int)
    (hexcl2 : has_flag flags2 O_EXCL = true) :
    (winfs_open V H conv
      (winfs_open V H conv host mp pathname flags internal_flags mode fp_null target_null
        buflen).host
      mp pathname flags2 internal_flags2 mode2 fp_null2 target_null2 buflen2).ret < 0 ∧
    (winfs_open V H conv
      (winfs_open V H conv host mp pathname flags internal_flags mode fp_null target_null
        buflen).host
      mp pathname flags2 internal_flags2 mode2 fp_null2 target_null2 buflen2).fp = none ∧
    ((winfs_open V H conv host mp pathname flags internal_flags mode fp_null target_null
        buflen).requests ≠ [] →
      (winfs_open V H conv
        (winfs_open V H conv host mp pathname flags internal_flags mode fp_null target_null
          buflen).host
        mp pathname flags2 internal_flags2 mode2 fp_null2 target_null2 buflen2).ret
        = -L_EEXIST) := by
  cases hname : open_file_name conv mp pathname with
  | none =>
    have h2 := open_file_of_no_name H conv
      (winfs_open V H conv host mp pathname flags internal_flags mode fp_null target_null
        buflen).host mp pathname
      (winfs_open_args V flags2 internal_flags2 fp_null2).1
      (winfs_open_args V flags2 internal_flags2 fp_null2).2.1
      (winfs_open_args V flags2 internal_flags2 fp_null2).2.2.1 flags2
      (winfs_open_args V flags2 internal_flags2 fp_null2).2.2.2 target_null2 buflen2 hname
    obtain ⟨e1, e2, -⟩ := winfs_open_of_negative V H conv _ mp pathname flags2 internal_flags2
      mode2 fp_null2 target_null2 buflen2 (by rw [h2]; exact (by decide : (-L_ENOENT : Int) < 0))
    refine ⟨by rw [e1, h2]; exact (by decide : (-L_ENOENT : Int) < 0), e2, fun hreq => ?_⟩
    rw [winfs_open_requests, open_file_requests, hname] at hreq
    exact absurd rfl hreq
  | some nd =>
    obtain ⟨name, d⟩ := nd
    have hl1 : ((winfs_open V H conv host mp pathname flags internal_flags mode fp_null
        target_null buflen).host.lookup name).isSome = true := by
      rw [winfs_open_host_lookup, open_file_host, hname]
      exact NtCreateFile_create_lookup host
        (open_file_request name _ _ _ _) (winfs_open_args_excl V flags internal_flags fp_null hexcl)
    have hcol := NtCreateFile_create_collision
      (winfs_open V H conv host mp pathname flags internal_flags mode fp_null target_null
        buflen).host
      (open_file_request name (winfs_open_args V flags2 internal_flags2 fp_null2).1
        (winfs_open_args V flags2 internal_flags2 fp_null2).2.1
        (winfs_open_args V flags2 internal_flags2 fp_null2).2.2.1
        (winfs_open_args V flags2 internal_flags2 fp_null2).2.2.2)
      (winfs_open_args_excl V flags2 internal_flags2 fp_null2 hexcl2) hl1
    have h2 := open_file_collision H conv _ mp pathname _ _ _ flags2 _ target_null2 buflen2
      name d hname hcol
    obtain ⟨e1, e2, -⟩ := winfs_open_of_negative V H conv _ mp pathname flags2 internal_flags2
      mode2 fp_null2 target_null2 buflen2 (by rw [h2]; exact (by decide : (-L_EEXIST : Int) < 0))
    exact ⟨by rw [e1, h2]; exact (by decide : (-L_EEXIST : Int) < 0), e2,
      fun _ => by rw [e1, h2]⟩

/-- A `winfs_open` that returns 0 has asked the host. -/
theorem winfs_open_requests_of_ret_zero (V : vfs_h) (H : winfs_h) (conv : Utf16Converter)
    (host : Host) (mp : mount_point) (pathname : List Nat) (flags internal_flags mode : Nat)
    (fp_null target_null : Bool) (buflen : Int)
    (h0 : (winfs_open V H conv host mp pathname flags internal_flags mode fp_null target_null
      buflen).ret = 0) :
    (winfs_open V H conv host mp pathname flags internal_flags mode fp_null target_null
      buflen).requests ≠ [] := by
  intro hreq
  rw [winfs_open_requests, open_file_requests] at hreq
  cases hname : open_file_name conv mp pathname with
  | none =>
    have h2 := open_file_of_no_name H conv host mp pathname
      (winfs_open_args V flags internal_flags fp_null).1
      (winfs_open_args V flags internal_flags fp_null).2.1
      (winfs_open_args V flags internal_flags fp_null).2.2.1 flags
      (winfs_open_args V flags internal_flags fp_null).2.2.2 target_null buflen hname
    obtain ⟨e1, -, -⟩ := winfs_open_of_negative V H conv host mp pathname flags internal_flags
      mode fp_null target_null buflen (by rw [h2]; exact (by decide : (-L_ENOENT : Int) < 0))
    rw [e1, h2] at h0
    exact absurd h0 (by decide : (-L_ENOENT : Int) ≠ 0)
  | some nd =>
    rw [hname] at hreq
    simp at hreq

/-- C10: whenever the host answers the `NtCreateFile` request of `open_file` with a name
collision, `open_file` returns `-L_EEXIST` without a handle and `winfs_open` returns
`-L_EEXIST` without a file object; and over the host namespace, in which create-new on an
existing name collides, the second of two consecutive `winfs_open` calls with `O_EXCL` on
the same path never succeeds and returns `-L_EEXIST` whenever the first call reached the
host, in particular whenever the first call returned 0. -/
theorem create_new_collision_is_eexist (V : vfs_h) (H : winfs_h) (conv : Utf16Converter)
    (host : Host) (mp : mount_point) (pathname : List Nat) (flags internal_flags mode : Nat)
    (fp_null target_null : Bool) (buflen : Int) :
    (∀ (da cd attrs : Nat) (bInherit : Bool),
      ∀ rq ∈ (open_file H conv host mp pathname da cd attrs flags bInherit target_null
          buflen).requests,
        (NtCreateFile host rq).1 = STATUS_OBJECT_NAME_COLLISION →
        (open_file H conv host mp pathname da cd attrs flags bInherit target_null buflen).ret
          = -L_EEXIST ∧
        (open_file H conv host mp pathname da cd attrs flags bInherit target_null buflen).hFile
          = none) ∧
    (∀ rq ∈ (winfs_open V H conv host mp pathname flags internal_flags mode fp_null target_null
          buflen).requests,
        (NtCreateFile host rq).1 = STATUS_OBJECT_NAME_COLLISION →
        (winfs_open V H conv host mp pathname flags internal_flags mode fp_null target_null
          buflen).ret = -L_EEXIST ∧
        (winfs_open V H conv host mp pathname flags internal_flags mode fp_null target_null
          buflen).fp = none) ∧
    (has_flag flags O_EXCL = true →
      ∀ (flags2 internal_flags2 mode2 : Nat) (fp_null2 target_null2 : Bool) (buflen2 : Int),
        has_flag flags2 O_EXCL = true →
        (winfs_open V H conv
          (winfs_open V H conv host mp pathname flags internal_flags mode fp_null target_null
            buflen).host
          mp pathname flags2 internal_flags2 mode2 fp_null2 target_null2 buflen2).ret < 0 ∧
        (winfs_open V H conv
          (winfs_open V H conv host mp pathname flags internal_flags mode fp_null target_null
            buflen).host
          mp pathname flags2 internal_flags2 mode2 fp_null2 target_null2 buflen2).fp = none ∧
        ((winfs_open V H conv host mp pathname flags internal_flags mode fp_null target_null
            buflen).requests ≠ [] →
          (winfs_open V H conv
            (winfs_open V H conv host mp pathname flags internal_flags mode fp_null target_null
              buflen).host
            mp pathname flags2 internal_flags2 mode2 fp_null2 target_null2 buflen2).ret
            = -L_EEXIST) ∧
        ((winfs_open V H conv host mp pathname flags internal_flags mode fp_null target_null
            buflen).ret = 0 →
          (winfs_open V H conv
            (winfs_open V H conv host mp pathname flags internal_flags mode fp_null target_null
              buflen).host
            mp pathname flags2 internal_flags2 mode2 fp_null2 target_null2 buflen2).ret
            = -L_EEXIST)) := by
  have hA : ∀ (da cd attrs : Nat) (bInherit : Bool),
      ∀ rq ∈ (open_file H conv host mp pathname da cd attrs flags bInherit target_null
          buflen).requests,
        (NtCreateFile host rq).1 = STATUS_OBJECT_NAME_COLLISION →
        (open_file H conv host mp pathname da cd attrs flags bInherit target_null buflen).ret
          = -L_EEXIST ∧
        (open_file H conv host mp pathname da cd attrs flags bInherit target_null buflen).hFile
          = none := by
    intro da cd attrs bInherit rq hrq hcol
    rw [open_file_requests] at hrq
    cases hname : open_file_name conv mp pathname with
    | none => rw [hname] at hrq; simp at hrq
    | some nd =>
      obtain ⟨name, d⟩ := nd
      rw [hname] at hrq
      simp only [List.mem_singleton] at hrq
      subst hrq
      rw [open_file_collision H conv host mp pathname da cd attrs flags bInherit target_null
        buflen name d hname hcol]
      exact ⟨rfl, rfl⟩
  refine ⟨hA, ?_, ?_⟩
  · intro rq hrq hcol
    rw [winfs_open_requests] at hrq
    have h := hA _ _ _ _ rq hrq hcol
    obtain ⟨e1, e2, -⟩ := winfs_open_of_negative V H conv host mp pathname flags internal_flags
      mode fp_null target_null buflen (by rw [h.1]; exact (by decide : (-L_EEXIST : Int) < 0))
    exact ⟨by rw [e1, h.1], e2⟩
  · intro hexcl flags2 internal_flags2 mode2 fp_null2 target_null2 buflen2 hexcl2
    obtain ⟨h1, h2, h3⟩ := winfs_open_excl_twice V H conv host mp pathname flags internal_flags
      mode fp_null target_null buflen hexcl flags2 internal_flags2 mode2 fp_null2 target_null2
      buflen2 hexcl2
    exact ⟨h1, h2, h3, fun h0 => h3 (winfs_open_requests_of_ret_zero V H conv host mp pathname
      flags internal_flags mode fp_null target_null buflen h0)⟩

/-- C10 witness: `O_WRONLY | O_CREAT | O_EXCL` on the new name `n`, twice: the first call
creates the file and returns 0, the second returns `-L_EEXIST`. -/
theorem create_new_collision_is_eexist_witness :
    has_flag (O_WRONLY ||| O_CREAT ||| O_EXCL) O_EXCL = true ∧
    (winfs_open ⟨1, 2, 4, 8⟩ ⟨[33, 60, 83, 62], [33, 60, 85, 62], 4⟩ ascii_converter []
      ⟨0, [92, 63, 63, 92, 67, 58]⟩ [110] (O_WRONLY ||| O_CREAT ||| O_EXCL) 0 0 false false
      100).ret = 0 ∧
    (winfs_open ⟨1, 2, 4, 8⟩ ⟨[33, 60, 83, 62], [33, 60, 85, 62], 4⟩ ascii_converter
      (winfs_open ⟨1, 2, 4, 8⟩ ⟨[33, 60, 83, 62], [33, 60, 85, 62], 4⟩ ascii_converter []
        ⟨0, [92, 63, 63, 92, 67, 58]⟩ [110] (O_WRONLY ||| O_CREAT ||| O_EXCL) 0 0 false false
        100).host
      ⟨0, [92, 63, 63, 92, 67, 58]⟩ [110] (O_WRONLY ||| O_CREAT ||| O_EXCL) 0 0 false false
      100).ret = -L_EEXIST :=
  ⟨by decide, by decide,
   ((create_new_collision_is_eexist ⟨1, 2, 4, 8⟩ ⟨[33, 60, 83, 62], [33, 60, 85, 62], 4⟩
      ascii_converter [] ⟨0, [92, 63, 63, 92, 67, 58]⟩ [110] (O_WRONLY ||| O_CREAT ||| O_EXCL)
      0 0 false false 100).2.2 (by decide) (O_WRONLY ||| O_CREAT ||| O_EXCL) 0 0 false false 100
      (by decide)).2.2.1 (by decide)⟩

theorem open_file_run :
    (open_file ⟨[33, 60, 83, 62], [33, 60, 85, 62], 4⟩ ascii_converter
      [([92, 63, 63, 92, 67, 58, 92, 108], { attributes := 4, content := [33, 60, 83, 62, 47, 97] })]
      ⟨0, [92, 63, 63, 92, 67, 58]⟩ [108] GENERIC_READ FILE_OPEN FILE_ATTRIBUTE_NORMAL 0 true
      false 100).ret = 1 := by
  decide

theorem patch_cr_list_run : patch_cr_list [97, 92, 13, 10, 13, 98] = [97, 32, 92, 10, 32, 98] := by
  decide

theorem winfs_read_run :
    (winfs_read true ⟨7, 100, [.data [1, 2, 3], .error], []⟩ (fun _ => 0) 10).ret = -5 := by
  decide

/-! ### Special-file codec -/

/-- Whether the sidecar lookup of a handle gives a valid record of symlink type: the test
`read_meta_file_h(hFile, &md) && md.type == MD_TYPE_SYMLINK` in terms of the decoded
record. -/
theorem is_meta_symlink_iff (h : HostFile) :
    (match read_meta_file_h h with
      | some md => md.type == MD_TYPE_SYMLINK
      | none => false) = true ↔
    (read_meta_file_h h).map metadata.type = some MD_TYPE_SYMLINK := by
  cases read_meta_file_h h with
  | none => simp
  | some md => simp

/-- The value `winfs_get_special_file_type` returns: `SPECIAL_FILE_SYMLINK_META` for a
sidecar record of symlink type, and 0 in every other case, whatever the content. -/
theorem winfs_get_special_file_type_ret (H : winfs_h) (h : HostFile) (cursor : Nat) :
    (winfs_get_special_file_type H h cursor).ret =
      if (read_meta_file_h h).map metadata.type = some MD_TYPE_SYMLINK
      then SPECIAL_FILE_SYMLINK_META else 0 := by
  unfold winfs_get_special_file_type
  simp only [is_meta_symlink_iff, memcpy, Bool.false_eq_true, if_false]
  split
  · rfl
  · cases h.ReadFile 0 H.WINFS_HEADER_MAX_LEN <;> rfl

/-- Without a sidecar record `winfs_get_special_file_type` returns 0. -/
theorem winfs_get_special_file_type_no_sidecar (H : winfs_h) (h : HostFile) (cursor : Nat)
    (hmeta : read_meta_file_h h = none) :
    (winfs_get_special_file_type H h cursor).ret = 0 := by
  rw [winfs_get_special_file_type_ret, hmeta]
  simp

/-- C11 (failing input): on the file `!<S>/a` (the symlink magic followed by a target,
system attribute, no sidecar record) and on the file `!<U>x` (the socket magic)
`winfs_get_special_file_type` returns 0, where comparison of the header read gives
`SPECIAL_FILE_SYMLINK` and `SPECIAL_FILE_SOCKET`; the reader `winfs_read_symlink_unsafe`
does recognise the first file as a symlink with a target of 2 bytes. -/
theorem special_file_detection_ignores_magic :
    (winfs_get_special_file_type ⟨[33, 60, 83, 62], [33, 60, 85, 62], 4⟩
      { attributes := 4, content := [33, 60, 83, 62, 47, 97] } 0).ret = 0 ∧
    special_file_type_by_content ⟨[33, 60, 83, 62], [33, 60, 85, 62], 4⟩
      { attributes := 4, content := [33, 60, 83, 62, 47, 97] } = SPECIAL_FILE_SYMLINK ∧
    (winfs_get_special_file_type ⟨[33, 60, 83, 62], [33, 60, 85, 62], 4⟩
      { attributes := 4, content := [33, 60, 85, 62, 120] } 0).ret = 0 ∧
    special_file_type_by_content ⟨[33, 60, 83, 62], [33, 60, 85, 62], 4⟩
      { attributes := 4, content := [33, 60, 85, 62, 120] } = SPECIAL_FILE_SOCKET ∧
    ( winfs_read_symlink_unsafe ⟨[33, 60, 83, 62], [33, 60, 85, 62], 4⟩
      { attributes := 4, content := [33, 60, 83, 62, 47, 97] } 0 false 100).ret = 2 := by
  decide

/-- C12: `read_meta_file` accepts exactly the records whose four fields were converted,
whose type character is one of `D Q C B F L S`, whose permission is at most `0xfff` and
whose identifiers are at most `0xffff`; it then yields the mapped type with the parsed
permission, uid and gid; in every other case it reports failure. -/
theorem read_meta_file_accepts_iff (m : MetaFile) :
    (∀ md : metadata, read_meta_file m = some md ↔
      ∃ t p u g, m = .record t p u g ∧ p ≤ 0xfff ∧ u ≤ 0xffff ∧ g ≤ 0xffff ∧
        md.perm = p ∧ md.uid = u ∧ md.gid = g ∧
        ((t = 'D'.toNat ∧ md.type = MD_TYPE_DIRECTORY) ∨
         (t = 'Q'.toNat ∧ md.type = MD_TYPE_FIFO) ∨
         (t = 'C'.toNat ∧ md.type = MD_TYPE_CHAR_DEV) ∨
         (t = 'B'.toNat ∧ md.type = MD_TYPE_BLOCK_DEV) ∨
         (t = 'F'.toNat ∧ md.type = MD_TYPE_FILE) ∨
         (t = 'L'.toNat ∧ md.type = MD_TYPE_SYMLINK) ∨
         (t = 'S'.toNat ∧ md.type = MD_TYPE_SOCKET))) ∧
    (read_meta_file m = none ↔
      ¬ ∃ t p u g, m = .record t p u g ∧ p ≤ 0xfff ∧ u ≤ 0xffff ∧ g ≤ 0xffff ∧
        (t = 'D'.toNat ∨ t = 'Q'.toNat ∨ t = 'C'.toNat ∨ t = 'B'.toNat ∨ t = 'F'.toNat ∨
          t = 'L'.toNat ∨ t = 'S'.toNat)) := by
  have hD : 'D'.toNat = 68 := by decide
  have hQ : 'Q'.toNat = 81 := by decide
  have hC : 'C'.toNat = 67 := by decide
  have hB : 'B'.toNat = 66 := by decide
  have hF : 'F'.toNat = 70 := by decide
  have hL : 'L'.toNat = 76 := by decide
  have hS : 'S'.toNat = 83 := by decide
  rw [hD, hQ, hC, hB, hF, hL, hS]
  cases m with
  | absent => simp [read_meta_file]
  | unparsable => simp [read_meta_file]
  | record t p u g =>
    have key : ∀ ty : Nat,
        (if p > 0xfff ∨ u > 0xffff ∨ g > 0xffff then (none : Option metadata)
          else some ⟨ty, p, u, g⟩) =
        if p ≤ 0xfff ∧ u ≤ 0xffff ∧ g ≤ 0xffff then some ⟨ty, p, u, g⟩ else none := by
      intro ty
      by_cases h1 : p ≤ 0xfff ∧ u ≤ 0xffff ∧ g ≤ 0xffff
      · rw [if_pos h1, if_neg (by omega)]
      · rw [if_neg h1, if_pos (by omega)]
    constructor
    · intro md
      simp only [read_meta_file, hD, hQ, hC, hB, hF, hL, hS, MetaFile.record.injEq]
      constructor
      · intro hm
        refine ⟨t, p, u, g, ⟨rfl, rfl, rfl, rfl⟩, ?_⟩
        split at hm
        · exact absurd hm (by simp)
        · rename_i ty hty
          rw [key] at hm
          split at hm
          · rename_i hr
            have hmd : md = ⟨ty, p, u, g⟩ := (Option.some.inj hm).symm
            subst hmd
            refine ⟨hr.1, hr.2.1, hr.2.2, rfl, rfl, rfl, ?_⟩
            simp only
            split_ifs at hty with a b c d e f g0 <;>
              simp only [Option.some.injEq, reduceCtorEq] at hty <;> subst hty <;> simp [*]
          · exact absurd hm (by simp)
      · rintro ⟨t', p', u', g', ⟨rfl, rfl, rfl, rfl⟩, hp, hu, hg, e1, e2, e3, ht⟩
        cases md with
        | mk ty mp mu mg =>
          simp only at e1 e2 e3 ht
          subst e1 e2 e3
          rcases ht with ⟨rfl, e⟩ | ⟨rfl, e⟩ | ⟨rfl, e⟩ | ⟨rfl, e⟩ | ⟨rfl, e⟩ | ⟨rfl, e⟩ |
            ⟨rfl, e⟩ <;>
            (subst e; simp [key, hp, hu, hg])
    · simp only [read_meta_file, hD, hQ, hC, hB, hF, hL, hS, MetaFile.record.injEq]
      constructor
      · intro hm
        rintro ⟨t', p', u', g', ⟨rfl, rfl, rfl, rfl⟩, hp, hu, hg, ht⟩
        rcases ht with rfl | rfl | rfl | rfl | rfl | rfl | rfl <;>
          simp [key, hp, hu, hg] at hm
      · intro hn
        split
        · rfl
        · rename_i ty hty
          rw [key]
          split
          · rename_i hr
            exfalso
            apply hn
            refine ⟨t, p, u, g, ⟨rfl, rfl, rfl, rfl⟩, hr.1, hr.2.1, hr.2.2, ?_⟩
            split_ifs at hty with a b c d e f g0 <;> simp_all
          · rfl

/-- C12 witness: the record `L 777 1000:1000` is accepted as a symlink with permission
`0777`, uid 1000 and gid 1000. -/
theorem read_meta_file_accepts_iff_witness :
    read_meta_file (.record 'L'.toNat 0o777 1000 1000) = some ⟨MD_TYPE_SYMLINK, 0o777, 1000, 1000⟩ :=
  ((read_meta_file_accepts_iff (.record 'L'.toNat 0o777 1000 1000)).1
    ⟨MD_TYPE_SYMLINK, 0o777, 1000, 1000⟩).mpr
    ⟨'L'.toNat, 0o777, 1000, 1000, rfl, by decide, by decide, by decide, rfl, rfl, rfl,
      Or.inr (Or.inr (Or.inr (Or.inr (Or.inr (Or.inl ⟨rfl, rfl⟩)))))⟩

/-- A sidecar record that does not name the symlink type plays no part in the codec:
detection and the reader give the results they give without any sidecar record. -/
theorem codec_ignores_sidecar (H : winfs_h) (h : HostFile) (cursor : Nat)
    (target_null : Bool) (buflen : Int)
    (hmeta : (read_meta_file_h h).map metadata.type ≠ some MD_TYPE_SYMLINK) :
    winfs_get_special_file_type H h cursor =
      winfs_get_special_file_type H { h with meta := .absent } cursor ∧
    winfs_read_symlink_unsafe H h cursor target_null buflen =
      winfs_read_symlink_unsafe H { h with meta := .absent } cursor target_null buflen := by
  have h2 : (read_meta_file_h { h with meta := .absent }).map metadata.type
      ≠ some MD_TYPE_SYMLINK := by
    unfold read_meta_file_h
    split <;> simp [read_meta_file]
  constructor
  · unfold winfs_get_special_file_type
    simp only [is_meta_symlink_iff]
    rw [if_neg hmeta, if_neg h2]
    rfl
  · unfold winfs_read_symlink_unsafe
    simp only [is_meta_symlink_iff]
    rw [if_neg hmeta, if_neg h2]
    rfl

theorem read_meta_file_h_eq_none (h : HostFile) (hbad : read_meta_file h.meta = none) :
    read_meta_file_h h = none := by
  unfold read_meta_file_h
  split
  · rfl
  · exact hbad

/-- C13 (counterexample): a handle whose sidecar record is malformed (unparsable, unknown
type tag `X`, or permission `0x1000` out of range) gets from detection exactly the result
of the same file without a sidecar record, the value 0 of a regular file, with the header
read from the content; and the reader goes on to in-band inspection and finds the symlink
`!<S>/a` written in the content.  The file `hi` with an unparsable sidecar record, whose
content begins with no magic sequence, gets the value 0 as well. -/
theorem malformed_sidecar_is_not_a_decode_error :
    winfs_get_special_file_type ⟨[33, 60, 83, 62], [33, 60, 85, 62], 4⟩
      { attributes := 4, content := [33, 60, 83, 62, 47, 97], meta := .unparsable } 0
      = winfs_get_special_file_type ⟨[33, 60, 83, 62], [33, 60, 85, 62], 4⟩
        { attributes := 4, content := [33, 60, 83, 62, 47, 97] } 0 ∧
    (winfs_get_special_file_type ⟨[33, 60, 83, 62], [33, 60, 85, 62], 4⟩
      { attributes := 4, content := [33, 60, 83, 62, 47, 97], meta := .unparsable } 0).ret = 0 ∧
    (winfs_get_special_file_type ⟨[33, 60, 83, 62], [33, 60, 85, 62], 4⟩
      { attributes := 4, content := [33, 60, 83, 62, 47, 97],
        meta := .record 'X'.toNat 0o644 0 0 } 0).ret = 0 ∧
    (winfs_get_special_file_type ⟨[33, 60, 83, 62], [33, 60, 85, 62], 4⟩
      { attributes := 4, content := [33, 60, 83, 62, 47, 97],
        meta := .record 'L'.toNat 0x1000 0 0 } 0).ret = 0 ∧
    ( winfs_read_symlink_unsafe ⟨[33, 60, 83, 62], [33, 60, 85, 62], 4⟩
      { attributes := 4, content := [33, 60, 83, 62, 47, 97], meta := .unparsable }
      0 false 100).ret = 2 ∧
    (winfs_get_special_file_type ⟨[33, 60, 83, 62], [33, 60, 85, 62], 4⟩
      { attributes := 4, content := [104, 105], meta := .unparsable } 0).ret = 0 := by
  decide

/-- C13 (amended): a sidecar record that `read_meta_file` rejects is treated exactly like
an absent one: `read_meta_file_h` reports the failure it reports for an absent record,
and detection and the reader return what they return for the same file without a sidecar
record (they go on to inspect the content).  No result stands for a decode error. -/
theorem malformed_sidecar_is_treated_as_absent (H : winfs_h) (h : HostFile) (cursor : Nat)
    (target_null : Bool) (buflen : Int) (hbad : read_meta_file h.meta = none) :
    winfs_get_special_file_type H h cursor =
      winfs_get_special_file_type H { h with meta := .absent } cursor ∧
    winfs_read_symlink_unsafe H h cursor target_null buflen =
      winfs_read_symlink_unsafe H { h with meta := .absent } cursor target_null buflen ∧
    read_meta_file_h h = none ∧
    read_meta_file_h { h with meta := .absent } = none := by
  have hn := read_meta_file_h_eq_none h hbad
  have hmeta : (read_meta_file_h h).map metadata.type ≠ some MD_TYPE_SYMLINK := by
    rw [hn]; simp
  exact ⟨(codec_ignores_sidecar H h cursor target_null buflen hmeta).1,
    (codec_ignores_sidecar H h cursor target_null buflen hmeta).2,
    hn, read_meta_file_h_eq_none _ rfl⟩

/-- C13 witness: the file `!<S>/a` with an unparsable sidecar record. -/
theorem malformed_sidecar_is_treated_as_absent_witness :
    read_meta_file (MetaFile.unparsable) = none ∧
    ( winfs_read_symlink_unsafe ⟨[33, 60, 83, 62], [33, 60, 85, 62], 4⟩
      { attributes := 4, content := [33, 60, 83, 62, 47, 97], meta := .unparsable }
      0 false 100) =
    ( winfs_read_symlink_unsafe ⟨[33, 60, 83, 62], [33, 60, 85, 62], 4⟩
      { attributes := 4, content := [33, 60, 83, 62, 47, 97], meta := .absent }
      0 false 100) :=
  ⟨by decide,
   (malformed_sidecar_is_treated_as_absent ⟨[33, 60, 83, 62], [33, 60, 85, 62], 4⟩
      { attributes := 4, content := [33, 60, 83, 62, 47, 97], meta := .unparsable }
      0 false 100 (by decide)).2.1⟩

/-- C14 (counterexample): the file `!<S>/a` with the valid sidecar record `F 644 0:0`
(a regular file): the reader returns the target length 2, not 0, and `open_file` returns 1
(redirect); and a file with the valid sidecar record `S 644 0:0` (a socket) and ordinary
content is given type 0 by detection, not the socket type. -/
theorem regular_sidecar_does_not_stop_inband_symlink :
    read_meta_file_h
      { attributes := 4, content := [33, 60, 83, 62, 47, 97],
        meta := .record 'F'.toNat 0o644 0 0 } = some ⟨MD_TYPE_FILE, 0o644, 0, 0⟩ ∧
    ( winfs_read_symlink_unsafe ⟨[33, 60, 83, 62], [33, 60, 85, 62], 4⟩
      { attributes := 4, content := [33, 60, 83, 62, 47, 97],
        meta := .record 'F'.toNat 0o644 0 0 } 0 false 100).ret = 2 ∧
    (open_file ⟨[33, 60, 83, 62], [33, 60, 85, 62], 4⟩ ascii_converter
      [([92, 63, 63, 92, 67, 58, 92, 108],
        { attributes := 4, content := [33, 60, 83, 62, 47, 97],
          meta := .record 'F'.toNat 0o644 0 0 })]
      ⟨0, [92, 63, 63, 92, 67, 58]⟩ [108] GENERIC_READ FILE_OPEN FILE_ATTRIBUTE_NORMAL 0 true
      false 100).ret = 1 ∧
    read_meta_file_h
      { attributes := 4, content := [104, 105],
        meta := .record 'S'.toNat 0o644 0 0 } = some ⟨MD_TYPE_SOCKET, 0o644, 0, 0⟩ ∧
    (winfs_get_special_file_type ⟨[33, 60, 83, 62], [33, 60, 85, 62], 4⟩
      { attributes := 4, content := [104, 105], meta := .record 'S'.toNat 0o644 0 0 } 0).ret
      = 0 := by
  decide

/-- What `open_file` returns and stores for a file the host has opened does not depend on
a sidecar record that does not name the symlink type. -/
theorem open_file_opened_ignores_sidecar (H : winfs_h) (rq : CreateRequest) (h : HostFile)
    (flags : Nat) (target_null : Bool) (buflen : Int)
    (hmeta : (read_meta_file_h h).map metadata.type ≠ some MD_TYPE_SYMLINK) :
    (open_file_opened H rq h flags target_null buflen).1 =
      (open_file_opened H rq { h with meta := .absent } flags target_null buflen).1 ∧
    (open_file_opened H rq h flags target_null buflen).2.2.1 =
      (open_file_opened H rq { h with meta := .absent } flags target_null buflen).2.2.1 := by
  have e := (codec_ignores_sidecar H h 0 target_null buflen hmeta).2
  unfold open_file_opened
  simp only [e]
  split_ifs <;> exact ⟨rfl, rfl⟩

/-- C14 (amended): for a handle with a valid sidecar record, the record decides only when
it names the symlink type: detection then returns `SPECIAL_FILE_SYMLINK_META` and the
reader does not look for a magic sequence (its result is the same for every pair of magic
sequences); a record naming any other type is ignored: detection, the reader and the
value `open_file` returns for the opened file (1 for a redirect) are those of the same file
without a sidecar record. -/
theorem sidecar_priority_only_for_symlink (H : winfs_h) (h : HostFile) (md : metadata)
    (cursor : Nat) (target_null : Bool) (buflen : Int) (hmd : read_meta_file_h h = some md) :
    (md.type = MD_TYPE_SYMLINK →
      (winfs_get_special_file_type H h cursor).ret = SPECIAL_FILE_SYMLINK_META ∧
      ∀ H2 : winfs_h, winfs_read_symlink_unsafe H h cursor target_null buflen =
        winfs_read_symlink_unsafe H2 h cursor target_null buflen) ∧
    (md.type ≠ MD_TYPE_SYMLINK →
      winfs_get_special_file_type H h cursor =
        winfs_get_special_file_type H { h with meta := .absent } cursor ∧
      winfs_read_symlink_unsafe H h cursor target_null buflen =
        winfs_read_symlink_unsafe H { h with meta := .absent } cursor target_null buflen ∧
      ∀ (rq : CreateRequest) (flags : Nat),
        (open_file_opened H rq h flags target_null buflen).1 =
          (open_file_opened H rq { h with meta := .absent } flags target_null buflen).1) := by
  constructor
  · intro ht
    have hmeta : (read_meta_file_h h).map metadata.type = some MD_TYPE_SYMLINK := by
      rw [hmd]; simp [ht]
    constructor
    · rw [winfs_get_special_file_type_ret, if_pos hmeta]
    · intro H2
      unfold winfs_read_symlink_unsafe
      simp only [is_meta_symlink_iff]
      rw [if_pos hmeta, if_pos hmeta]
  · intro ht
    have hmeta : (read_meta_file_h h).map metadata.type ≠ some MD_TYPE_SYMLINK := by
      rw [hmd]; simpa using ht
    exact ⟨(codec_ignores_sidecar H h cursor target_null buflen hmeta).1,
      (codec_ignores_sidecar H h cursor target_null buflen hmeta).2,
      fun rq flags => (open_file_opened_ignores_sidecar H rq h flags target_null buflen hmeta).1⟩

/-- C14 witness: the file `!<S>/a` with the sidecar record `F 644 0:0`. -/
theorem sidecar_priority_only_for_symlink_witness :
    read_meta_file_h
      { attributes := 4, content := [33, 60, 83, 62, 47, 97],
        meta := .record 'F'.toNat 0o644 0 0 } = some ⟨MD_TYPE_FILE, 0o644, 0, 0⟩ ∧
    ( winfs_read_symlink_unsafe ⟨[33, 60, 83, 62], [33, 60, 85, 62], 4⟩
      { attributes := 4, content := [33, 60, 83, 62, 47, 97],
        meta := .record 'F'.toNat 0o644 0 0 } 0 false 100) =
    ( winfs_read_symlink_unsafe ⟨[33, 60, 83, 62], [33, 60, 85, 62], 4⟩
      { attributes := 4, content := [33, 60, 83, 62, 47, 97], meta := .absent } 0 false 100) :=
  ⟨by decide,
   ((sidecar_priority_only_for_symlink ⟨[33, 60, 83, 62], [33, 60, 85, 62], 4⟩
      { attributes := 4, content := [33, 60, 83, 62, 47, 97],
        meta := .record 'F'.toNat 0o644 0 0 } ⟨MD_TYPE_FILE, 0o644, 0, 0⟩ 0 false 100
      (by decide)).2 (by decide)).2.1⟩

theorem dword_of_int_natCast (c : Nat) (hc : c < 4294967296) : dword_of_int (c : Int) = c := by
  unfold dword_of_int
  omega

theorem int_of_dword_small (n : Nat) (hn : n < 2147483648) : int_of_dword n = (n : Int) := by
  unfold int_of_dword
  have h1 : n % 4294967296 = n := Nat.mod_eq_of_lt (by omega)
  rw [h1, if_pos hn]

theorem HostFile.ReadFile_eq (h : HostFile) (hread : h.read_ok = true) (off len : Nat)
    (hlt : off < h.content.length) :
    h.ReadFile off len = some ((h.content.drop off).take len) := by
  unfold HostFile.ReadFile
  rw [hread]
  simp only [Bool.not_true, Bool.false_eq_true, if_false]
  rw [if_neg (by omega)]

theorem natCast_beq_zero (c : Nat) (hc : 0 < c) : ((c : Int) == 0) = false := by
  have : (c : Int) ≠ 0 := by omega
  simpa using this

/-- The reader on a sidecar symlink asked for the length only: the file size when it is
below `PATH_MAX`, else 0. -/
theorem read_symlink_sidecar_size (H : winfs_h) (h : HostFile) (cursor : Nat)
    (target_null : Bool) (hsize : h.size_ok = true)
    (hm : (read_meta_file_h h).map metadata.type = some MD_TYPE_SYMLINK) :
    winfs_read_symlink_unsafe H h cursor target_null 0 =
      if PATH_MAX ≤ h.content.length then ⟨0, [], cursor⟩
      else ⟨h.content.length, [], cursor⟩ := by
  unfold winfs_read_symlink_unsafe
  simp only [is_meta_symlink_iff]
  rw [if_pos hm]
  have h0 : ((0 : Int) == 0) = true := by decide
  simp only [h0, Bool.or_true, if_true, hsize, Bool.not_true, Bool.false_or,
    decide_eq_true_eq]

/-- The reader on a sidecar symlink with a non-empty content and a capacity `c > 0`. -/
theorem read_symlink_sidecar_copy (H : winfs_h) (h : HostFile) (cursor : Nat)
    (hread : h.read_ok = true)
    (hm : (read_meta_file_h h).map metadata.type = some MD_TYPE_SYMLINK)
    (c : Nat) (hc0 : 0 < c) (hc : c < 2147483648) (hne : h.content ≠ []) :
    winfs_read_symlink_unsafe H h cursor false c =
      ⟨(min c h.content.length : Nat),
        memcpy_stores 0 (h.content.take c) ++ [(min c h.content.length, 0)],
        min c h.content.length⟩ := by
  have hpos : 0 < h.content.length := List.length_pos.mpr hne
  unfold winfs_read_symlink_unsafe
  simp only [is_meta_symlink_iff]
  rw [if_pos hm]
  simp only [natCast_beq_zero c hc0, Bool.or_false, Bool.false_eq_true, if_false]
  rw [dword_of_int_natCast c (by omega), HostFile.ReadFile_eq h hread 0 c hpos]
  simp only [List.drop_zero, List.length_take]
  rw [int_of_dword_small _ (by omega)]

/-- The reader on an in-band symlink asked for the length only: the length of the content
after the magic header when it is below `PATH_MAX`, else 0. -/
theorem read_symlink_inband_size (H : winfs_h) (h : HostFile) (cursor : Nat)
    (target_null : Bool) (hread : h.read_ok = true) (hsize : h.size_ok = true)
    (hm : (read_meta_file_h h).map metadata.type ≠ some MD_TYPE_SYMLINK)
    (t : List Nat) (ht : h.content = H.WINFS_SYMLINK_HEADER ++ t) :
    ( winfs_read_symlink_unsafe H h cursor target_null 0).ret =
      (if PATH_MAX ≤ t.length then 0 else (t.length : Int)) ∧
    ( winfs_read_symlink_unsafe H h cursor target_null 0).target = [] := by
  unfold winfs_read_symlink_unsafe
  simp only [is_meta_symlink_iff]
  rw [if_neg hm]
  have h0 : ((0 : Int) == 0) = true := by decide
  by_cases hc : h.content = []
  · have ht0 : t = [] := by
      rw [hc] at ht
      exact (List.append_eq_nil.mp ht.symm).2
    have hr : h.ReadFile 0 H.WINFS_SYMLINK_HEADER_LEN = none := by
      unfold HostFile.ReadFile
      simp [hc]
    rw [hr, ht0]
    refine ⟨?_, rfl⟩
    simp
  · have hpos : 0 < h.content.length := List.length_pos.mpr hc
    rw [HostFile.ReadFile_eq h hread 0 _ hpos]
    have htake : (h.content.drop 0).take H.WINFS_SYMLINK_HEADER_LEN = H.WINFS_SYMLINK_HEADER := by
      rw [ht]
      simp [winfs_h.WINFS_SYMLINK_HEADER_LEN]
    simp only [htake]
    have hl : h.content.length - H.WINFS_SYMLINK_HEADER_LEN = t.length := by
      rw [ht]
      simp [winfs_h.WINFS_SYMLINK_HEADER_LEN]
    rw [if_neg (by simp [winfs_h.WINFS_SYMLINK_HEADER_LEN]), if_neg (by simp)]
    simp only [h0, Bool.or_true, if_true, hsize, Bool.not_true, Bool.false_or,
      decide_eq_true_eq, hl]
    split <;> exact ⟨rfl, rfl⟩

/-- The reader on an in-band symlink with a non-empty target and a capacity `c > 0`. -/
theorem read_symlink_inband_copy (H : winfs_h) (h : HostFile) (cursor : Nat)
    (hread : h.read_ok = true)
    (hm : (read_meta_file_h h).map metadata.type ≠ some MD_TYPE_SYMLINK)
    (t : List Nat) (ht : h.content = H.WINFS_SYMLINK_HEADER ++ t)
    (c : Nat) (hc0 : 0 < c) (hc : c < 2147483648) (hne : t ≠ []) :
    ( winfs_read_symlink_unsafe H h cursor false c).ret = (min c t.length : Nat) ∧
    ( winfs_read_symlink_unsafe H h cursor false c).target =
      memcpy_stores 0 (t.take c) ++ [(min c t.length, 0)] := by
  have htpos : 0 < t.length := List.length_pos.mpr hne
  have hlen : h.content.length = H.WINFS_SYMLINK_HEADER_LEN + t.length := by
    rw [ht]
    simp [winfs_h.WINFS_SYMLINK_HEADER_LEN]
  unfold winfs_read_symlink_unsafe
  simp only [is_meta_symlink_iff]
  rw [if_neg hm]
  rw [HostFile.ReadFile_eq h hread 0 _ (by omega)]
  have htake : (h.content.drop 0).take H.WINFS_SYMLINK_HEADER_LEN = H.WINFS_SYMLINK_HEADER := by
    rw [ht]
    simp [winfs_h.WINFS_SYMLINK_HEADER_LEN]
  simp only [htake]
  rw [if_neg (by simp [winfs_h.WINFS_SYMLINK_HEADER_LEN]), if_neg (by simp)]
  simp only [natCast_beq_zero c hc0, Bool.or_false, Bool.false_eq_true, if_false]
  rw [dword_of_int_natCast c (by omega),
    HostFile.ReadFile_eq h hread _ c (by omega)]
  have hdrop : h.content.drop H.WINFS_SYMLINK_HEADER_LEN = t := by
    rw [ht]
    simp [winfs_h.WINFS_SYMLINK_HEADER_LEN]
  simp only [hdrop, List.length_take]
  exact ⟨int_of_dword_small _ (by omega), trivial⟩

/-- C15 (counterexample): a file of 4096 bytes whose sidecar record names the symlink
type: with capacity 0 the reader returns 0, not the target length 4096, while with
capacity 4096 it copies the 4096 bytes and returns 4096. -/
theorem read_symlink_target_length_zero_at_path_max :
    ( winfs_read_symlink_unsafe ⟨[33, 60, 83, 62], [33, 60, 85, 62], 4⟩
      { attributes := 4, content := List.replicate 4096 97,
        meta := .record 'L'.toNat 0o777 0 0 } 0 false 0).ret = 0 ∧
    ( winfs_read_symlink_unsafe ⟨[33, 60, 83, 62], [33, 60, 85, 62], 4⟩
      { attributes := 4, content := List.replicate 4096 97,
        meta := .record 'L'.toNat 0o777 0 0 } 0 false (4096 : Nat)).ret = 4096 := by
  have hm : (read_meta_file_h
      { attributes := 4, content := List.replicate 4096 97,
        meta := .record 'L'.toNat 0o777 0 0 }).map metadata.type = some MD_TYPE_SYMLINK := by
    decide
  have hlen : (List.replicate 4096 97).length = 4096 := List.length_replicate 4096 97
  constructor
  · rw [read_symlink_sidecar_size _ _ _ _ rfl hm]
    show (if PATH_MAX ≤ (List.replicate 4096 97).length then (⟨0, [], 0⟩ : SymlinkResult)
      else ⟨(List.replicate 4096 97).length, [], 0⟩).ret = 0
    rw [hlen, if_pos (by decide)]
  · rw [read_symlink_sidecar_copy _ _ _ rfl hm 4096 (by decide) (by decide)
      (List.ne_nil_of_length_pos (by rw [hlen]; decide))]
    show ((min 4096 (List.replicate 4096 97).length : Nat) : Int) = 4096
    rw [hlen]
    rfl

/-- C15 (amended): `winfs_read_symlink_unsafe` on a handle whose host reads succeed.
Sidecar symlink, target = whole content; in-band symlink, target = content after the magic
header.  With capacity 0 it returns the target length when that is below `PATH_MAX`, else
0, and stores nothing; with a capacity `c > 0` and a non-empty target it stores the first
`min c |target|` target bytes, a NUL after them, and returns `min c |target|`.  On a
handle that is a symlink by neither encoding it returns 0 and stores nothing. -/
theorem read_symlink_target_contract (H : winfs_h) (h : HostFile) (cursor : Nat)
    (hread : h.read_ok = true) (hsize : h.size_ok = true) :
    ((read_meta_file_h h).map metadata.type = some MD_TYPE_SYMLINK →
      (∀ target_null : Bool,
        ( winfs_read_symlink_unsafe H h cursor target_null 0).ret =
          (if PATH_MAX ≤ h.content.length then 0 else (h.content.length : Int)) ∧
        ( winfs_read_symlink_unsafe H h cursor target_null 0).target = []) ∧
      (∀ c : Nat, 0 < c → c < 2147483648 → h.content ≠ [] →
        ( winfs_read_symlink_unsafe H h cursor false c).ret = (min c h.content.length : Nat) ∧
        ( winfs_read_symlink_unsafe H h cursor false c).target =
          memcpy_stores 0 (h.content.take c) ++ [(min c h.content.length, 0)])) ∧
    ((read_meta_file_h h).map metadata.type ≠ some MD_TYPE_SYMLINK →
      ∀ t : List Nat, h.content = H.WINFS_SYMLINK_HEADER ++ t →
      (∀ target_null : Bool,
        ( winfs_read_symlink_unsafe H h cursor target_null 0).ret =
          (if PATH_MAX ≤ t.length then 0 else (t.length : Int)) ∧
        ( winfs_read_symlink_unsafe H h cursor target_null 0).target = []) ∧
      (∀ c : Nat, 0 < c → c < 2147483648 → t ≠ [] →
        ( winfs_read_symlink_unsafe H h cursor false c).ret = (min c t.length : Nat) ∧
        ( winfs_read_symlink_unsafe H h cursor false c).target =
          memcpy_stores 0 (t.take c) ++ [(min c t.length, 0)])) ∧
    ((read_meta_file_h h).map metadata.type ≠ some MD_TYPE_SYMLINK →
      h.content.take H.WINFS_SYMLINK_HEADER_LEN ≠ H.WINFS_SYMLINK_HEADER →
      ∀ (target_null : Bool) (buflen : Int),
        ( winfs_read_symlink_unsafe H h cursor target_null buflen).ret = 0 ∧
        ( winfs_read_symlink_unsafe H h cursor target_null buflen).target = []) := by
  refine ⟨fun hm => ⟨?_, ?_⟩, fun hm t ht => ⟨?_, ?_⟩, fun hm hne tn buflen => ?_⟩
  · intro tn
    rw [read_symlink_sidecar_size H h cursor tn hsize hm]
    split <;> exact ⟨rfl, rfl⟩
  · intro c hc0 hc hne
    rw [read_symlink_sidecar_copy H h cursor hread hm c hc0 hc hne]
    exact ⟨rfl, rfl⟩
  · intro tn
    exact read_symlink_inband_size H h cursor tn hread hsize hm t ht
  · intro c hc0 hc hne
    exact read_symlink_inband_copy H h cursor hread hm t ht c hc0 hc hne
  · unfold winfs_read_symlink_unsafe
    simp only [is_meta_symlink_iff]
    rw [if_neg hm]
    cases hr : h.ReadFile 0 H.WINFS_SYMLINK_HEADER_LEN with
    | none => exact ⟨rfl, rfl⟩
    | some header =>
      simp only
      have hh : header = h.content.take H.WINFS_SYMLINK_HEADER_LEN := by
        unfold HostFile.ReadFile at hr
        split at hr
        · simp at hr
        · split at hr
          · simp at hr
          · simpa using hr.symm
      split
      · exact ⟨rfl, rfl⟩
      · rw [if_pos (by rw [hh]; exact hne)]
        exact ⟨rfl, rfl⟩

/-- C15 witness: the in-band symlink `!<S>/a`, whose host reads succeed: capacity 0
gives the length 2, capacity 1 copies one byte and a NUL. -/
theorem read_symlink_target_contract_witness :
    ( winfs_read_symlink_unsafe ⟨[33, 60, 83, 62], [33, 60, 85, 62], 4⟩
      { attributes := 4, content := [33, 60, 83, 62, 47, 97] } 0 false 0).ret =
      (if PATH_MAX ≤ [47, 97].length then 0 else ([47, 97].length : Int)) ∧
    ( winfs_read_symlink_unsafe ⟨[33, 60, 83, 62], [33, 60, 85, 62], 4⟩
      { attributes := 4, content := [33, 60, 83, 62, 47, 97] } 0 false (1 : Nat)).target
      = [(0, 47), (1, 0)] :=
  ⟨(((read_symlink_target_contract ⟨[33, 60, 83, 62], [33, 60, 85, 62], 4⟩
      { attributes := 4, content := [33, 60, 83, 62, 47, 97] } 0 rfl rfl).2.1 (by decide)
      [47, 97] rfl).1 false).1,
   (((read_symlink_target_contract ⟨[33, 60, 83, 62], [33, 60, 85, 62], 4⟩
      { attributes := 4, content := [33, 60, 83, 62, 47, 97] } 0 rfl rfl).2.1 (by decide)
      [47, 97] rfl).2 1 (by decide) (by decide) (by decide)).2⟩

theorem strlen_eq_length (t : List Nat) (h : 0 ∉ t) : strlen t = t.length := by
  unfold strlen
  induction t with
  | nil => rfl
  | cons x xs ih =>
    have hx : x ≠ 0 := fun e => h (by simp [e])
    have hxs : 0 ∉ xs := fun e => h (by simp [e])
    have hb : (x != 0) = true := by simpa using hx
    simp only [List.takeWhile, hb, List.length_cons, ih hxs]

/-- A host `WriteFile` that neither fails nor comes short has written the whole buffer at
the file pointer. -/
theorem Host.WriteFile_full (host : Host) (name : List Nat) (cursor : Nat) (buf : List Nat)
    (a : WriteAnswer)
    (h : (!(host.WriteFile name cursor buf buf.length a).1 ||
      decide ((host.WriteFile name cursor buf buf.length a).2.1 < buf.length)) = false) :
    host.WriteFile name cursor buf buf.length a = (true, buf.length,
      host.map (fun e =>
        if e.1 = name then (e.1, { e.2 with content := write_at e.2.content cursor buf })
        else e)) := by
  cases a with
  | error => simp [Host.WriteFile] at h
  | accepted n =>
    simp only [Host.WriteFile, Bool.not_true, Bool.false_or, decide_eq_false_iff_not,
      List.length_take, not_lt] at h
    have hn : min n buf.length = buf.length := by omega
    simp only [Host.WriteFile, hn, List.take_length]

theorem map_eq_self_of_lookup_none (host : Host) (name : List Nat)
    (F : List Nat × HostFile → List Nat × HostFile)
    (h : host.lookup name = none) (hF : ∀ e, e.1 ≠ name → F e = e) :
    host.map F = host := by
  induction host with
  | nil => rfl
  | cons e rest ih =>
    obtain ⟨k, v⟩ := e
    simp only [List.lookup] at h
    split at h
    · exact absurd h (by simp)
    · rename_i hk
      have hne : k ≠ name := by
        intro e
        rw [e] at hk
        simp at hk
      simp only [List.map, hF (k, v) hne, ih h]

theorem write_at_nil_zero (buf : List Nat) : write_at [] 0 buf = buf := by
  simp [write_at]

theorem write_at_end (a b : List Nat) : write_at a a.length b = a ++ b := by
  simp [write_at]

/-- What a successful `winfs_symlink` has done: the name was free, and the namespace
afterwards is the one before with a new file of attribute `FILE_ATTRIBUTE_SYSTEM` whose
content is the magic header followed by the target. -/
theorem winfs_symlink_success (H : winfs_h) (conv : Utf16Converter) (host : Host)
    (mp : mount_point) (t linkpath : List Nat) (w1 w2 : WriteAnswer)
    (hnul : 0 ∉ t) (hlen : t.length < PATH_MAX)
    (hret : (winfs_symlink H conv host mp t linkpath w1 w2).ret = 0) :
    ∃ name, host.lookup name = none ∧
      (winfs_symlink H conv host mp t linkpath w1 w2).host =
        (name, { attributes := FILE_ATTRIBUTE_SYSTEM,
                 content := H.WINFS_SYMLINK_HEADER ++ t }) :: host ∧
      (winfs_symlink H conv host mp t linkpath w1 w2).requests =
        [⟨name, SYNCHRONIZE ||| FILE_WRITE_DATA, FILE_ATTRIBUTE_SYSTEM, FILE_CREATE,
          FILE_NON_DIRECTORY_FILE ||| FILE_SYNCHRONOUS_IO_NONALERT, false⟩] := by
  have hne1 : (-L_ENOENT : Int) ≠ 0 := by decide
  have hne2 : (-L_EEXIST : Int) ≠ 0 := by decide
  have hne3 : (- L_EIO : Int) ≠ 0 := by decide
  have hstr : strlen t % 4294967296 = t.length := by
    rw [strlen_eq_length t hnul]
    have : PATH_MAX = 4096 := rfl
    omega
  unfold winfs_symlink at hret ⊢
  simp only [hstr] at hret ⊢
  split at hret
  · exact absurd hret hne1
  · rename_i hpos
    rw [if_neg hpos]
    generalize hname : (Mem.apply (fun _ => 0)
      (filename_to_nt_pathname conv mp linkpath PATH_MAX).writes).read
      (((filename_to_nt_pathname conv mp linkpath PATH_MAX).ret * 2 % 65536).toNat / 2) = name
      at hret ⊢
    refine ⟨name, ?_⟩
    unfold NtCreateFile at hret ⊢
    simp only at hret ⊢
    cases hl : host.lookup name with
    | some f =>
      rw [hl] at hret
      simp only [if_true] at hret
      have hc : NT_SUCCESS STATUS_OBJECT_NAME_COLLISION = false := by decide
      simp only [hc, Bool.not_false, if_true, or_true] at hret
      exact absurd hret hne2
    | none =>
      rw [hl] at hret
      have hco : ¬ (FILE_CREATE = FILE_OPEN) := by decide
      have hs : NT_SUCCESS STATUS_SUCCESS = true := by decide
      simp only [if_neg hco, hs, Bool.not_true, Bool.false_eq_true, if_false] at hret ⊢
      split at hret
      · exact absurd hret hne3
      · rename_i hw1
        have hw1b := Bool.eq_false_iff.mpr hw1
        have e1 := Host.WriteFile_full _ name 0 H.WINFS_SYMLINK_HEADER w1 hw1b
        rw [if_neg hw1]
        unfold winfs_h.WINFS_SYMLINK_HEADER_LEN at hret ⊢
        rw [e1] at hret ⊢
        simp only at hret ⊢
        split at hret
        · exact absurd hret hne3
        · rename_i hw2
          have hw2b := Bool.eq_false_iff.mpr hw2
          have e2 := Host.WriteFile_full _ name H.WINFS_SYMLINK_HEADER.length t w2 hw2b
          rw [if_neg hw2, e2]
          refine ⟨trivial, ?_, rfl⟩
          simp only [List.map, if_true, write_at_nil_zero, write_at_end, List.map_map]
          congr 1
          apply map_eq_self_of_lookup_none host name _ hl
          intro e he
          simp [he]

/-- Memory after the stores of a copied string: the string, then a NUL. -/
theorem Mem.apply_string (m : Mem) (t : List Nat) :
    (m.apply (memcpy_stores 0 t ++ [(t.length, 0)])).read t.length = t ∧
    (m.apply (memcpy_stores 0 t ++ [(t.length, 0)])) t.length = 0 := by
  constructor
  · apply Mem.read_eq_of_getD
    intro j hj
    rw [Mem.apply_append, Mem.apply_cons, Mem.apply_nil]
    have hne : j ≠ t.length := by omega
    simp only [Mem.store, if_neg hne]
    rw [Mem.apply_memcpy, if_pos (by omega)]
    simp
  · rw [Mem.apply_append, Mem.apply_cons, Mem.apply_nil]
    simp [Mem.store]

/-- C16: round trip of the in-band symlink encoding.  For a non-empty target `t` without
NUL bytes and shorter than `PATH_MAX`, a `winfs_symlink` that returns 0 has created, under
a name that was free, a file with the system attribute, no sidecar record and the content
"magic header, then `t`"; reading that file with a capacity `c ≥ |t|` returns `|t|` and
stores `t` followed by a NUL, and reading it with capacity 0 returns `|t|`. -/
theorem symlink_round_trip (H : winfs_h) (conv : Utf16Converter) (host : Host)
    (mp : mount_point) (t linkpath : List Nat) (w1 w2 : WriteAnswer)
    (hne : t ≠ []) (hnul : 0 ∉ t) (hlen : t.length < PATH_MAX)
    (hret : (winfs_symlink H conv host mp t linkpath w1 w2).ret = 0) :
    ∃ (name : List Nat) (f : HostFile), host.lookup name = none ∧
      (winfs_symlink H conv host mp t linkpath w1 w2).host = (name, f) :: host ∧
      f.attributes = FILE_ATTRIBUTE_SYSTEM ∧
      f.content = H.WINFS_SYMLINK_HEADER ++ t ∧
      f.meta = .absent ∧
      (∀ (c cursor : Nat), t.length ≤ c → c < 2147483648 →
        ( winfs_read_symlink_unsafe H f cursor false c).ret = t.length ∧
        ( winfs_read_symlink_unsafe H f cursor false c).target =
          memcpy_stores 0 t ++ [(t.length, 0)] ∧
        ∀ m : Mem,
          (m.apply ( winfs_read_symlink_unsafe H f cursor false c).target).read t.length = t ∧
          (m.apply ( winfs_read_symlink_unsafe H f cursor false c).target) t.length = 0) ∧
      (∀ (cursor : Nat) (target_null : Bool),
        ( winfs_read_symlink_unsafe H f cursor target_null 0).ret = t.length ∧
        ( winfs_read_symlink_unsafe H f cursor target_null 0).target = []) := by
  obtain ⟨name, hfree, hhost, _⟩ :=
    winfs_symlink_success H conv host mp t linkpath w1 w2 hnul hlen hret
  refine ⟨name, { attributes := FILE_ATTRIBUTE_SYSTEM, content := H.WINFS_SYMLINK_HEADER ++ t },
    hfree, hhost, rfl, rfl, rfl, ?_, ?_⟩
  · intro c cursor hc1 hc2
    have htpos : 0 < t.length := List.length_pos.mpr hne
    obtain ⟨h1, h2⟩ := read_symlink_inband_copy H
      { attributes := FILE_ATTRIBUTE_SYSTEM, content := H.WINFS_SYMLINK_HEADER ++ t } cursor rfl
      (by simp [read_meta_file_h, read_meta_file]) t rfl c (by omega) hc2 hne
    have hmin : min c t.length = t.length := by omega
    rw [hmin, List.take_of_length_le hc1] at h2
    rw [hmin] at h1
    refine ⟨h1, h2, ?_⟩
    intro m
    rw [h2]
    exact Mem.apply_string m t
  · intro cursor tn
    obtain ⟨h1, h2⟩ := read_symlink_inband_size H
      { attributes := FILE_ATTRIBUTE_SYSTEM, content := H.WINFS_SYMLINK_HEADER ++ t } cursor tn
      rfl rfl (by simp [read_meta_file_h, read_meta_file]) t rfl
    rw [if_neg (by omega)] at h1
    exact ⟨h1, h2⟩

/-- C16 witness: `winfs_symlink` of the target `/a` at the free name `l` of an empty
namespace, with a host that takes both writes whole. -/
theorem symlink_round_trip_witness :
    (winfs_symlink ⟨[33, 60, 83, 62], [33, 60, 85, 62], 4⟩ ascii_converter []
      ⟨0, [92, 63, 63, 92, 67, 58]⟩ [47, 97] [108] (.accepted 4) (.accepted 2)).ret = 0 ∧
    ∃ (name : List Nat) (f : HostFile), ([] : Host).lookup name = none ∧
      (winfs_symlink ⟨[33, 60, 83, 62], [33, 60, 85, 62], 4⟩ ascii_converter []
        ⟨0, [92, 63, 63, 92, 67, 58]⟩ [47, 97] [108] (.accepted 4) (.accepted 2)).host
        = (name, f) :: [] ∧
      f.attributes = FILE_ATTRIBUTE_SYSTEM ∧
      f.content = [33, 60, 83, 62] ++ [47, 97] ∧
      f.meta = .absent ∧
      (∀ (c cursor : Nat), [47, 97].length ≤ c → c < 2147483648 →
        ( winfs_read_symlink_unsafe ⟨[33, 60, 83, 62], [33, 60, 85, 62], 4⟩ f cursor false c).ret
          = [47, 97].length ∧
        ( winfs_read_symlink_unsafe ⟨[33, 60, 83, 62], [33, 60, 85, 62], 4⟩ f cursor false
          c).target = memcpy_stores 0 [47, 97] ++ [([47, 97].length, 0)] ∧
        ∀ m : Mem,
          (m.apply ( winfs_read_symlink_unsafe ⟨[33, 60, 83, 62], [33, 60, 85, 62], 4⟩ f cursor
            false c).target).read [47, 97].length = [47, 97] ∧
          (m.apply ( winfs_read_symlink_unsafe ⟨[33, 60, 83, 62], [33, 60, 85, 62], 4⟩ f cursor
            false c).target) [47, 97].length = 0) ∧
      (∀ (cursor : Nat) (target_null : Bool),
        ( winfs_read_symlink_unsafe ⟨[33, 60, 83, 62], [33, 60, 85, 62], 4⟩ f cursor
          target_null 0).ret = [47, 97].length ∧
        ( winfs_read_symlink_unsafe ⟨[33, 60, 83, 62], [33, 60, 85, 62], 4⟩ f cursor
          target_null 0).target = []) :=
  ⟨by decide,
   symlink_round_trip ⟨[33, 60, 83, 62], [33, 60, 85, 62], 4⟩ ascii_converter []
      ⟨0, [92, 63, 63, 92, 67, 58]⟩ [47, 97] [108] (.accepted 4) (.accepted 2)
      (by decide) (by decide) (by decide) (by decide)⟩

theorem winfs_symlink_run :
    (winfs_symlink ⟨[33, 60, 83, 62], [33, 60, 85, 62], 4⟩ ascii_converter []
      ⟨0, [92, 63, 63, 92, 67, 58]⟩ [47, 97] [108] (.accepted 4) (.accepted 2)).host
      = [([92, 63, 63, 92, 67, 58, 92, 108],
          { attributes := 4, content := [33, 60, 83, 62, 47, 97] })] ∧
    (winfs_symlink ⟨[33, 60, 83, 62], [33, 60, 85, 62], 4⟩ ascii_converter
      [([92, 63, 63, 92, 67, 58, 92, 108], { attributes := 4, content := [] })]
      ⟨0, [92, 63, 63, 92, 67, 58]⟩ [47, 97] [108] (.accepted 4) (.accepted 2)).ret
      = -L_EEXIST ∧
    (winfs_symlink ⟨[33, 60, 83, 62], [33, 60, 85, 62], 4⟩ ascii_converter []
      ⟨0, [92, 63, 63, 92, 67, 58]⟩ [47, 97] [108] (.accepted 4) (.accepted 1)).ret
      = - L_EIO := by
  decide

/-! ### Directory enumeration -/

theorem to_int_add (a b : Int) : to_int (to_int a + b) = to_int (a + b) := by
  unfold to_int
  omega

theorem to_int_of_range (a : Int) (h1 : -2147483648 ≤ a) (h2 : a < 2147483648) :
    to_int a = a := by
  unfold to_int
  omega

theorem getdents_buffer_size_eq (count : Nat) (p : Int) (hc : count < 4294967296)
    (h1 : 0 ≤ p) (h2 : p < 2147483648) :
    getdents_buffer_size count p = min (((count : Int) - p) / 2) 32768 := by
  unfold getdents_buffer_size size_t_sub to_int BUFFER_SIZE
  simp only [ge_iff_le]
  split <;> omega

theorem produced_append (a b : List DentsEvent) : produced (a ++ b) = produced a + produced b := by
  simp [produced]

theorem produced_fill (a : FillArgs) (v : Int) : produced [.fill a v] = v := by
  simp [produced, DentsEvent.reclen]

theorem produced_probe (n : List Nat) (s : Nat) (t : Int) : produced [.probe n s t] = 0 := by
  simp [produced, DentsEvent.reclen]

theorem produced_query (L : Nat) (r : Nat) : produced [.query L r] = 0 := by
  simp [produced, DentsEvent.reclen]

theorem has_query_append (a b : List DentsEvent) :
    has_query (a ++ b) = (has_query a || has_query b) := by
  simp [has_query]

theorem NoNeg_append (a b : List DentsEvent) : NoNeg (a ++ b) ↔ NoNeg a ∧ NoNeg b := by
  unfold NoNeg
  constructor
  · intro h
    exact ⟨fun x v hx => h x v (List.mem_append_left _ hx),
      fun x v hx => h x v (List.mem_append_right _ hx)⟩
  · rintro ⟨h1, h2⟩ x v hx
    rcases List.mem_append.mp hx with h | h
    · exact h1 x v h
    · exact h2 x v h

theorem NoNeg_nil : NoNeg [] := by
  intro a v h
  simp at h

theorem NoNeg_probe (n : List Nat) (s : Nat) (t : Int) : NoNeg [.probe n s t] := by
  intro a v h
  simp at h

theorem NoNeg_query (L : Nat) (r : Nat) : NoNeg [.query L r] := by
  intro a v h
  simp at h

theorem NoNeg_fill (a : FillArgs) (v : Int) (hv : 0 ≤ v) : NoNeg [.fill a v] := by
  intro a2 v2 h
  simp only [List.mem_singleton, DentsEvent.fill.injEq] at h
  omega

theorem GoodEvent_query (count rs0 : Nat) (pre : List DentsEvent) (L r : Nat) :
    GoodEvent count rs0 pre (.query L r) ↔
      NoNeg pre ∧ L = getdents_query_length count (to_int (produced pre)) ∧
        r = if has_query pre then 0 else rs0 :=
  Iff.rfl

theorem GoodTrace_nil (count rs0 : Nat) : GoodTrace count rs0 [] := by
  intro i h
  simp at h

theorem GoodTrace_append_one (count rs0 : Nat) (ev : List DentsEvent) (e : DentsEvent)
    (ht : GoodTrace count rs0 ev) (he : GoodEvent count rs0 ev e) :
    GoodTrace count rs0 (ev ++ [e]) := by
  intro i hi
  by_cases h1 : i < ev.length
  · rw [List.take_append_of_le_length (by omega), List.getElem_append_left h1]
    exact ht i h1
  · have h2 : i = ev.length := by
      simp only [List.length_append, List.length_singleton] at hi
      omega
    subst h2
    rw [List.take_left', List.getElem_concat_length]
    · exact he
    · rfl
    · rfl

theorem GoodTrace_split (count rs0 : Nat) (ev pre post : List DentsEvent) (e : DentsEvent)
    (ht : GoodTrace count rs0 ev) (hs : ev = pre ++ e :: post) : GoodEvent count rs0 pre e := by
  subst hs
  have h := ht pre.length (by simp)
  rw [List.take_left', List.getElem_append_right (by omega)] at h
  · simpa using h
  · rfl

/-- The events of the probe of one entry: none, or one probe. -/
theorem getdents_entry_type_events (H : winfs_h) (info : FILE_ID_FULL_DIR_INFORMATION) :
    (getdents_entry_type H info).2 = [] ∨
      ∃ n s t, (getdents_entry_type H info).2 = [.probe n s t] := by
  unfold getdents_entry_type
  simp only
  split
  · exact Or.inl rfl
  · split
    · split
      · exact Or.inr ⟨_, _, _, rfl⟩
      · exact Or.inr ⟨_, _, _, rfl⟩
    · exact Or.inl rfl

/-- The type `winfs_getdents` passes to the callback: `DT_DIR` for an entry with the
directory attribute, `DT_REG` for every other entry. -/
theorem getdents_entry_type_eq (H : winfs_h) (info : FILE_ID_FULL_DIR_INFORMATION) :
    (getdents_entry_type H info).1 =
      if has_flag info.FileAttributes FILE_ATTRIBUTE_DIRECTORY then DT_DIR else DT_REG := by
  unfold getdents_entry_type
  simp only
  split
  · rfl
  · split
    · split <;> rfl
    · rfl

/-- Appending the events of one entry's probe keeps a good trace good. -/
theorem GoodTrace_append_probe (count rs0 : Nat) (H : winfs_h)
    (info : FILE_ID_FULL_DIR_INFORMATION) (ev : List DentsEvent)
    (ht : GoodTrace count rs0 ev) (hn : NoNeg ev) :
    GoodTrace count rs0 (ev ++ (getdents_entry_type H info).2) ∧
    NoNeg (ev ++ (getdents_entry_type H info).2) ∧
    produced (ev ++ (getdents_entry_type H info).2) = produced ev ∧
    has_query (ev ++ (getdents_entry_type H info).2) = has_query ev := by
  rcases getdents_entry_type_events H info with h | ⟨n, s, t, h⟩
  · rw [h, List.append_nil]
    exact ⟨ht, hn, rfl, rfl⟩
  · rw [h]
    refine ⟨GoodTrace_append_one count rs0 ev _ ht ⟨hn, trivial⟩,
      (NoNeg_append _ _).mpr ⟨hn, NoNeg_probe n s t⟩, ?_, ?_⟩
    · rw [produced_append, produced_probe, add_zero]
    · rw [has_query_append]
      simp [has_query, DentsEvent.is_query]

/-- The loop over the records of one answer only appends events. -/
theorem getdents_entries_suffix (H : winfs_h) (cb : getdents_callback) (count : Nat) :
    ∀ (entries : List FILE_ID_FULL_DIR_INFORMATION) (size : Int) (ev : List DentsEvent),
      ∃ suf, (getdents_entries H cb count entries size ev).2.1 = ev ++ suf := by
  intro entries
  induction entries with
  | nil =>
    intro size ev
    exact ⟨[], by simp [getdents_entries]⟩
  | cons info rest ih =>
    intro size ev
    simp only [getdents_entries]
    split
    · exact ⟨_, List.append_assoc _ _ _⟩
    · obtain ⟨suf, h⟩ := ih (to_int (size + cb ⟨size,
          (info.FileId / 4294967296 % 4294967296) ^^^ (info.FileId % 4294967296),
          info.FileName, info.FileNameLength / 2, (getdents_entry_type H info).1,
          size_t_sub count size⟩))
        (ev ++ (getdents_entry_type H info).2 ++ [.fill ⟨size,
          (info.FileId / 4294967296 % 4294967296) ^^^ (info.FileId % 4294967296),
          info.FileName, info.FileNameLength / 2, (getdents_entry_type H info).1,
          size_t_sub count size⟩ (cb ⟨size,
          (info.FileId / 4294967296 % 4294967296) ^^^ (info.FileId % 4294967296),
          info.FileName, info.FileNameLength / 2, (getdents_entry_type H info).1,
          size_t_sub count size⟩)])
      exact ⟨_, by rw [h, List.append_assoc, List.append_assoc]⟩

/-- The loop over the records of one answer keeps the trace good; it either runs to its
end with `size` the (reduced) sum of the byte counts reported so far, or leaves at a call
of the callback that returned a negative value, which is then the last event, with `size`
that value. -/
theorem getdents_entries_spec (H : winfs_h) (cb : getdents_callback) (count rs0 : Nat) :
    ∀ (entries : List FILE_ID_FULL_DIR_INFORMATION) (size : Int) (ev : List DentsEvent),
      GoodTrace count rs0 ev → NoNeg ev → size = to_int (produced ev) →
      GoodTrace count rs0 (getdents_entries H cb count entries size ev).2.1 ∧
      has_query (getdents_entries H cb count entries size ev).2.1 = has_query ev ∧
      ((getdents_entries H cb count entries size ev).2.2 = true →
        NoNeg (getdents_entries H cb count entries size ev).2.1 ∧
        (getdents_entries H cb count entries size ev).1 =
          to_int (produced (getdents_entries H cb count entries size ev).2.1)) ∧
      ((getdents_entries H cb count entries size ev).2.2 = false →
        ∃ pre a v, (getdents_entries H cb count entries size ev).2.1 = pre ++ [.fill a v] ∧
          v < 0 ∧ (getdents_entries H cb count entries size ev).1 = to_int v) := by
  intro entries
  induction entries with
  | nil =>
    intro size ev ht hn hs
    simp only [getdents_entries]
    exact ⟨ht, trivial, fun _ => ⟨hn, hs⟩, fun h => absurd h (by simp)⟩
  | cons info rest ih =>
    intro size ev ht hn hs
    obtain ⟨p1, p2, p3, p4⟩ := GoodTrace_append_probe count rs0 H info ev ht hn
    simp only [getdents_entries]
    split
    · rename_i hneg
      refine ⟨GoodTrace_append_one count rs0 _ _ p1 ⟨p2, trivial⟩, ?_,
        fun h => absurd h (by simp), fun _ => ⟨_, _, _, rfl, hneg, rfl⟩⟩
      rw [has_query_append, p4]
      simp [has_query, DentsEvent.is_query]
    · rename_i hneg
      have hv : 0 ≤ cb ⟨size, (info.FileId / 4294967296 % 4294967296) ^^^ (info.FileId % 4294967296),
          info.FileName, info.FileNameLength / 2, (getdents_entry_type H info).1,
          size_t_sub count size⟩ := by omega
      have q := ih (to_int (size + cb ⟨size,
          (info.FileId / 4294967296 % 4294967296) ^^^ (info.FileId % 4294967296),
          info.FileName, info.FileNameLength / 2, (getdents_entry_type H info).1,
          size_t_sub count size⟩))
        (ev ++ (getdents_entry_type H info).2 ++ [.fill ⟨size,
          (info.FileId / 4294967296 % 4294967296) ^^^ (info.FileId % 4294967296),
          info.FileName, info.FileNameLength / 2, (getdents_entry_type H info).1,
          size_t_sub count size⟩ (cb ⟨size,
          (info.FileId / 4294967296 % 4294967296) ^^^ (info.FileId % 4294967296),
          info.FileName, info.FileNameLength / 2, (getdents_entry_type H info).1,
          size_t_sub count size⟩)])
        (GoodTrace_append_one count rs0 _ _ p1 ⟨p2, trivial⟩)
        ((NoNeg_append _ _).mpr ⟨p2, NoNeg_fill _ _ hv⟩)
        (by rw [produced_append, produced_fill, p3, hs, to_int_add])
      refine ⟨q.1, ?_, q.2.2.1, q.2.2.2⟩
      rw [q.2.1, has_query_append, p4]
      simp [has_query, DentsEvent.is_query]

/-- The loop of `winfs_getdents` from a good trace: the trace stays good, the flag is
cleared, the first new event is a query with the flag, and at the end `size` is either the
(reduced) sum of the byte counts reported, none of them negative, or the negative value
returned by the call of the callback that is the last event. -/
theorem getdents_loop_spec (H : winfs_h) (cb : getdents_callback) (count rs0 : Nat) :
    ∀ (answers : List DirAnswer) (size : Int) (rs : Nat) (ev : List DentsEvent),
      GoodTrace count rs0 ev → NoNeg ev → size = to_int (produced ev) →
      rs = (if has_query ev then 0 else rs0) →
      GoodTrace count rs0 (getdents_loop H cb count answers size rs ev).2.2.1 ∧
      (getdents_loop H cb count answers size rs ev).2.1 = 0 ∧
      (∃ suf, (getdents_loop H cb count answers size rs ev).2.2.1 =
        ev ++ .query (getdents_query_length count size) rs :: suf) ∧
      ((NoNeg (getdents_loop H cb count answers size rs ev).2.2.1 ∧
          (getdents_loop H cb count answers size rs ev).1 =
            to_int (produced (getdents_loop H cb count answers size rs ev).2.2.1)) ∨
        ∃ pre a v, (getdents_loop H cb count answers size rs ev).2.2.1 = pre ++ [.fill a v] ∧
          v < 0 ∧ (getdents_loop H cb count answers size rs ev).1 = to_int v) := by
  intro answers
  induction answers with
  | nil =>
    intro size rs ev ht hn hs hr
    simp only [getdents_loop]
    refine ⟨GoodTrace_append_one count rs0 _ _ ht
        ((GoodEvent_query count rs0 _ _ _).mpr ⟨hn, by rw [← hs], hr⟩), trivial,
      ⟨[], rfl⟩, Or.inl ⟨(NoNeg_append _ _).mpr ⟨hn, NoNeg_query _ _⟩, ?_⟩⟩
    rw [produced_append, produced_query, add_zero]
    exact hs
  | cons a rest ih =>
    intro size rs ev ht hn hs hr
    have t1 : GoodTrace count rs0 (ev ++ [.query (getdents_query_length count size) rs]) :=
      GoodTrace_append_one count rs0 _ _ ht
        ((GoodEvent_query count rs0 _ _ _).mpr ⟨hn, by rw [← hs], hr⟩)
    have n1 : NoNeg (ev ++ [.query (getdents_query_length count size) rs]) :=
      (NoNeg_append _ _).mpr ⟨hn, NoNeg_query _ _⟩
    have s1 : size = to_int (produced (ev ++ [.query (getdents_query_length count size) rs])) := by
      rw [produced_append, produced_query, add_zero]
      exact hs
    have q1 : has_query (ev ++ [.query (getdents_query_length count size) rs]) = true := by
      rw [has_query_append]
      simp [has_query, DentsEvent.is_query]
    simp only [getdents_loop]
    split
    · exact ⟨t1, rfl, ⟨[], rfl⟩, Or.inl ⟨n1, s1⟩⟩
    · split
      · exact ⟨t1, rfl, ⟨[], rfl⟩, Or.inl ⟨n1, s1⟩⟩
      · obtain ⟨e1, e2, e3, e4⟩ := getdents_entries_spec H cb count rs0 a.entries size _ t1 n1 s1
        split
        · rename_i hlive
          obtain ⟨l1, l2⟩ := e3 hlive
          obtain ⟨g1, g2, ⟨suf, g3⟩, g4⟩ := ih _ 0 _ e1 l1 l2 (by rw [e2, q1]; rfl)
          obtain ⟨suf1, hs1⟩ := getdents_entries_suffix H cb count a.entries size
            (ev ++ [.query (getdents_query_length count size) rs])
          refine ⟨g1, g2, ⟨suf1 ++ .query (getdents_query_length count
            (getdents_entries H cb count a.entries size
              (ev ++ [.query (getdents_query_length count size) rs])).1) 0 :: suf, ?_⟩, g4⟩
          rw [g3, hs1]
          simp
        · rename_i hlive
          have hl : (getdents_entries H cb count a.entries size
              (ev ++ [.query (getdents_query_length count size) rs])).2.2 = false := by
            simpa using hlive
          obtain ⟨suf1, hs1⟩ := getdents_entries_suffix H cb count a.entries size
            (ev ++ [.query (getdents_query_length count size) rs])
          refine ⟨e1, rfl, ⟨suf1, ?_⟩, Or.inr (e4 hl)⟩
          rw [hs1]
          simp

theorem produced_nonneg (ev : List DentsEvent) (h : NoNeg ev) : 0 ≤ produced ev := by
  induction ev with
  | nil => simp [produced]
  | cons e rest ih =>
    have h1 : NoNeg rest := fun a v hm => h a v (List.mem_cons_of_mem _ hm)
    have h2 : 0 ≤ e.reclen := by
      cases e with
      | query L r => simp [DentsEvent.reclen]
      | probe n s t => simp [DentsEvent.reclen]
      | fill a v => exact h a v (List.mem_cons_self _ _)
    have h3 := ih h1
    simp only [produced, List.map_cons, List.sum_cons] at h3 ⊢
    omega

/-- The run of `winfs_getdents`: its trace is good, the flag is cleared, the first event
is a query carrying the flag of entry, and the value returned is the (reduced) sum of the
byte counts reported or the negative value of the last call of the callback. -/
theorem winfs_getdents_spec (H : winfs_h) (answers : List DirAnswer) (rs count : Nat)
    (cb : getdents_callback) :
    GoodTrace count rs (winfs_getdents H answers rs count cb).events ∧
    (winfs_getdents H answers rs count cb).restart_scan = 0 ∧
    (∃ suf, (winfs_getdents H answers rs count cb).events =
      .query (getdents_query_length count 0) rs :: suf) ∧
    ((NoNeg (winfs_getdents H answers rs count cb).events ∧
        (winfs_getdents H answers rs count cb).ret =
          to_int (produced (winfs_getdents H answers rs count cb).events)) ∨
      ∃ pre a v, (winfs_getdents H answers rs count cb).events = pre ++ [.fill a v] ∧
        v < 0 ∧ (winfs_getdents H answers rs count cb).ret = to_int v) := by
  have h := getdents_loop_spec H cb count rs answers 0 rs [] (GoodTrace_nil count rs) NoNeg_nil
    (by simp [produced, to_int]) (by simp [has_query])
  simpa [winfs_getdents] using h

/-- C17: in `winfs_getdents`, a call of the callback that returns a negative value (an
`int` value) is the last event of the run, no entry is passed to the callback and no host
query is issued after it, and that value is returned; if no call of the callback returns
a negative value, the value returned is the sum of the byte counts the callback reported
(a sum that fits in the `int` returned). -/
theorem getdents_stops_at_negative_reclen (H : winfs_h) (answers : List DirAnswer)
    (rs count : Nat) (cb : getdents_callback) :
    (∀ (pre : List DentsEvent) (a : FillArgs) (v : Int) (post : List DentsEvent),
      (winfs_getdents H answers rs count cb).events = pre ++ .fill a v :: post →
      v < 0 → -2147483648 ≤ v →
      post = [] ∧ (winfs_getdents H answers rs count cb).ret = v) ∧
    ((∀ (a : FillArgs) (v : Int),
        .fill a v ∈ (winfs_getdents H answers rs count cb).events → 0 ≤ v) →
      produced (winfs_getdents H answers rs count cb).events ≤ 2147483647 →
      (winfs_getdents H answers rs count cb).ret =
        produced (winfs_getdents H answers rs count cb).events) := by
  obtain ⟨ht, _, _, hend⟩ := winfs_getdents_spec H answers rs count cb
  constructor
  · intro pre a v post hev hneg hrange
    have hpost : post = [] := by
      cases post with
      | nil => rfl
      | cons e post2 =>
        exfalso
        have hsplit : (winfs_getdents H answers rs count cb).events
            = (pre ++ [.fill a v]) ++ e :: post2 := by
          rw [hev]
          simp
        have hg := GoodTrace_split count rs _ _ _ _ ht hsplit
        have := hg.1 a v (by simp)
        omega
    refine ⟨hpost, ?_⟩
    subst hpost
    rcases hend with ⟨hn, _⟩ | ⟨pre2, a2, v2, hev2, _, hret⟩
    · have := hn a v (by rw [hev]; simp)
      omega
    · rw [hev] at hev2
      have hlast := (List.append_inj' hev2 rfl).2
      simp only [List.cons.injEq, DentsEvent.fill.injEq, and_true] at hlast
      rw [hret, ← hlast.2]
      exact to_int_of_range v hrange (by omega)
  · intro hnn hsum
    rcases hend with ⟨hn, hret⟩ | ⟨pre2, a2, v2, hev2, hneg, _⟩
    · rw [hret]
      exact to_int_of_range _ (by have := produced_nonneg _ hn; omega) (by omega)
    · have := hnn a2 v2 (by rw [hev2]; simp)
      omega

/-- C17 witness: two pages of one entry each, 50 bytes of space and a callback that takes
24 bytes for an entry while at least 30 are left and else returns -22: the second call is
the last event and -22 is returned. -/
theorem getdents_stops_at_negative_reclen_witness :
    (winfs_getdents ⟨[33, 60, 83, 62], [33, 60, 85, 62], 4⟩
      [⟨0, [⟨7, 0x80, 2, [97], { attributes := 0x80, content := [] }⟩,
            ⟨9, 0x80, 2, [98], { attributes := 0x80, content := [] }⟩]⟩,
       ⟨0, [⟨11, 0x80, 2, [99], { attributes := 0x80, content := [] }⟩]⟩]
      1 50 (fun a => if a.avail < 30 then -22 else 24)).events
      = [.query 25 1, .fill ⟨0, 7, [97], 1, 8, 50⟩ 24] ++
          .fill ⟨24, 9, [98], 1, 8, 26⟩ (-22) :: [] ∧
    (winfs_getdents ⟨[33, 60, 83, 62], [33, 60, 85, 62], 4⟩
      [⟨0, [⟨7, 0x80, 2, [97], { attributes := 0x80, content := [] }⟩,
            ⟨9, 0x80, 2, [98], { attributes := 0x80, content := [] }⟩]⟩,
       ⟨0, [⟨11, 0x80, 2, [99], { attributes := 0x80, content := [] }⟩]⟩]
      1 50 (fun a => if a.avail < 30 then -22 else 24)).ret = -22 :=
  ⟨by decide,
   ((getdents_stops_at_negative_reclen ⟨[33, 60, 83, 62], [33, 60, 85, 62], 4⟩
      [⟨0, [⟨7, 0x80, 2, [97], { attributes := 0x80, content := [] }⟩,
            ⟨9, 0x80, 2, [98], { attributes := 0x80, content := [] }⟩]⟩,
       ⟨0, [⟨11, 0x80, 2, [99], { attributes := 0x80, content := [] }⟩]⟩]
      1 50 (fun a => if a.avail < 30 then -22 else 24)).1
      [.query 25 1, .fill ⟨0, 7, [97], 1, 8, 50⟩ 24] ⟨24, 9, [98], 1, 8, 26⟩ (-22) []
      (by decide) (by decide) (by decide)).2⟩

/-- C18 (failing input): a directory whose host answer holds the entry `l`, a file with
the system attribute whose sidecar record names the symlink type, and the entry `m`, a
file with the system attribute whose content begins with the symlink magic.  Detection
gives `SPECIAL_FILE_SYMLINK_META` for the first, and the block's variable `type` becomes
`DT_LNK` (the probe event), but the callback is given `DT_REG` for both entries.  The
inode passed is the XOR of the halves of the file identifier. -/
theorem getdents_reports_symlink_as_regular :
    (winfs_get_special_file_type ⟨[33, 60, 83, 62], [33, 60, 85, 62], 4⟩
      { attributes := 4, content := [47, 97], meta := .record 'L'.toNat 0o777 0 0 } 0).ret
      = SPECIAL_FILE_SYMLINK_META ∧
    (winfs_getdents ⟨[33, 60, 83, 62], [33, 60, 85, 62], 4⟩
      [⟨0, [⟨0x500000003, 4, 2, [108],
              { attributes := 4, content := [47, 97], meta := .record 'L'.toNat 0o777 0 0 }⟩,
            ⟨0x500000004, 4, 2, [109],
              { attributes := 4, content := [33, 60, 83, 62, 47, 97] }⟩]⟩]
      1 1000 (fun _ => 24)).events
      = [.query 500 1,
         .probe [108] 0 10, .fill ⟨0, 6, [108], 1, DT_REG, 1000⟩ 24,
         .probe [109] 0 0, .fill ⟨24, 1, [109], 1, DT_REG, 976⟩ 24,
         .query 476 0] := by
  decide

/-- The file object `winfs_open` stores has `restart_scan = 1`. -/
theorem winfs_open_restart_scan (V : vfs_h) (H : winfs_h) (conv : Utf16Converter) (host : Host)
    (mp : mount_point) (pathname : List Nat) (flags internal_flags mode : Nat)
    (fp_null target_null : Bool) (buflen : Int) (f : winfs_file)
    (hf : (winfs_open V H conv host mp pathname flags internal_flags mode fp_null target_null
      buflen).fp = some f) : f.restart_scan = 1 := by
  unfold winfs_open at hf
  simp only at hf
  split at hf
  · simp at hf
  · split at hf
    · simp at hf
    · split at hf
      · split at hf
        · simp at hf
        · simp only [Option.some.injEq] at hf
          rw [← hf]
      · simp at hf

/-- The flag after `winfs_llseek`: 1 after a successful seek with `SEEK_SET` and offset 0,
else the flag before. -/
theorem winfs_llseek_restart_scan (cursor size rs : Nat) (offset whence : Int) :
    (winfs_llseek cursor size rs offset whence).restart_scan =
      if (winfs_llseek cursor size rs offset whence).ret = 0 ∧ whence = SEEK_SET ∧ offset = 0
      then 1 else rs := by
  have hne : (-L_EINVAL : Int) ≠ 0 := by decide
  unfold winfs_llseek
  by_cases h1 : whence = SEEK_SET
  · rw [if_pos h1]
    rcases hsp : SetFilePointerEx cursor size offset FILE_BEGIN with _ | p <;>
      simp [hsp, hne, h1]
  · rw [if_neg h1]
    by_cases h2 : whence = SEEK_CUR
    · rw [if_pos h2]
      rcases hsp : SetFilePointerEx cursor size offset FILE_CURRENT with _ | p <;>
        simp [hsp, hne, h1]
    · rw [if_neg h2]
      by_cases h3 : whence = SEEK_END
      · rw [if_pos h3]
        rcases hsp : SetFilePointerEx cursor size offset FILE_END with _ | p <;>
          simp [hsp, hne, h1]
      · rw [if_neg h3]
        simp [hne]

/-- The `Length` of a query when the bytes produced so far leave room: for
`size ≤ count` with `count - size < 2 ^ 32` it is `min ((count - size) / 2) 32768`. -/
theorem getdents_query_length_eq (count : Nat) (size : Int)
    (h1 : size ≤ count) (h2 : (count : Int) - size < 4294967296) :
    (getdents_query_length count size : Int) = min (((count : Int) - size) / 2) 32768 := by
  unfold getdents_query_length getdents_buffer_size size_t_sub to_int BUFFER_SIZE
  simp only [ge_iff_le]
  split <;> omega

/-- The `Length` of a query never exceeds 32768 when the `int buffer_size` is not
negative. -/
theorem getdents_query_length_le (count : Nat) (size : Int)
    (h : 0 ≤ getdents_buffer_size count size) : getdents_query_length count size ≤ 32768 := by
  unfold getdents_query_length
  unfold getdents_buffer_size BUFFER_SIZE at h ⊢
  simp only [ge_iff_le] at h ⊢
  split at h <;> rename_i hc
  · rw [if_pos hc]
    decide
  · rw [if_neg hc]
    omega

/-- The flag `restart_scan` of a handle and the queries of `winfs_getdents`.
`winfs_open` stores a file object with the flag set; `winfs_llseek` sets it when it
succeeds with `SEEK_SET` and offset 0 and leaves it unchanged in every other case;
`winfs_getdents` issues at least one host query, passes the flag to its first query and 0
to every later one, and leaves the flag cleared; and the `Length` of a query is
`min ((count - bytes produced so far) / 2) 32768` whenever the bytes produced so far do not
exceed `count`, fit in the `int` variable `size` and leave less than `2 ^ 32` bytes. -/
theorem getdents_restart_scan_and_length :
    (∀ (V : vfs_h) (H : winfs_h) (conv : Utf16Converter) (host : Host) (mp : mount_point)
      (pathname : List Nat) (flags internal_flags mode : Nat) (fp_null target_null : Bool)
      (buflen : Int) (f : winfs_file),
      (winfs_open V H conv host mp pathname flags internal_flags mode fp_null target_null
        buflen).fp = some f → f.restart_scan = 1) ∧
    (∀ (cursor size rs : Nat) (offset whence : Int),
      (winfs_llseek cursor size rs offset whence).restart_scan =
        if (winfs_llseek cursor size rs offset whence).ret = 0 ∧ whence = SEEK_SET ∧ offset = 0
        then 1 else rs) ∧
    (∀ (H : winfs_h) (answers : List DirAnswer) (rs count : Nat) (cb : getdents_callback),
      (winfs_getdents H answers rs count cb).restart_scan = 0 ∧
      (∃ L rest, (winfs_getdents H answers rs count cb).events = .query L rs :: rest) ∧
      (∀ (pre : List DentsEvent) (L : Nat) (r : Nat) (post : List DentsEvent),
        (winfs_getdents H answers rs count cb).events = pre ++ .query L r :: post →
        r = (if has_query pre then 0 else rs) ∧
        L = getdents_query_length count (to_int (produced pre)) ∧
        (produced pre ≤ count → produced pre < 2147483648 →
          (count : Int) - produced pre < 4294967296 →
          (L : Int) = min (((count : Int) - produced pre) / 2) 32768))) := by
  refine ⟨winfs_open_restart_scan, winfs_llseek_restart_scan, ?_⟩
  intro H answers rs count cb
  obtain ⟨ht, hflag, ⟨suf, hfirst⟩, _⟩ := winfs_getdents_spec H answers rs count cb
  refine ⟨hflag, ⟨_, _, hfirst⟩, ?_⟩
  intro pre L r post hev
  obtain ⟨hnn, hL, hr⟩ := GoodTrace_split count rs _ _ _ _ ht hev
  refine ⟨hr, hL, ?_⟩
  intro hc h2 h3
  have h1 := produced_nonneg pre hnn
  rw [hL, to_int_of_range _ (by omega) h2]
  exact getdents_query_length_eq count _ hc h3

theorem winfs_llseek_run :
    winfs_llseek 5 10 0 (-2) SEEK_END =
      ⟨0, some 8, 8, 0,
        [.AcquireSRWLockShared, .WaitForSingleObject, .ReleaseMutex, .ReleaseSRWLockExclusive]⟩ ∧
    winfs_llseek 5 10 1 (-20) SEEK_CUR =
      ⟨-L_EINVAL, none, 5, 1, [.AcquireSRWLockShared, .WaitForSingleObject]⟩ ∧
    winfs_llseek 5 10 1 0 7 = ⟨-L_EINVAL, none, 5, 1, []⟩ := by
  decide

/-! ### `winfs_rename` -/

theorem winfs_rename_run :
    winfs_rename ascii_converter ⟨0, [92, 63, 63, 92, 67, 58]⟩ [98]
      (fun k => [STATUS_ACCESS_DENIED, 0, 0, 0, 0].getD k 0) =
      ⟨0, [(.FileRenameInformation true (some [92, 63, 63, 92, 67, 58, 92, 98]), STATUS_ACCESS_DENIED),
           (.NtOpenFile [92, 63, 63, 92, 67, 58, 92, 98] DELETE FILE_SHARE_DELETE 0x4040, 0),
           (.FileDispositionInformation, 0), (.NtClose, 0),
           (.FileRenameInformation true (some [92, 63, 63, 92, 67, 58, 92, 98]), 0)],
        [.AcquireSRWLockShared, .ReleaseSRWLockShared]⟩ ∧
    (winfs_rename ascii_converter ⟨0, [92, 63, 63, 92, 67, 58]⟩ [98]
      (fun k => if k % 4 = 0 then STATUS_ACCESS_DENIED else 0)).ret = -L_EPERM ∧
    rename_statuses (winfs_rename ascii_converter ⟨0, [92, 63, 63, 92, 67, 58]⟩ [98]
      (fun k => if k % 4 = 0 then STATUS_ACCESS_DENIED else 0)).calls
      = [STATUS_ACCESS_DENIED, STATUS_ACCESS_DENIED, STATUS_ACCESS_DENIED, STATUS_ACCESS_DENIED] := by
  decide

theorem rename_statuses_append (a b : List NsEvent) :
    rename_statuses (a ++ b) = rename_statuses a ++ rename_statuses b := by
  simp [rename_statuses]

theorem rename_statuses_ns_call (host : Nat → Nat) (ev : List NsEvent) (c : NsCall) :
    rename_statuses (ns_call host ev c).2 =
      rename_statuses ev ++
        (if NsEvent.is_rename_replace (c, host ev.length) then [(ns_call host ev c).1] else []) := by
  unfold ns_call
  rw [rename_statuses_append]
  simp only [rename_statuses, List.filter_cons, List.filter_nil]
  split <;> simp

theorem move_to_recycle_bin_rename_statuses (host : Nat → Nat) (ev : List NsEvent) :
    rename_statuses (move_to_recycle_bin host ev).2 = rename_statuses ev := by
  unfold move_to_recycle_bin
  simp only
  split_ifs <;> simp [rename_statuses_ns_call, NsEvent.is_rename_replace]

theorem winfs_unlink_disposition_rename_statuses (host : Nat → Nat) (ev : List NsEvent) :
    rename_statuses (winfs_unlink_disposition host ev).2 = rename_statuses ev := by
  unfold winfs_unlink_disposition
  simp only
  split_ifs <;> simp [rename_statuses_ns_call, NsEvent.is_rename_replace]

theorem winfs_unlink_disposition_ret (host : Nat → Nat) (ev : List NsEvent) :
    (winfs_unlink_disposition host ev).1 = 0 ∨
    (winfs_unlink_disposition host ev).1 = -L_EBUSY := by
  unfold winfs_unlink_disposition
  simp only
  split_ifs
  · exact Or.inr rfl
  · exact Or.inl rfl

/-- The calls of `winfs_unlink` hold no rename-with-replace request. -/
theorem winfs_unlink_rename_statuses (conv : Utf16Converter) (mp : mount_point)
    (pathname : List Nat) (host : Nat → Nat) (ev : List NsEvent) :
    rename_statuses (winfs_unlink conv mp pathname host ev).2 = rename_statuses ev := by
  unfold winfs_unlink
  simp only
  split_ifs <;>
    simp only [winfs_unlink_disposition_rename_statuses, move_to_recycle_bin_rename_statuses,
      rename_statuses_ns_call, NsEvent.is_rename_replace, Bool.false_eq_true, if_false,
      List.append_nil]

/-- The value `winfs_unlink` returns is 0, `-L_ENOENT` or `-L_EBUSY`. -/
theorem winfs_unlink_ret (conv : Utf16Converter) (mp : mount_point)
    (pathname : List Nat) (host : Nat → Nat) (ev : List NsEvent) :
    (winfs_unlink conv mp pathname host ev).1 = 0 ∨
    (winfs_unlink conv mp pathname host ev).1 = -L_ENOENT ∨
    (winfs_unlink conv mp pathname host ev).1 = -L_EBUSY := by
  unfold winfs_unlink
  simp only
  split_ifs
  · exact Or.inr (Or.inl rfl)
  · exact Or.inr (Or.inl rfl)
  · exact Or.inr (Or.inr rfl)
  · exact Or.inr (Or.inr rfl)
  · rcases winfs_unlink_disposition_ret host _ with h | h
    · exact Or.inl h
    · exact Or.inr (Or.inr h)
  · rcases winfs_unlink_disposition_ret host _ with h | h
    · exact Or.inl h
    · exact Or.inr (Or.inr h)

theorem winfs_unlink_ret_ne_eperm (conv : Utf16Converter) (mp : mount_point)
    (pathname : List Nat) (host : Nat → Nat) (ev : List NsEvent) :
    (winfs_unlink conv mp pathname host ev).1 ≠ -L_EPERM := by
  have h1 : (0 : Int) ≠ -L_EPERM := by decide
  have h2 : (-L_ENOENT : Int) ≠ -L_EPERM := by decide
  have h3 : (-L_EBUSY : Int) ≠ -L_EPERM := by decide
  rcases winfs_unlink_ret conv mp pathname host ev with h | h | h <;> rw [h] <;> assumption

theorem NT_SUCCESS_ACCESS_DENIED : NT_SUCCESS STATUS_ACCESS_DENIED = false := by decide

/-- The loop of `winfs_rename`, entered with `retry_count = n + 1` and `r = 0` when the
path translates, is the reference with `n` attempts. -/
theorem winfs_rename_retry_eq_ref (conv : Utf16Converter) (mp : mount_point)
    (newpath : List Nat) (host : Nat → Nat)
    (hlen : (2 * (filename_to_nt_pathname conv mp newpath PATH_MAX).ret % 4294967296).toNat ≠ 0) :
    ∀ (n : Nat) (ev : List NsEvent),
      winfs_rename_retry conv mp newpath host (n + 1) 0 ev =
        rename_ref (winfs_unlink conv mp newpath host) host
          ((Mem.apply (fun _ => 0) (filename_to_nt_pathname conv mp newpath PATH_MAX).writes).read
            ((2 * (filename_to_nt_pathname conv mp newpath PATH_MAX).ret % 4294967296).toNat / 2))
          n ev := by
  intro n
  induction n with
  | zero =>
    intro ev
    simp [winfs_rename_retry, rename_ref]
  | succ n ih =>
    intro ev
    rw [winfs_rename_retry, if_neg (by omega), rename_ref]
    unfold winfs_rename_iter
    simp only
    rw [if_neg hlen]
    generalize hname : (Mem.apply (fun _ => 0)
      (filename_to_nt_pathname conv mp newpath PATH_MAX).writes).read
      ((2 * (filename_to_nt_pathname conv mp newpath PATH_MAX).ret % 4294967296).toNat / 2) = name
      at ih ⊢
    generalize ns_call host ev (.FileRenameInformation true (some name)) = s
    by_cases hs : NT_SUCCESS s.1 = true
    · simp [hs]
    · by_cases hd : s.1 = STATUS_ACCESS_DENIED
      · by_cases hu : (winfs_unlink conv mp newpath host s.2).1 = 0
        · simp only [hd, hu, NT_SUCCESS_ACCESS_DENIED, Bool.not_false, if_true, if_false,
            Bool.false_eq_true, ne_eq, not_true_eq_false]
          exact ih _
        · simp [hd, hu, NT_SUCCESS_ACCESS_DENIED]
      · simp [hs, hd]

/-- The rename-with-replace requests of the reference: at most `attempts` new ones, and
all of them denied when the result is the permission error. -/
theorem rename_ref_statuses (unlink : List NsEvent → Int × List NsEvent) (host : Nat → Nat)
    (name : List Nat)
    (hU : ∀ ev, rename_statuses (unlink ev).2 = rename_statuses ev)
    (hP : ∀ ev, (unlink ev).1 ≠ -L_EPERM) :
    ∀ (n : Nat) (ev : List NsEvent),
      ∃ new, rename_statuses (rename_ref unlink host name n ev).2 = rename_statuses ev ++ new ∧
        new.length ≤ n ∧ (0 < n → 0 < new.length) ∧
        ((rename_ref unlink host name n ev).1 = -L_EPERM →
          new = List.replicate n STATUS_ACCESS_DENIED) := by
  have h0 : (0 : Int) ≠ -L_EPERM := by decide
  have h2 : (-L_ENOENT : Int) ≠ -L_EPERM := by decide
  intro n
  induction n with
  | zero =>
    intro ev
    exact ⟨[], by simp [rename_ref], le_refl _, fun h => absurd h (by omega), fun _ => rfl⟩
  | succ n ih =>
    intro ev
    have hst : rename_statuses (ns_call host ev (.FileRenameInformation true (some name))).2
        = rename_statuses ev ++ [(ns_call host ev (.FileRenameInformation true (some name))).1] := by
      rw [rename_statuses_ns_call]
      simp [NsEvent.is_rename_replace]
    rw [rename_ref]
    split
    · exact ⟨_, hst, by simp, fun _ => by simp, fun h => absurd h h0⟩
    · split
      · rename_i hd
        split
        · obtain ⟨new, e1, e2, _, e3⟩ := ih (unlink (ns_call host ev
            (.FileRenameInformation true (some name))).2).2
          refine ⟨(ns_call host ev (.FileRenameInformation true (some name))).1 :: new, ?_, ?_,
            fun _ => by simp, ?_⟩
          · rw [e1, hU, hst]
            simp
          · simp only [List.length_cons]
            omega
          · intro h
            rw [e3 h, hd]
            rfl
        · exact ⟨_, by rw [hU, hst], by simp, fun _ => by simp, fun h => absurd h (hP _)⟩
      · exact ⟨_, hst, by simp, fun _ => by simp, fun h => absurd h h2⟩

/-- The reference when every attempt is denied and every unlink succeeds: the permission
error, after `n` rounds. -/
theorem rename_ref_all_denied (unlink : List NsEvent → Int × List NsEvent) (host : Nat → Nat)
    (name : List Nat) :
    ∀ (n : Nat) (ev : List NsEvent),
      (∀ i, i < n → round_denied unlink host name ((rename_round unlink host name)^[i] ev)) →
      rename_ref unlink host name n ev = (-L_EPERM, (rename_round unlink host name)^[n] ev) := by
  intro n
  induction n with
  | zero =>
    intro ev _
    rfl
  | succ n ih =>
    intro ev h
    have h0 := h 0 (by omega)
    simp only [Function.iterate_zero, id_eq] at h0
    obtain ⟨hd, hu⟩ := h0
    rw [rename_ref]
    rw [hd, NT_SUCCESS_ACCESS_DENIED]
    simp only [Bool.false_eq_true, if_false, if_true]
    rw [if_pos hu, Function.iterate_succ_apply]
    apply ih
    intro i hi
    have := h (i + 1) (by omega)
    rw [Function.iterate_succ_apply] at this
    exact this

/-- The run of `winfs_rename` when the path does not translate: not-found, no host call. -/
theorem winfs_rename_no_name (conv : Utf16Converter) (mp : mount_point) (newpath : List Nat)
    (host : Nat → Nat)
    (hlen : (2 * (filename_to_nt_pathname conv mp newpath PATH_MAX).ret % 4294967296).toNat = 0) :
    winfs_rename conv mp newpath host =
      ⟨-L_ENOENT, [], [.AcquireSRWLockShared, .ReleaseSRWLockShared]⟩ := by
  unfold winfs_rename
  rw [winfs_rename_retry, if_neg (by omega)]
  unfold winfs_rename_iter
  simp only
  rw [if_pos hlen]

/-- C20: `winfs_rename` for every sequence of host answers.  When the path does not
translate it returns not-found without a host call.  When it translates, the run is that
of the reference `rename_ref` with 4 attempts (each a rename-with-replace request;
success gives 0, "access denied" is followed by the unlink of the destination and either
its error or the next attempt, another failure gives not-found); at least one and at most
4 rename-with-replace requests are issued; when the 4 attempts are all denied, each
followed by a successful unlink, the permission error is returned; and the permission
error is returned only after 4 denied requests. -/
theorem rename_retries_bounded (conv : Utf16Converter) (mp : mount_point) (newpath : List Nat)
    (host : Nat → Nat) :
    ((filename_to_nt_pathname conv mp newpath PATH_MAX).ret = 0 →
      (winfs_rename conv mp newpath host).ret = -L_ENOENT ∧
      (winfs_rename conv mp newpath host).calls = []) ∧
    ((2 * (filename_to_nt_pathname conv mp newpath PATH_MAX).ret % 4294967296).toNat ≠ 0 →
      ((winfs_rename conv mp newpath host).ret, (winfs_rename conv mp newpath host).calls) =
        rename_ref (winfs_unlink conv mp newpath host) host
          ((Mem.apply (fun _ => 0) (filename_to_nt_pathname conv mp newpath PATH_MAX).writes).read
            ((2 * (filename_to_nt_pathname conv mp newpath PATH_MAX).ret % 4294967296).toNat / 2))
          4 [] ∧
      0 < (rename_statuses (winfs_rename conv mp newpath host).calls).length ∧
      ((∀ i, i < 4 → round_denied (winfs_unlink conv mp newpath host) host
          ((Mem.apply (fun _ => 0) (filename_to_nt_pathname conv mp newpath PATH_MAX).writes).read
            ((2 * (filename_to_nt_pathname conv mp newpath PATH_MAX).ret % 4294967296).toNat / 2))
          ((rename_round (winfs_unlink conv mp newpath host) host
            ((Mem.apply (fun _ => 0)
              (filename_to_nt_pathname conv mp newpath PATH_MAX).writes).read
              ((2 * (filename_to_nt_pathname conv mp newpath PATH_MAX).ret
                % 4294967296).toNat / 2)))^[i] [])) →
        (winfs_rename conv mp newpath host).ret = -L_EPERM)) ∧
    (rename_statuses (winfs_rename conv mp newpath host).calls).length ≤ 4 ∧
    ((winfs_rename conv mp newpath host).ret = -L_EPERM →
      rename_statuses (winfs_rename conv mp newpath host).calls =
        List.replicate 4 STATUS_ACCESS_DENIED) := by
  have hne : (-L_ENOENT : Int) ≠ -L_EPERM := by decide
  by_cases hlen :
      (2 * (filename_to_nt_pathname conv mp newpath PATH_MAX).ret % 4294967296).toNat = 0
  · have h := winfs_rename_no_name conv mp newpath host hlen
    rw [h]
    exact ⟨fun _ => ⟨rfl, rfl⟩, fun h2 => absurd hlen h2, by simp [rename_statuses],
      fun h2 => absurd h2 hne⟩
  · have href : ((winfs_rename conv mp newpath host).ret,
        (winfs_rename conv mp newpath host).calls) =
        rename_ref (winfs_unlink conv mp newpath host) host
          ((Mem.apply (fun _ => 0) (filename_to_nt_pathname conv mp newpath PATH_MAX).writes).read
            ((2 * (filename_to_nt_pathname conv mp newpath PATH_MAX).ret % 4294967296).toNat / 2))
          4 [] := by
      rw [← winfs_rename_retry_eq_ref conv mp newpath host hlen 4 []]
      rfl
    obtain ⟨new, e1, e2, e3, e4⟩ := rename_ref_statuses (winfs_unlink conv mp newpath host) host
      ((Mem.apply (fun _ => 0) (filename_to_nt_pathname conv mp newpath PATH_MAX).writes).read
        ((2 * (filename_to_nt_pathname conv mp newpath PATH_MAX).ret % 4294967296).toNat / 2))
      (winfs_unlink_rename_statuses conv mp newpath host)
      (winfs_unlink_ret_ne_eperm conv mp newpath host) 4 []
    rw [← href] at e1 e4
    simp only [rename_statuses, List.filter_nil, List.map_nil, List.nil_append] at e1
    have e1b : rename_statuses (winfs_rename conv mp newpath host).calls = new := e1
    refine ⟨fun h0 => absurd (by rw [h0]; rfl) hlen, fun _ => ⟨href, ?_, ?_⟩, ?_, ?_⟩
    · rw [e1b]
      exact e3 (by omega)
    · intro hall
      have := rename_ref_all_denied (winfs_unlink conv mp newpath host) host _ 4 [] hall
      rw [← href] at this
      exact congrArg Prod.fst this
    · rw [e1b]
      exact e2
    · intro h
      rw [e1b]
      exact e4 h

/-- C20 witness: a host that denies every rename request (the calls number 0, 4, 8, 12)
and lets every unlink succeed: `winfs_rename` of the path `b` returns `-L_EPERM` after 4
requests. -/
theorem rename_retries_bounded_witness :
    (winfs_rename ascii_converter ⟨0, [92, 63, 63, 92, 67, 58]⟩ [98]
      (fun k => if k % 4 = 0 then STATUS_ACCESS_DENIED else 0)).ret = -L_EPERM ∧
    rename_statuses (winfs_rename ascii_converter ⟨0, [92, 63, 63, 92, 67, 58]⟩ [98]
      (fun k => if k % 4 = 0 then STATUS_ACCESS_DENIED else 0)).calls =
        List.replicate 4 STATUS_ACCESS_DENIED :=
  ⟨by decide,
   (rename_retries_bounded ascii_converter ⟨0, [92, 63, 63, 92, 67, 58]⟩ [98]
      (fun k => if k % 4 = 0 then STATUS_ACCESS_DENIED else 0)).2.2.2 (by decide)⟩

/-- The value `winfs_readlink` returns: that of the reader, with 0 turned into
`-L_EINVAL`. -/
theorem winfs_readlink_ret (H : winfs_h) (h : HostFile) (cursor : Nat) (target_null : Bool)
    (buflen : Nat) :
    (winfs_readlink H h cursor target_null buflen).ret =
      if ( winfs_read_symlink_unsafe H h cursor target_null (to_int buflen)).ret = 0
      then -L_EINVAL
      else ( winfs_read_symlink_unsafe H h cursor target_null (to_int buflen)).ret := by
  rfl

theorem winfs_readlink_run :
    (winfs_readlink ⟨[33, 60, 83, 62], [33, 60, 85, 62], 4⟩
      { attributes := 4, content := [33, 60, 83, 62, 47, 97] } 0 false 100).ret = 2 ∧
    (winfs_readlink ⟨[33, 60, 83, 62], [33, 60, 85, 62], 4⟩
      { attributes := 0x80, content := [104, 105] } 0 false 100).ret = -L_EINVAL := by
  decide

theorem winfs_unlink_run :
    winfs_unlink ascii_converter ⟨0, [92, 63, 63, 92, 67, 58]⟩ [98]
      (fun k => [STATUS_SHARING_VIOLATION, 0, 0, 0, 0, 0].getD k 0) [] =
      (0, [(.NtOpenFile [92, 63, 63, 92, 67, 58, 92, 98] DELETE FILE_SHARE_DELETE 0x4040,
              STATUS_SHARING_VIOLATION),
           (.NtOpenFile [92, 63, 63, 92, 67, 58, 92, 98] DELETE 7 0x4040, 0),
           (.FileInternalInformation, 0),
           (.FileRenameInformation false none, 0),
           (.FileDispositionInformation, 0),
           (.NtClose, 0)]) ∧
    (winfs_unlink ascii_converter ⟨0, [92, 63, 63, 92, 67, 58]⟩ [98]
      (fun _ => STATUS_OBJECT_NAME_NOT_FOUND) []).1 = -L_ENOENT ∧
    (winfs_unlink ascii_converter ⟨0, [92, 63, 63, 92, 67, 58]⟩ [98]
      (fun k => [0, STATUS_ACCESS_DENIED].getD k 0) []).1 = -L_EBUSY := by
  decide

/-! ### `winfs_unlink` -/

theorem NT_SUCCESS_SHARING_VIOLATION : NT_SUCCESS STATUS_SHARING_VIOLATION = false := by decide

/-- A `winfs_unlink` that returns 0 has set the delete disposition with success. -/
theorem winfs_unlink_zero_disposition (conv : Utf16Converter) (mp : mount_point)
    (pathname : List Nat) (host : Nat → Nat) (ev : List NsEvent)
    (h0 : (winfs_unlink conv mp pathname host ev).1 = 0) :
    ∃ st, (NsCall.FileDispositionInformation, st) ∈ (winfs_unlink conv mp pathname host ev).2 ∧
      NT_SUCCESS st = true := by
  have hne1 : (-L_ENOENT : Int) ≠ 0 := by decide
  have hne2 : (-L_EBUSY : Int) ≠ 0 := by decide
  have key : ∀ ev2 : List NsEvent, (winfs_unlink_disposition host ev2).1 = 0 →
      ∃ st, (NsCall.FileDispositionInformation, st) ∈ (winfs_unlink_disposition host ev2).2 ∧
        NT_SUCCESS st = true := by
    intro ev2 h
    unfold winfs_unlink_disposition at h ⊢
    simp only at h ⊢
    split at h
    · exact absurd h hne2
    · rename_i hs
      rw [if_neg hs]
      exact ⟨host ev2.length, by simp [ns_call], by simpa [ns_call] using hs⟩
  unfold winfs_unlink at h0 ⊢
  simp only at h0 ⊢
  split_ifs at h0 ⊢
  · exact absurd h0 hne1
  · exact absurd h0 hne1
  · exact absurd h0 hne2
  · exact absurd h0 hne2
  · exact key _ h0
  · exact key _ h0

/-- C21: `winfs_unlink` for every sequence of host answers (`host k` answers the call
number `k`).  A path that does not translate gives not-found without a host call.  Else
the first call opens the target with `DELETE` access only, sharing `FILE_SHARE_DELETE`;
if it fails with a status other than the sharing violation the result is not-found; on a
sharing violation the target is opened again with all sharing, its file id is queried and
it is renamed into the recycle bin, a failure of any of the three giving busy; then the
delete disposition is set: busy if that fails, else the handle is closed and the result is
0.  The result is 0 only if the disposition was set with success. -/
theorem winfs_unlink_decision_table (conv : Utf16Converter) (mp : mount_point)
    (pathname : List Nat) (host : Nat → Nat) :
    ((filename_to_nt_pathname conv mp pathname PATH_MAX).ret ≤ 0 →
      winfs_unlink conv mp pathname host [] = (-L_ENOENT, [])) ∧
    ((winfs_unlink conv mp pathname host []).1 = 0 →
      ∃ st, (NsCall.FileDispositionInformation, st) ∈ (winfs_unlink conv mp pathname host []).2 ∧
        NT_SUCCESS st = true) ∧
    (0 < (filename_to_nt_pathname conv mp pathname PATH_MAX).ret →
      ∀ name : List Nat,
      name = (Mem.apply (fun _ => 0) (filename_to_nt_pathname conv mp pathname PATH_MAX).writes).read
        (((filename_to_nt_pathname conv mp pathname PATH_MAX).ret * 2 % 65536).toNat / 2) →
      ∀ open1 open2 : NsCall,
      open1 = .NtOpenFile name DELETE FILE_SHARE_DELETE
        (FILE_NON_DIRECTORY_FILE ||| FILE_OPEN_FOR_BACKUP_INTENT) →
      open2 = .NtOpenFile name DELETE (FILE_SHARE_READ ||| FILE_SHARE_WRITE ||| FILE_SHARE_DELETE)
        (FILE_NON_DIRECTORY_FILE ||| FILE_OPEN_FOR_BACKUP_INTENT) →
      (NT_SUCCESS (host 0) = true → NT_SUCCESS (host 1) = true →
        winfs_unlink conv mp pathname host [] =
          (0, [(open1, host 0), (.FileDispositionInformation, host 1), (.NtClose, host 2)])) ∧
      (NT_SUCCESS (host 0) = true → NT_SUCCESS (host 1) = false →
        winfs_unlink conv mp pathname host [] =
          (-L_EBUSY, [(open1, host 0), (.FileDispositionInformation, host 1)])) ∧
      (NT_SUCCESS (host 0) = false → host 0 ≠ STATUS_SHARING_VIOLATION →
        winfs_unlink conv mp pathname host [] = (-L_ENOENT, [(open1, host 0)])) ∧
      (host 0 = STATUS_SHARING_VIOLATION → NT_SUCCESS (host 1) = false →
        winfs_unlink conv mp pathname host [] =
          (-L_EBUSY, [(open1, host 0), (open2, host 1)])) ∧
      (host 0 = STATUS_SHARING_VIOLATION → NT_SUCCESS (host 1) = true →
        NT_SUCCESS (host 2) = false →
        winfs_unlink conv mp pathname host [] =
          (-L_EBUSY, [(open1, host 0), (open2, host 1), (.FileInternalInformation, host 2)])) ∧
      (host 0 = STATUS_SHARING_VIOLATION → NT_SUCCESS (host 1) = true →
        NT_SUCCESS (host 2) = true → NT_SUCCESS (host 3) = false →
        winfs_unlink conv mp pathname host [] =
          (-L_EBUSY, [(open1, host 0), (open2, host 1), (.FileInternalInformation, host 2),
            (.FileRenameInformation false none, host 3)])) ∧
      (host 0 = STATUS_SHARING_VIOLATION → NT_SUCCESS (host 1) = true →
        NT_SUCCESS (host 2) = true → NT_SUCCESS (host 3) = true → NT_SUCCESS (host 4) = false →
        winfs_unlink conv mp pathname host [] =
          (-L_EBUSY, [(open1, host 0), (open2, host 1), (.FileInternalInformation, host 2),
            (.FileRenameInformation false none, host 3),
            (.FileDispositionInformation, host 4)])) ∧
      (host 0 = STATUS_SHARING_VIOLATION → NT_SUCCESS (host 1) = true →
        NT_SUCCESS (host 2) = true → NT_SUCCESS (host 3) = true → NT_SUCCESS (host 4) = true →
        winfs_unlink conv mp pathname host [] =
          (0, [(open1, host 0), (open2, host 1), (.FileInternalInformation, host 2),
            (.FileRenameInformation false none, host 3),
            (.FileDispositionInformation, host 4), (.NtClose, host 5)]))) := by
  refine ⟨?_, winfs_unlink_zero_disposition conv mp pathname host [], ?_⟩
  · intro h
    unfold winfs_unlink
    simp only
    rw [if_pos h]
  · intro hpos name hname open1 open2 ho1 ho2
    have hnp : ¬ (filename_to_nt_pathname conv mp pathname PATH_MAX).ret ≤ 0 := by omega
    subst ho1 ho2
    unfold winfs_unlink
    simp only
    rw [if_neg hnp, ← hname]
    have hsv := NT_SUCCESS_SHARING_VIOLATION
    refine ⟨?_, ?_, ?_, ?_, ?_, ?_, ?_, ?_⟩
    · intro h0 h1
      simp [ns_call, winfs_unlink_disposition, h0, h1]
    · intro h0 h1
      simp [ns_call, winfs_unlink_disposition, h0, h1]
    · intro h0 h1
      simp [ns_call, h0, h1]
    · intro h0 h1
      simp [ns_call, h0, h1, hsv]
    · intro h0 h1 h2
      simp [ns_call, move_to_recycle_bin, h0, h1, h2, hsv]
    · intro h0 h1 h2 h3
      simp [ns_call, move_to_recycle_bin, h0, h1, h2, h3, hsv]
    · intro h0 h1 h2 h3 h4
      simp [ns_call, move_to_recycle_bin, winfs_unlink_disposition, h0, h1, h2, h3, h4, hsv]
      decide
    · intro h0 h1 h2 h3 h4
      simp [ns_call, move_to_recycle_bin, winfs_unlink_disposition, h0, h1, h2, h3, h4, hsv]
      decide

/-- C21 witness: the host answers a sharing violation to the first open of `b` and
success to every later call: the file is opened again, moved to the recycle bin and marked
for deletion, and `winfs_unlink` returns 0. -/
theorem winfs_unlink_decision_table_witness :
    0 < (filename_to_nt_pathname ascii_converter ⟨0, [92, 63, 63, 92, 67, 58]⟩ [98] PATH_MAX).ret ∧
    winfs_unlink ascii_converter ⟨0, [92, 63, 63, 92, 67, 58]⟩ [98]
      (fun k => [STATUS_SHARING_VIOLATION, 0, 0, 0, 0, 0].getD k 0) [] =
      (0, [(.NtOpenFile [92, 63, 63, 92, 67, 58, 92, 98] DELETE FILE_SHARE_DELETE
              (FILE_NON_DIRECTORY_FILE ||| FILE_OPEN_FOR_BACKUP_INTENT),
              [STATUS_SHARING_VIOLATION, 0, 0, 0, 0, 0].getD 0 0),
           (.NtOpenFile [92, 63, 63, 92, 67, 58, 92, 98] DELETE
              (FILE_SHARE_READ ||| FILE_SHARE_WRITE ||| FILE_SHARE_DELETE)
              (FILE_NON_DIRECTORY_FILE ||| FILE_OPEN_FOR_BACKUP_INTENT),
              [STATUS_SHARING_VIOLATION, 0, 0, 0, 0, 0].getD 1 0),
           (.FileInternalInformation, [STATUS_SHARING_VIOLATION, 0, 0, 0, 0, 0].getD 2 0),
           (.FileRenameInformation false none, [STATUS_SHARING_VIOLATION, 0, 0, 0, 0, 0].getD 3 0),
           (.FileDispositionInformation, [STATUS_SHARING_VIOLATION, 0, 0, 0, 0, 0].getD 4 0),
           (.NtClose, [STATUS_SHARING_VIOLATION, 0, 0, 0, 0, 0].getD 5 0)]) :=
  ⟨by decide,
   ((winfs_unlink_decision_table ascii_converter ⟨0, [92, 63, 63, 92, 67, 58]⟩ [98]
      (fun k => [STATUS_SHARING_VIOLATION, 0, 0, 0, 0, 0].getD k 0)).2.2 (by decide)
      [92, 63, 63, 92, 67, 58, 92, 98] (by decide) _ _ rfl rfl).2.2.2.2.2.2.2
      (by decide) (by decide) (by decide) (by decide) (by decide)⟩

/-! ### `winfs_stat` and the locks -/

theorem winfs_stat_run :
    (winfs_stat ⟨[33, 60, 83, 62], [33, 60, 85, 62], 4⟩
      { attributes := 4, content := [47, 97], meta := .record 'L'.toNat 0o777 0 0 }
      ⟨4, 0, 2, 1, 5, 3⟩ 7) =
      ⟨0, ⟨2048, 6, 0o120755, 2, 1, 0, 0, 0, 4096, 1⟩, 7,
        [.AcquireSRWLockShared, .WaitForSingleObject, .ReleaseMutex, .ReleaseSRWLockShared]⟩ ∧
    (winfs_stat ⟨[33, 60, 83, 62], [33, 60, 85, 62], 4⟩
      { attributes := 0x10, content := [] } ⟨0x11, 0, 0, 1, 0, 9⟩ 0).buf.st_mode = 0o040555 := by
  decide

/-- The file pointer of the handle after `winfs_stat` is the one before it. -/
theorem winfs_stat_cursor (H : winfs_h) (h : HostFile) (info : BY_HANDLE_FILE_INFORMATION)
    (cursor : Nat) : (winfs_stat H h info cursor).cursor = cursor := by
  unfold winfs_stat
  simp only [SetFilePointerEx_current_zero, SetFilePointerEx_begin, Option.getD_some]
  split
  · rfl
  · split <;> rfl

/-- Mode and size `winfs_stat` reports for a file that is not a directory and has no
sidecar record of symlink type: a regular file with the host file size, whatever the
content. -/
theorem winfs_stat_without_sidecar (H : winfs_h) (h : HostFile)
    (info : BY_HANDLE_FILE_INFORMATION) (cursor : Nat)
    (hdir : has_flag info.dwFileAttributes FILE_ATTRIBUTE_DIRECTORY = false)
    (hmeta : (read_meta_file_h h).map metadata.type ≠ some MD_TYPE_SYMLINK) :
    (winfs_stat H h info cursor).buf.st_mode =
      (if has_flag info.dwFileAttributes FILE_ATTRIBUTE_READONLY then 0o555 else 0o755)
        ||| S_IFREG ∧
    (winfs_stat H h info cursor).buf.st_size =
      (info.nFileSizeHigh * 4294967296 + info.nFileSizeLow : Nat) := by
  have hret : (winfs_get_special_file_type H h cursor).ret = 0 := by
    rw [winfs_get_special_file_type_ret, if_neg hmeta]
  unfold winfs_stat
  simp only [hdir, Bool.false_eq_true, if_false, hret, winfs_stat_overlay]
  split <;> exact ⟨rfl, rfl⟩

/-- C22 (failing input): `winfs_stat` on the file `!<S>/a` (system attribute, no sidecar
record, 6 bytes, content beginning with the symlink magic) reports the type "regular" and
the size 6, and on the file `!<U>x` (content beginning with the socket magic) the type
"regular" and the size 5; the overlay of lines 796-814 applied to the type that comparison
of the header gives reports "symlink" with size 2 and "socket" with size 0.  The file
pointer after `winfs_stat` is the one before it. -/
theorem stat_reports_inband_symlink_as_regular :
    (winfs_stat ⟨[33, 60, 83, 62], [33, 60, 85, 62], 4⟩
      { attributes := 4, content := [33, 60, 83, 62, 47, 97] } ⟨4, 0, 6, 1, 0, 1⟩ 3).buf.st_mode
      &&& S_IFMT = S_IFREG ∧
    (winfs_stat ⟨[33, 60, 83, 62], [33, 60, 85, 62], 4⟩
      { attributes := 4, content := [33, 60, 83, 62, 47, 97] } ⟨4, 0, 6, 1, 0, 1⟩ 3).buf.st_size
      = 6 ∧
    ((winfs_stat_overlay ⟨[33, 60, 83, 62], [33, 60, 85, 62], 4⟩ (0o755 ||| S_IFREG) 6
      (special_file_type_by_content ⟨[33, 60, 83, 62], [33, 60, 85, 62], 4⟩
        { attributes := 4, content := [33, 60, 83, 62, 47, 97] })).1 &&& S_IFMT = S_IFLNK ∧
     (winfs_stat_overlay ⟨[33, 60, 83, 62], [33, 60, 85, 62], 4⟩ (0o755 ||| S_IFREG) 6
      (special_file_type_by_content ⟨[33, 60, 83, 62], [33, 60, 85, 62], 4⟩
        { attributes := 4, content := [33, 60, 83, 62, 47, 97] })).2 = 2) ∧
    (winfs_stat ⟨[33, 60, 83, 62], [33, 60, 85, 62], 4⟩
      { attributes := 4, content := [33, 60, 85, 62, 120] } ⟨4, 0, 5, 1, 0, 2⟩ 3).buf.st_mode
      &&& S_IFMT = S_IFREG ∧
    (winfs_stat ⟨[33, 60, 83, 62], [33, 60, 85, 62], 4⟩
      { attributes := 4, content := [33, 60, 85, 62, 120] } ⟨4, 0, 5, 1, 0, 2⟩ 3).buf.st_size
      = 5 ∧
    ((winfs_stat_overlay ⟨[33, 60, 83, 62], [33, 60, 85, 62], 4⟩ (0o755 ||| S_IFREG) 5
      (special_file_type_by_content ⟨[33, 60, 83, 62], [33, 60, 85, 62], 4⟩
        { attributes := 4, content := [33, 60, 85, 62, 120] })).1 &&& S_IFMT = S_IFSOCK ∧
     (winfs_stat_overlay ⟨[33, 60, 83, 62], [33, 60, 85, 62], 4⟩ (0o755 ||| S_IFREG) 5
      (special_file_type_by_content ⟨[33, 60, 83, 62], [33, 60, 85, 62], 4⟩
        { attributes := 4, content := [33, 60, 85, 62, 120] })).2 = 0) ∧
    (winfs_stat ⟨[33, 60, 83, 62], [33, 60, 85, 62], 4⟩
      { attributes := 4, content := [33, 60, 83, 62, 47, 97] } ⟨4, 0, 6, 1, 0, 1⟩ 3).cursor
      = 3 := by
  decide

theorem run_locks_shared (s : LockState) :
    run_locks s [.AcquireSRWLockShared, .ReleaseSRWLockShared] = some s := by
  simp [run_locks, lock_step]

theorem run_locks_shared_mutex (s : LockState) :
    run_locks s [.AcquireSRWLockShared, .WaitForSingleObject, .ReleaseMutex,
      .ReleaseSRWLockShared] = some s := by
  simp [run_locks, lock_step]

/-- The handle operations other than `winfs_llseek` leave both locks as they found them,
for every input and every host answer. -/
theorem handle_ops_restore_locks :
    (∀ (is_text : Bool) (h : IoHost) (buf : Mem) (count : Nat),
      locks_restored (winfs_read is_text h buf count).locks) ∧
    (∀ (append : Bool) (h : IoHost) (buf : Mem) (count : Nat),
      locks_restored (winfs_write append h buf count).locks) ∧
    (∀ (is_text : Bool) (h : IoHost) (buf : Mem) (count : Nat) (offset : Int),
      locks_restored (winfs_pread is_text h buf count offset).locks) ∧
    (∀ (h : IoHost) (buf : Mem) (count : Nat) (offset : Int),
      locks_restored (winfs_pwrite h buf count offset).locks) ∧
    (∀ (H : winfs_h) (h : HostFile) (cursor : Nat) (target_null : Bool) (buflen : Nat),
      locks_restored (winfs_readlink H h cursor target_null buflen).locks) ∧
    (∀ (length : Int) (status : Nat), locks_restored (winfs_truncate length status).locks) ∧
    (∀ ok : Bool, locks_restored (winfs_fsync ok).locks) ∧
    (∀ (H : winfs_h) (h : HostFile) (info : BY_HANDLE_FILE_INFORMATION) (cursor : Nat),
      locks_restored (winfs_stat H h info cursor).locks) ∧
    (∀ times_null : Bool, locks_restored (winfs_utimens times_null).locks) ∧
    (∀ (H : winfs_h) (answers : List DirAnswer) (rs count : Nat) (cb : getdents_callback),
      locks_restored (winfs_getdents H answers rs count cb).locks) ∧
    (∀ status : Nat, locks_restored (winfs_statfs status).locks) := by
  refine ⟨?_, ?_, ?_, ?_, ?_, ?_, ?_, ?_, ?_, ?_, ?_⟩
  · intro _ _ _ _ s
    exact run_locks_shared_mutex s
  · intro _ _ _ _ s
    exact run_locks_shared_mutex s
  · intro _ _ _ _ _ s
    exact run_locks_shared_mutex s
  · intro _ _ _ _ s
    exact run_locks_shared_mutex s
  · intro _ _ _ _ _ s
    exact run_locks_shared s
  · intro _ status s
    unfold winfs_truncate
    split <;> exact run_locks_shared s
  · intro ok s
    unfold winfs_fsync
    split <;> exact run_locks_shared s
  · intro H h info cursor s
    unfold winfs_stat
    simp only
    split
    · exact run_locks_shared s
    · split
      · exact run_locks_shared_mutex s
      · exact run_locks_shared s
  · intro t s
    unfold winfs_utimens
    split <;> exact run_locks_shared s
  · intro _ _ _ _ _ s
    exact run_locks_shared s
  · intro status s
    unfold winfs_statfs
    split <;> exact run_locks_shared s

/-- The lock operations of `winfs_llseek`: none for a `whence` that is not valid; for a
valid one the shared acquisition and the wait on the mutex, followed, only when
`SetFilePointerEx` succeeds, by the release of the mutex and a release of the validity
lock in exclusive mode. -/
theorem winfs_llseek_locks (cursor size rs : Nat) (offset whence : Int) :
    (winfs_llseek cursor size rs offset whence).locks = [] ∨
    (winfs_llseek cursor size rs offset whence).locks =
      [.AcquireSRWLockShared, .WaitForSingleObject] ∨
    (winfs_llseek cursor size rs offset whence).locks =
      [.AcquireSRWLockShared, .WaitForSingleObject, .ReleaseMutex, .ReleaseSRWLockExclusive] := by
  unfold winfs_llseek
  by_cases h1 : whence = SEEK_SET
  · rw [if_pos h1]
    rcases hsp : SetFilePointerEx cursor size offset FILE_BEGIN with _ | p <;> simp [hsp]
  · rw [if_neg h1]
    by_cases h2 : whence = SEEK_CUR
    · rw [if_pos h2]
      rcases hsp : SetFilePointerEx cursor size offset FILE_CURRENT with _ | p <;> simp [hsp]
    · rw [if_neg h2]
      by_cases h3 : whence = SEEK_END
      · rw [if_pos h3]
        rcases hsp : SetFilePointerEx cursor size offset FILE_END with _ | p <;> simp [hsp]
      · rw [if_neg h3]
        simp

/-- Whenever `winfs_llseek` takes the validity lock it does not leave the locks as it
found them (starting from a thread that holds neither lock). -/
theorem winfs_llseek_locks_not_restored (cursor size rs : Nat) (offset whence : Int)
    (h : (winfs_llseek cursor size rs offset whence).locks ≠ []) :
    run_locks ⟨0, 0, 0⟩ (winfs_llseek cursor size rs offset whence).locks ≠ some ⟨0, 0, 0⟩ := by
  rcases winfs_llseek_locks cursor size rs offset whence with h1 | h1 | h1
  · exact absurd h1 h
  · rw [h1]; decide
  · rw [h1]; decide

/-- C26 (failing input): `winfs_llseek` to offset 0 with `SEEK_SET` succeeds, and its
lock operations end with `ReleaseSRWLockExclusive` on the validity lock it acquired in
shared mode, a release that matches no acquisition; `winfs_llseek` by -20 from position 5
with `SEEK_CUR` fails in `SetFilePointerEx` and returns `-L_EINVAL` holding both the
validity lock (shared) and the position lock. -/
theorem llseek_leaves_locks_changed :
    (winfs_llseek 5 10 0 0 SEEK_SET).ret = 0 ∧
    (winfs_llseek 5 10 0 0 SEEK_SET).locks =
      [.AcquireSRWLockShared, .WaitForSingleObject, .ReleaseMutex, .ReleaseSRWLockExclusive] ∧
    run_locks ⟨0, 0, 0⟩ (winfs_llseek 5 10 0 0 SEEK_SET).locks = none ∧
    run_locks ⟨0, 0, 0⟩ [.AcquireSRWLockShared, .WaitForSingleObject, .ReleaseMutex]
      = some ⟨1, 0, 0⟩ ∧
    (winfs_llseek 5 10 0 (-20) SEEK_CUR).ret = -L_EINVAL ∧
    run_locks ⟨0, 0, 0⟩ (winfs_llseek 5 10 0 (-20) SEEK_CUR).locks = some ⟨1, 0, 1⟩ := by
  decide

/-! ### The text classification -/

theorem strrchr_eq_none (c : Nat) (s : List Nat) : strrchr c s = none ↔ c ∉ s := by
  induction s with
  | nil => simp [strrchr]
  | cons x xs ih =>
    rw [strrchr]
    cases hr : strrchr c xs with
    | some r =>
      have hin : c ∈ xs := by
        by_contra hn
        rw [ih.mpr hn] at hr
        exact absurd hr (by simp)
      simp [hin]
    | none =>
      have hnin : c ∉ xs := ih.mp hr
      by_cases hx : x = c
      · simp [hx]
      · have hx2 : ¬ c = x := fun e => hx e.symm
        simp [hx, hx2, hnin]

/-- The function `strrchr` finds the part of the string from the last occurrence of the
character. -/
theorem strrchr_eq_some (c : Nat) (s r : List Nat) :
    strrchr c s = some r ↔ ∃ pre rest, s = pre ++ c :: rest ∧ c ∉ rest ∧ r = c :: rest := by
  constructor
  · intro h
    induction s with
    | nil => simp [strrchr] at h
    | cons x xs ih =>
      rw [strrchr] at h
      cases hr : strrchr c xs with
      | some r2 =>
        rw [hr] at h
        simp only [Option.some.injEq] at h
        subst h
        obtain ⟨pre, rest, e1, e2, e3⟩ := ih hr
        exact ⟨x :: pre, rest, by rw [e1]; rfl, e2, e3⟩
      | none =>
        rw [hr] at h
        simp only at h
        split at h
        · rename_i hx
          simp only [Option.some.injEq] at h
          exact ⟨[], xs, by rw [hx]; rfl, (strrchr_eq_none c xs).mp hr, by rw [← h, hx]⟩
        · exact absurd h (by simp)
  · rintro ⟨pre, rest, e1, e2, e3⟩
    subst e1 e3
    induction pre with
    | nil =>
      rw [List.nil_append, strrchr, (strrchr_eq_none c rest).mpr e2]
      simp
    | cons p ps ih =>
      rw [List.cons_append, strrchr, ih]

/-- The classification of `winfs_open`: text exactly when the part from the last `.` is
`.c`, `.h` or `.hh`. -/
theorem winfs_open_is_text_iff (pathname : List Nat) :
    winfs_open_is_text pathname = true ↔
      ∃ pre rest, pathname = pre ++ '.'.toNat :: rest ∧ '.'.toNat ∉ rest ∧
        ('.'.toNat :: rest = ['.'.toNat, 'c'.toNat] ∨ '.'.toNat :: rest = ['.'.toNat, 'h'.toNat] ∨
          '.'.toNat :: rest = ['.'.toNat, 'h'.toNat, 'h'.toNat]) := by
  unfold winfs_open_is_text
  constructor
  · intro h
    cases hr : strrchr '.'.toNat pathname with
    | none => rw [hr] at h; simp at h
    | some ext =>
      rw [hr] at h
      obtain ⟨pre, rest, e1, e2, e3⟩ := (strrchr_eq_some _ _ _).mp hr
      refine ⟨pre, rest, e1, e2, ?_⟩
      rw [← e3]
      simpa [Bool.or_eq_true, or_assoc] using h
  · rintro ⟨pre, rest, e1, e2, e3⟩
    have hr := (strrchr_eq_some '.'.toNat pathname ('.'.toNat :: rest)).mpr ⟨pre, rest, e1, e2, rfl⟩
    rw [hr]
    simpa [Bool.or_eq_true, or_assoc] using e3

/-- The file object `winfs_open` stores has the classification of its pathname. -/
theorem winfs_open_is_text_eq (V : vfs_h) (H : winfs_h) (conv : Utf16Converter) (host : Host)
    (mp : mount_point) (pathname : List Nat) (flags internal_flags mode : Nat)
    (fp_null target_null : Bool) (buflen : Int) (f : winfs_file)
    (hf : (winfs_open V H conv host mp pathname flags internal_flags mode fp_null target_null
      buflen).fp = some f) : f.is_text = winfs_open_is_text pathname := by
  unfold winfs_open at hf
  simp only at hf
  split at hf
  · simp at hf
  · split at hf
    · simp at hf
    · split at hf
      · split at hf
        · simp at hf
        · simp only [Option.some.injEq] at hf
          rw [← hf]
      · simp at hf

/-- C23: the flag `is_text` of a file object created by `winfs_open` is the
classification of the pathname alone, whatever the flags, internal flags and mode (and the
host); and that classification is true exactly when the pathname holds a `.` and its part
from the last `.` on is `.c`, `.h` or `.hh`. -/
theorem text_flag_depends_on_pathname_only :
    (∀ (V : vfs_h) (H : winfs_h) (conv : Utf16Converter) (host : Host) (mp : mount_point)
      (pathname : List Nat) (flags internal_flags mode : Nat) (fp_null target_null : Bool)
      (buflen : Int) (f : winfs_file),
      (winfs_open V H conv host mp pathname flags internal_flags mode fp_null target_null
        buflen).fp = some f → f.is_text = winfs_open_is_text pathname) ∧
    (∀ pathname : List Nat, winfs_open_is_text pathname = true ↔
      ∃ pre rest, pathname = pre ++ '.'.toNat :: rest ∧ '.'.toNat ∉ rest ∧
        ('.'.toNat :: rest = ['.'.toNat, 'c'.toNat] ∨ '.'.toNat :: rest = ['.'.toNat, 'h'.toNat] ∨
          '.'.toNat :: rest = ['.'.toNat, 'h'.toNat, 'h'.toNat])) :=
  ⟨winfs_open_is_text_eq, winfs_open_is_text_iff⟩

/-- C23 witness: the existing file `a.b.hh`, opened read-only and opened with
`O_RDWR`, is text-translated both times; `a.c.o` would not be. -/
theorem text_flag_depends_on_pathname_only_witness :
    (winfs_open ⟨1, 2, 4, 8⟩ ⟨[33, 60, 83, 62], [33, 60, 85, 62], 4⟩ ascii_converter
      [([92, 63, 63, 92, 67, 58, 92, 97, 46, 98, 46, 104, 104],
        { attributes := 0x80, content := [104, 105] })]
      ⟨0, [92, 63, 63, 92, 67, 58]⟩ [97, 46, 98, 46, 104, 104] 0 0 0 false false 100).fp.isSome
      = true ∧
    (∀ f, (winfs_open ⟨1, 2, 4, 8⟩ ⟨[33, 60, 83, 62], [33, 60, 85, 62], 4⟩ ascii_converter
      [([92, 63, 63, 92, 67, 58, 92, 97, 46, 98, 46, 104, 104],
        { attributes := 0x80, content := [104, 105] })]
      ⟨0, [92, 63, 63, 92, 67, 58]⟩ [97, 46, 98, 46, 104, 104] O_RDWR 0 0o644 false false
      100).fp = some f → f.is_text = winfs_open_is_text [97, 46, 98, 46, 104, 104]) ∧
    winfs_open_is_text [97, 46, 98, 46, 104, 104] = true ∧
    winfs_open_is_text [97, 46, 99, 46, 111] = false :=
  ⟨by decide,
   fun f => text_flag_depends_on_pathname_only.1 ⟨1, 2, 4, 8⟩ ⟨[33, 60, 83, 62], [33, 60, 85, 62], 4⟩
     ascii_converter
     [([92, 63, 63, 92, 67, 58, 92, 97, 46, 98, 46, 104, 104],
        { attributes := 0x80, content := [104, 105] })]
     ⟨0, [92, 63, 63, 92, 67, 58]⟩ [97, 46, 98, 46, 104, 104] O_RDWR 0 0o644 false false 100 f,
   (text_flag_depends_on_pathname_only.2 [97, 46, 98, 46, 104, 104]).mpr
     ⟨[97, 46, 98], [104, 104], rfl, by decide, Or.inr (Or.inr rfl)⟩,
   by decide⟩

/-! ### The stores of the symlink reader -/

/-- The stores of `winfs_read_symlink_unsafe` into `target`: none, or the bytes read from
the file (from offset 0 or from the end of the magic header, at most `buflen` as a `DWORD`)
and a NUL after them. -/
theorem winfs_read_symlink_unsafe_stores (H : winfs_h) (h : HostFile) (cursor : Nat)
    (target_null : Bool) (buflen : Int) :
    ( winfs_read_symlink_unsafe H h cursor target_null buflen).target = [] ∨
    ∃ off bytes, (off = 0 ∨ off = H.WINFS_SYMLINK_HEADER_LEN) ∧
      off < h.content.length ∧
      bytes = (h.content.drop off).take (dword_of_int buflen) ∧
      ( winfs_read_symlink_unsafe H h cursor target_null buflen).target =
        memcpy_stores 0 bytes ++ [(bytes.length, 0)] ∧
      ( winfs_read_symlink_unsafe H h cursor target_null buflen).ret =
        int_of_dword bytes.length := by
  have hrf : ∀ (off len : Nat) (bytes : List Nat), h.ReadFile off len = some bytes →
      off < h.content.length ∧ bytes = (h.content.drop off).take len := by
    intro off len bytes hr
    unfold HostFile.ReadFile at hr
    split at hr
    · simp at hr
    · split at hr
      · simp at hr
      · rename_i h2
        exact ⟨by omega, by simpa using hr.symm⟩
  unfold winfs_read_symlink_unsafe
  simp only
  split
  · split
    · split <;> exact Or.inl rfl
    · cases hr : h.ReadFile 0 (dword_of_int buflen) with
      | none => exact Or.inl rfl
      | some bytes =>
        obtain ⟨a, b⟩ := hrf _ _ _ hr
        exact Or.inr ⟨0, bytes, Or.inl rfl, a, b, rfl, rfl⟩
  · cases hh : h.ReadFile 0 H.WINFS_SYMLINK_HEADER_LEN with
    | none => exact Or.inl rfl
    | some header =>
      simp only
      split
      · exact Or.inl rfl
      · split
        · exact Or.inl rfl
        · split
          · split <;> exact Or.inl rfl
          · cases hr : h.ReadFile H.WINFS_SYMLINK_HEADER_LEN (dword_of_int buflen) with
            | none => exact Or.inl rfl
            | some bytes =>
              obtain ⟨a, b⟩ := hrf _ _ _ hr
              exact Or.inr ⟨H.WINFS_SYMLINK_HEADER_LEN, bytes, Or.inr rfl, a, b, rfl, rfl⟩

/-- C25: `winfs_read_symlink_unsafe` with a buffer and a capacity `c > 0` (an `int`).
Every store into the buffer is at an index between 0 and `c`.  When a symlink is
recognised, the `n ≤ c` bytes read (the first `min c |target|` target bytes, the target
being the content from offset 0 or from the end of the magic header) are stored at the
indices below `n` and a NUL at index `n`; `n = c` exactly when the target holds at least
`c` bytes, and then the NUL is stored at index `c`.  The stores of `winfs_readlink` are
those of the reader. -/
theorem read_symlink_stores_within_capacity (H : winfs_h) (h : HostFile) (cursor c : Nat)
    (hc0 : 0 < c) (hc : c < 2147483648) :
    (∀ w ∈ ( winfs_read_symlink_unsafe H h cursor false c).target, w.1 ≤ c) ∧
    (0 < ( winfs_read_symlink_unsafe H h cursor false c).ret →
      ∃ off bytes, (off = 0 ∨ off = H.WINFS_SYMLINK_HEADER_LEN) ∧
        bytes = (h.content.drop off).take c ∧
        ( winfs_read_symlink_unsafe H h cursor false c).ret = bytes.length ∧
        bytes.length ≤ c ∧
        ( winfs_read_symlink_unsafe H h cursor false c).target =
          memcpy_stores 0 bytes ++ [(bytes.length, 0)] ∧
        (bytes.length = c ↔ c ≤ h.content.length - off) ∧
        (c ≤ h.content.length - off →
          ((c, 0) : Store) ∈ ( winfs_read_symlink_unsafe H h cursor false c).target)) ∧
    (winfs_readlink H h cursor false c).target =
      ( winfs_read_symlink_unsafe H h cursor false c).target := by
  have hd : dword_of_int (c : Int) = c := dword_of_int_natCast c (by omega)
  have hti : to_int (c : Int) = c := to_int_of_range _ (by omega) (by omega)
  refine ⟨?_, ?_, ?_⟩
  · intro w hw
    rcases winfs_read_symlink_unsafe_stores H h cursor false c with h0 | ⟨off, bytes, _, _, hb, ht, _⟩
    · rw [h0] at hw
      simp at hw
    · rw [ht] at hw
      have hlen : bytes.length ≤ c := by
        rw [hb, hd]
        simp
      rcases List.mem_append.mp hw with h1 | h1
      · have := (mem_memcpy_stores h1).2
        omega
      · simp only [List.mem_singleton] at h1
        rw [h1]
        exact hlen
  · intro hpos
    rcases winfs_read_symlink_unsafe_stores H h cursor false c with h0 | ⟨off, bytes, ho, hlt, hb, ht, hr⟩
    · exfalso
      have hb2 : ((c : Int) == 0) = false := natCast_beq_zero c hc0
      have := winfs_read_symlink_unsafe_target H h cursor c (by omega) hpos
      obtain ⟨_, _, _, _, ht2, _⟩ := this
      rw [h0] at ht2
      simp at ht2
    · rw [hd] at hb
      have hlen : bytes.length = min c (h.content.length - off) := by
        rw [hb]
        simp
      refine ⟨off, bytes, ho, hb, ?_, by omega, ht, by omega, ?_⟩
      · rw [hr, int_of_dword_small _ (by omega)]
      · intro hge
        rw [ht]
        have : bytes.length = c := by omega
        simp [this]
  · unfold winfs_readlink
    simp only [hti]

/-- C25 witness: the in-band symlink `!<S>/a` read with capacity 2: the two target bytes
go to the indices 0 and 1 and the NUL to index 2. -/
theorem read_symlink_stores_within_capacity_witness :
    (0 : Nat) < 2 ∧ (2 : Nat) < 2147483648 ∧
    ( winfs_read_symlink_unsafe ⟨[33, 60, 83, 62], [33, 60, 85, 62], 4⟩
      { attributes := 4, content := [33, 60, 83, 62, 47, 97] } 0 false (2 : Nat)).target
      = [(0, 47), (1, 97), (2, 0)] ∧
    (winfs_readlink ⟨[33, 60, 83, 62], [33, 60, 85, 62], 4⟩
      { attributes := 4, content := [33, 60, 83, 62, 47, 97] } 0 false 2).target =
      ( winfs_read_symlink_unsafe ⟨[33, 60, 83, 62], [33, 60, 85, 62], 4⟩
        { attributes := 4, content := [33, 60, 83, 62, 47, 97] } 0 false (2 : Nat)).target :=
  ⟨by decide, by decide, by decide,
   (read_symlink_stores_within_capacity ⟨[33, 60, 83, 62], [33, 60, 85, 62], 4⟩
      { attributes := 4, content := [33, 60, 83, 62, 47, 97] } 0 2 (by decide) (by decide)).2.2⟩

/-! ### `patch_cr` on lists -/

theorem patch_cr_loop_succ_last (start count dst : Nat) (m : Mem) :
    patch_cr_loop start (count + 1) dst m =
      patch_cr_step start (patch_cr_loop start count dst m) (dst + count) := by
  induction count generalizing dst m with
  | zero => rfl
  | succ n ih =>
    rw [patch_cr_loop, ih (dst + 1) (patch_cr_step start m dst), patch_cr_loop]
    have : dst + 1 + n = dst + (n + 1) := by omega
    rw [this]

theorem getLast?_eq_some_iff_getD (out : List Nat) (b : Nat) :
    out.getLast? = some b ↔ 0 < out.length ∧ out.getD (out.length - 1) 0 = b := by
  rw [List.getLast?_eq_getElem?]
  by_cases h : out.length = 0
  · have : out = [] := List.length_eq_zero.mp h
    subst this
    simp
  · have hlt : out.length - 1 < out.length := by omega
    rw [List.getElem?_eq_getElem hlt, List.getD_eq_getElem _ _ hlt]
    simp
    omega

theorem patch_cr_snoc_length (out : List Nat) (x : Nat) :
    (patch_cr_snoc out x).length = out.length + 1 := by
  unfold patch_cr_snoc
  split
  · split
    · rename_i hl
      have := ((getLast?_eq_some_iff_getD out BACKSLASH).mp hl).1
      simp
      omega
    · simp
  · simp

/-- Scanning a buffer with one more cell: the scan of the buffer, then the step on the
last cell. -/
theorem patch_cr_list_snoc (l : List Nat) (x : Nat) :
    patch_cr_list (l ++ [x]) = patch_cr_snoc (patch_cr_list l) x := by
  have hlen : (patch_cr_list l).length = l.length := patch_cr_list_length l
  have hM : ∀ j, j < l.length →
      patch_cr_loop 0 l.length 0 (Mem.ofList (l ++ [x])) j = (patch_cr_list l).getD j 0 := by
    intro j hj
    rw [patch_cr_list_getD l j hj]
    have := patch_cr_loop_sim 0 0 l.length l.length 0 (Mem.ofList (l ++ [x])) (Mem.ofList l)
      (by omega) (fun i hi => by
        simp only [Mem.ofList, Nat.zero_add]
        exact List.getD_append _ _ _ _ hi) j hj
    simpa using this
  have hMd : patch_cr_loop 0 l.length 0 (Mem.ofList (l ++ [x])) l.length = x := by
    rw [patch_cr_loop_above _ _ _ _ _ (by omega)]
    simp [Mem.ofList]
  have hstep : ∀ j, j < (patch_cr_snoc (patch_cr_list l) x).length →
      patch_cr_step 0 (patch_cr_loop 0 l.length 0 (Mem.ofList (l ++ [x]))) l.length j =
        (patch_cr_snoc (patch_cr_list l) x).getD j 0 := by
    intro j hj
    rw [patch_cr_snoc_length, hlen] at hj
    unfold patch_cr_step patch_cr_snoc
    rw [hMd]
    by_cases hx : x = CR
    · rw [if_pos hx, if_pos hx]
      by_cases hb : 0 < l.length ∧
          patch_cr_loop 0 l.length 0 (Mem.ofList (l ++ [x])) (l.length - 1) = BACKSLASH
      · rw [if_pos hb]
        have hlast : (patch_cr_list l).getLast? = some BACKSLASH := by
          rw [getLast?_eq_some_iff_getD, hlen]
          refine ⟨hb.1, ?_⟩
          rw [← hM _ (by omega)]
          exact hb.2
        rw [if_pos hlast]
        have hdl : (patch_cr_list l).dropLast.length = l.length - 1 := by
          simp [hlen]
        by_cases h1 : j = l.length
        · subst h1
          simp only [Mem.store, if_true]
          rw [List.getD_append_right _ _ _ _ (by omega), hdl]
          have : l.length - (l.length - 1) = 1 := by omega
          rw [this]
          rfl
        · by_cases h2 : j = l.length - 1
          · subst h2
            have hne : l.length - 1 ≠ l.length := by omega
            simp only [Mem.store, if_neg hne, if_true]
            rw [List.getD_append_right _ _ _ _ (by omega), hdl]
            simp
          · simp only [Mem.store, if_neg h1, if_neg h2]
            rw [hM j (by omega), List.getD_append _ _ _ _ (by omega)]
            rw [List.getD_eq_getElem _ _ (by omega), List.getD_eq_getElem _ _ (by omega)]
            simp
      · rw [if_neg hb]
        have hlast : ¬ (patch_cr_list l).getLast? = some BACKSLASH := by
          rw [getLast?_eq_some_iff_getD, hlen]
          intro hh
          apply hb
          refine ⟨hh.1, ?_⟩
          rw [hM _ (by omega)]
          exact hh.2
        rw [if_neg hlast]
        by_cases h1 : j = l.length
        · subst h1
          simp only [Mem.store, if_true]
          rw [List.getD_append_right _ _ _ _ (by omega), hlen]
          simp
        · simp only [Mem.store, if_neg h1]
          rw [hM j (by omega), List.getD_append _ _ _ _ (by omega)]
    · rw [if_neg hx, if_neg hx]
      by_cases h1 : j = l.length
      · subst h1
        rw [hMd, List.getD_append_right _ _ _ _ (by omega), hlen]
        simp
      · rw [hM j (by omega), List.getD_append _ _ _ _ (by omega)]
  have key := Mem.read_eq_of_getD
    (patch_cr_step 0 (patch_cr_loop 0 l.length 0 (Mem.ofList (l ++ [x]))) l.length)
    (patch_cr_snoc (patch_cr_list l) x) hstep
  rw [← key, patch_cr_snoc_length, hlen]
  unfold patch_cr_list patch_cr
  simp only [List.length_append, List.length_singleton]
  rw [patch_cr_loop_succ_last]
  simp

theorem patch_cr_list_nil : patch_cr_list [] = [] := rfl

theorem patch_cr_list_singleton (x : Nat) :
    patch_cr_list [x] = [if x = CR then SPACE else x] := by
  have := patch_cr_list_snoc [] x
  rw [List.nil_append, patch_cr_list_nil] at this
  rw [this]
  unfold patch_cr_snoc
  split <;> simp

theorem patch_cr_list_ne_nil (l : List Nat) (h : l ≠ []) : patch_cr_list l ≠ [] := by
  intro e
  have := patch_cr_list_length l
  rw [e] at this
  exact h (List.length_eq_zero.mp this.symm)

theorem patch_cr_snoc_cons (a x : Nat) (o : List Nat)
    (h : o ≠ [] ∨ a ≠ BACKSLASH ∨ x ≠ CR) :
    patch_cr_snoc (a :: o) x = a :: patch_cr_snoc o x := by
  unfold patch_cr_snoc
  by_cases hx : x = CR
  · rw [if_pos hx, if_pos hx]
    cases o with
    | nil =>
      have ha : a ≠ BACKSLASH := by
        rcases h with h | h | h
        · exact absurd rfl h
        · exact h
        · exact absurd hx h
      simp [ha]
    | cons b o2 =>
      rw [List.getLast?_cons_cons]
      split
      · simp
      · simp
  · rw [if_neg hx, if_neg hx]
    rfl

/-- A carriage return at the head of the buffer becomes a space. -/
theorem patch_cr_list_cr_cons (rest : List Nat) :
    patch_cr_list (CR :: rest) = SPACE :: patch_cr_list rest := by
  induction rest using List.reverseRecOn with
  | nil => decide
  | append_singleton r y ih =>
    rw [← List.cons_append, patch_cr_list_snoc, ih, patch_cr_list_snoc,
      patch_cr_snoc_cons _ _ _ (Or.inr (Or.inl SPACE_ne_BACKSLASH))]

/-- A byte that is not a carriage return, and is not a backslash directly before a
carriage return, stays at the head of the buffer. -/
theorem patch_cr_list_cons (x : Nat) (rest : List Nat) (hx : x ≠ CR)
    (h : x ≠ BACKSLASH ∨ rest.head? ≠ some CR) :
    patch_cr_list (x :: rest) = x :: patch_cr_list rest := by
  induction rest using List.reverseRecOn with
  | nil =>
    rw [patch_cr_list_singleton, if_neg hx, patch_cr_list_nil]
  | append_singleton r y ih =>
    rw [← List.cons_append, patch_cr_list_snoc, patch_cr_list_snoc]
    cases r with
    | nil =>
      rw [patch_cr_list_singleton, if_neg hx, patch_cr_list_nil]
      apply patch_cr_snoc_cons
      rcases h with h | h
      · exact Or.inr (Or.inl h)
      · refine Or.inr (Or.inr ?_)
        intro e
        apply h
        rw [e]
        rfl
    | cons b r2 =>
      have h2 : x ≠ BACKSLASH ∨ (b :: r2).head? ≠ some CR := by
        rcases h with h | h
        · exact Or.inl h
        · exact Or.inr (by simpa using h)
      rw [ih h2]
      exact patch_cr_snoc_cons _ _ _ (Or.inl (patch_cr_list_ne_nil _ (by simp)))

/-- A backslash directly before a carriage return becomes a space, and the backslash
moves on to the cell of the carriage return. -/
theorem patch_cr_list_backslash_cr (rest : List Nat) :
    patch_cr_list (BACKSLASH :: CR :: rest) = SPACE :: patch_cr_list (BACKSLASH :: rest) := by
  induction rest using List.reverseRecOn with
  | nil => decide
  | append_singleton r y ih =>
    have e1 : BACKSLASH :: CR :: (r ++ [y]) = (BACKSLASH :: CR :: r) ++ [y] := by simp
    have e2 : BACKSLASH :: (r ++ [y]) = (BACKSLASH :: r) ++ [y] := by simp
    rw [e1, e2, patch_cr_list_snoc, ih, patch_cr_list_snoc]
    exact patch_cr_snoc_cons _ _ _ (Or.inl (patch_cr_list_ne_nil _ (by simp)))

/-- A backslash followed by `n` carriage returns becomes `n` spaces followed by the
backslash, which then stands before what follows the carriage returns. -/
theorem patch_cr_list_backslash_crs (n : Nat) (post : List Nat) :
    patch_cr_list (BACKSLASH :: (List.replicate n CR ++ post)) =
      List.replicate n SPACE ++ patch_cr_list (BACKSLASH :: post) := by
  induction n with
  | zero => simp
  | succ n ih =>
    rw [List.replicate_succ, List.cons_append, patch_cr_list_backslash_cr, ih,
      List.replicate_succ, List.cons_append]

/-- Carriage returns at the head of the buffer become spaces. -/
theorem patch_cr_list_crs (n : Nat) (post : List Nat) :
    patch_cr_list (List.replicate n CR ++ post) = List.replicate n SPACE ++ patch_cr_list post := by
  induction n with
  | zero => simp
  | succ n ih =>
    rw [List.replicate_succ, List.cons_append, patch_cr_list_cr_cons, ih,
      List.replicate_succ, List.cons_append]

/-- The patched buffer of `pre ++ rest` is made of the patched `pre` and the patched
`rest`, when `rest` does not begin with a carriage return. -/
theorem patch_cr_list_append (pre rest : List Nat) (h : rest.head? ≠ some CR) :
    patch_cr_list (pre ++ rest) = patch_cr_list pre ++ patch_cr_list rest := by
  have key : ∀ (n : Nat) (pre : List Nat), pre.length = n →
      patch_cr_list (pre ++ rest) = patch_cr_list pre ++ patch_cr_list rest := by
    intro n
    induction n using Nat.strong_induction_on with
    | _ n ih =>
      intro pre hn
      cases pre with
      | nil => simp [patch_cr_list_nil]
      | cons x p =>
        simp only [List.length_cons] at hn
        by_cases hx : x = CR
        · subst hx
          rw [List.cons_append, patch_cr_list_cr_cons, patch_cr_list_cr_cons,
            ih p.length (by omega) p rfl, List.cons_append]
        · by_cases hb : x = BACKSLASH
          · subst hb
            cases p with
            | nil =>
              rw [List.cons_append, List.nil_append, patch_cr_list_cons _ _ hx (Or.inr h),
                patch_cr_list_singleton, if_neg hx]
              rfl
            | cons y p2 =>
              simp only [List.length_cons] at hn
              by_cases hy : y = CR
              · subst hy
                rw [List.cons_append, List.cons_append, patch_cr_list_backslash_cr,
                  patch_cr_list_backslash_cr, ← List.cons_append,
                  ih (p2.length + 1) (by omega) (BACKSLASH :: p2) (by simp), List.cons_append]
              · have hy2 : (y :: p2).head? ≠ some CR := by simpa using hy
                have hy3 : ((y :: p2) ++ rest).head? ≠ some CR := by simpa using hy
                rw [List.cons_append, patch_cr_list_cons _ _ hx (Or.inr hy3),
                  patch_cr_list_cons _ _ hx (Or.inr hy2),
                  ih (p2.length + 1) (by omega) (y :: p2) (by simp), List.cons_append]
          · rw [List.cons_append, patch_cr_list_cons _ _ hx (Or.inl hb),
              patch_cr_list_cons _ _ hx (Or.inl hb), ih p.length (by omega) p rfl,
              List.cons_append]
  exact key _ pre rfl

/-- No carriage return is left in the patched buffer. -/
theorem patch_cr_list_no_cr (l : List Nat) : CR ∉ patch_cr_list l := by
  intro hm
  obtain ⟨i, hi, he⟩ := List.mem_iff_getElem.mp hm
  have hi2 : i < l.length := by rw [patch_cr_list_length] at hi; exact hi
  have := (patch_cr_list_spec l i hi2).1
  rw [List.getD_eq_getElem _ _ hi] at this
  exact this he

/-- A buffer without carriage return is left as it is. -/
theorem patch_cr_list_of_no_cr (l : List Nat) (h : CR ∉ l) : patch_cr_list l = l := by
  induction l with
  | nil => rfl
  | cons x rest ih =>
    have hx : x ≠ CR := fun e => h (by simp [e])
    have hr : CR ∉ rest := fun e => h (List.mem_cons_of_mem _ e)
    have hh : rest.head? ≠ some CR := by
      intro e
      exact hr (List.mem_of_mem_head? e)
    rw [patch_cr_list_cons x rest hx (Or.inr hh), ih hr]

theorem patch_cr_list_idempotent (l : List Nat) :
    patch_cr_list (patch_cr_list l) = patch_cr_list l :=
  patch_cr_list_of_no_cr _ (patch_cr_list_no_cr l)

/-- C24: `patch_cr` on a buffer holding the bytes `l` leaves the bytes `patch_cr_list l`
there and touches no other cell.  The patched buffer has the length of `l` and holds no
carriage return, so that patching it again changes nothing.  A carriage return at the
head becomes a space; a backslash followed by `n` carriage returns (and then by something
else) becomes `n` spaces followed by the backslash; any other byte at the head stays; and
the patched buffer of `pre ++ l` is made of the two patched parts when `l` does not begin
with a carriage return.  By index: a byte that is neither a carriage return nor a
backslash directly before one is unchanged, a backslash directly before a carriage return
becomes a space, and a carriage return that is first or follows neither a backslash nor a
carriage return becomes a space. -/
theorem patch_cr_removes_every_cr (l : List Nat) :
    (patch_cr_list l).length = l.length ∧
    CR ∉ patch_cr_list l ∧
    patch_cr_list (patch_cr_list l) = patch_cr_list l ∧
    patch_cr_list (CR :: l) = SPACE :: patch_cr_list l ∧
    (∀ n : Nat, l.head? ≠ some CR →
      patch_cr_list (BACKSLASH :: (List.replicate n CR ++ l)) =
        List.replicate n SPACE ++ BACKSLASH :: patch_cr_list l) ∧
    (∀ x : Nat, x ≠ CR → x ≠ BACKSLASH → patch_cr_list (x :: l) = x :: patch_cr_list l) ∧
    (∀ pre : List Nat, l.head? ≠ some CR →
      patch_cr_list (pre ++ l) = patch_cr_list pre ++ patch_cr_list l) ∧
    (∀ i : Nat, i < l.length → l.getD i 0 ≠ CR →
      ¬ (l.getD i 0 = BACKSLASH ∧ i + 1 < l.length ∧ l.getD (i + 1) 0 = CR) →
      (patch_cr_list l).getD i 0 = l.getD i 0) ∧
    (∀ i : Nat, i + 1 < l.length → l.getD i 0 = BACKSLASH → l.getD (i + 1) 0 = CR →
      (patch_cr_list l).getD i 0 = SPACE) ∧
    (∀ i : Nat, i < l.length → l.getD i 0 = CR →
      (i = 0 ∨ (l.getD (i - 1) 0 ≠ BACKSLASH ∧ l.getD (i - 1) 0 ≠ CR)) →
      (patch_cr_list l).getD i 0 = SPACE) ∧
    (∀ (m : Mem) (start : Nat), (∀ i, i < l.length → m (start + i) = l.getD i 0) →
      (∀ k, k < l.length → patch_cr m start l.length (start + k) = (patch_cr_list l).getD k 0) ∧
      (∀ j, j < start ∨ start + l.length ≤ j → patch_cr m start l.length j = m j)) := by
  refine ⟨patch_cr_list_length l, patch_cr_list_no_cr l, patch_cr_list_idempotent l,
    patch_cr_list_cr_cons l, ?_, ?_, ?_, ?_, ?_, ?_, ?_⟩
  · intro n h
    rw [patch_cr_list_backslash_crs, patch_cr_list_cons _ _ CR_ne_BACKSLASH.symm (Or.inr h)]
  · intro x hx hb
    exact patch_cr_list_cons x l hx (Or.inl hb)
  · intro pre h
    exact patch_cr_list_append pre l h
  · intro i hi h1 h2
    exact (patch_cr_list_spec l i hi).2.2.2.2.2 h1 h2
  · intro i hi h1 h2
    exact (patch_cr_list_spec l i (by omega)).2.1 h1 hi h2
  · intro i hi h1 h2
    exact (patch_cr_list_spec l i hi).2.2.2.2.1 h1 h2
  · intro m start hm
    refine ⟨fun k hk => patch_cr_eq_patch_cr_list m start l hm k hk, ?_⟩
    intro j hj
    rcases hj with hj | hj
    · exact patch_cr_frame m start l.length j hj
    · unfold patch_cr
      exact patch_cr_loop_above _ _ _ _ _ hj

/-- C24 witness: the buffer `\ CR CR LF`: the backslash followed by two carriage returns
becomes two spaces followed by the backslash. -/
theorem patch_cr_removes_every_cr_witness :
    [10].head? ≠ some CR ∧
    patch_cr_list (BACKSLASH :: (List.replicate 2 CR ++ [10])) =
      List.replicate 2 SPACE ++ BACKSLASH :: patch_cr_list [10] :=
  ⟨by decide, (patch_cr_removes_every_cr [10]).2.2.2.2.1 2 (by decide)⟩

end Winfs
